import Mathlib

/-!
Verification development for the anti-aliased rasterizer cell builder of
`gfx_utils/diagram/rasterizer/rasterizer_cells_antialias.h` (namespace OHOS).

The C++ template `RasterizerCellsAntiAlias<Cell>` is instantiated at the
concrete cell type `CellBuildAntiAlias` (the default cell of the same header:
its `Style` hook is a no-op and `NotEqual` compares the pixel coordinates
only), so the embedding models that instantiation directly.

Modelling conventions:
  - `int32_t` / `long long` values are modelled as `Int`.  All arithmetic in
    the rasterizer stays far inside the 32-bit range for the in-range inputs
    the theorems use, so no wrap-around is applied; where C computes in
    `long long` (the `dx`/`dy` deltas) the `Int` model is exact by
    construction.
  - `x >> POLY_SUBPIXEL_SHIFT` (arithmetic shift of a two's-complement value)
    is floor division, written `x / 256` (`Int./` is Euclidean division,
    which agrees with floor division for a positive divisor).
  - `x & POLY_SUBPIXEL_MASK` on a two's-complement value is `x % 256`
    (`Int.%` is Euclidean: the result is always in `[0, 256)`).
  - C++ `/` and `%` on signed operands truncate toward zero: they are
    `Int.tdiv` and `Int.tmod`.
  - the cell pool (`cells_` blocks and `currCellPtr_`) hands cells out in
    commit order and never moves them; it is modelled by the list `cellsRev`
    of committed cells, most recently committed first (prepending keeps the
    model executable), together with the `numBlocks_`/`currBlock_` counters
    that drive the block-limit cutoff.  `maxBlocks_` and the pointer-table
    growth in `AllocateBlock` only manage raw memory and are not observable.
  - `while` loops that step a counter by `increase = ±1` until it reaches a
    target are expressed with their iteration count (a `Nat`): on every input
    the C++ code reaches (where `increase` has the sign of the remaining
    distance) the two forms take identical steps.
  - a ghost field `droppedRev` records the cells that the block-limit
    cutoff in `AddCurrentCell` discarded (most recent first); the C++ code
    drops silently (the spec itself asks for an observable counter or flag
    for exactly this cutoff).  No other definition reads the ghost field.
-/

namespace OHOS

/-- POLY_SUBPIXEL_SHIFT from the shared fixed-point constants (8 fractional
bits, as the spec states). -/
def POLY_SUBPIXEL_SHIFT : Nat := 8

/-- POLY_SUBPIXEL_SCALE = 1 << POLY_SUBPIXEL_SHIFT. -/
def POLY_SUBPIXEL_SCALE : Int := 256

/-- POLY_SUBPIXEL_MASK = POLY_SUBPIXEL_SCALE - 1. -/
def POLY_SUBPIXEL_MASK : Int := 255

/-- Modelled from the spec: the constant `CONSTITUTION` comes from
`common_math.h`, which is not part of this repository snapshot.  The spec
derives the safety limit from "the maximum value representable after
multiplying by the sub-pixel scale without overflowing the accumulator",
which for 32-bit accumulators and scale 256 gives the classic value 16384
(so that DX_LIMIT = 16384 << 8 = 2^22 and products with the sub-pixel scale
stay below 2^31). -/
def CONSTITUTION : Int := 16384

/-- DX_LIMIT = CONSTITUTION << POLY_SUBPIXEL_SHIFT. -/
def DX_LIMIT : Int := CONSTITUTION * 256

/-- CELL_BLOCK_SHIFT of the cell pool. -/
def CELL_BLOCK_SHIFT : Nat := 12

/-- CELL_BLOCK_SIZE = 1 << CELL_BLOCK_SHIFT: cells per pool block. -/
def CELL_BLOCK_SIZE : Nat := 4096

/-- The sentinel used by `CellBuildAntiAlias::Initial` for the unset
coordinates: `std::numeric_limits<int32_t>::max()`. -/
def INT32_SENTINEL : Int := 2147483647

/-- The cell record of `struct CellBuildAntiAlias`: pixel coordinates and the
two signed accumulators. -/
structure CellBuildAntiAlias where
  x : Int
  y : Int
  cover : Int
  area : Int
deriving Repr, DecidableEq

/-- `CellBuildAntiAlias::Initial()`: sentinel coordinates, zero accumulators. -/
def CellBuildAntiAlias.initialCell : CellBuildAntiAlias :=
  { x := INT32_SENTINEL, y := INT32_SENTINEL, cover := 0, area := 0 }

/-- `CellBuildAntiAlias::NotEqual(ex, ey, style)`: the C++ code returns the
bitwise OR of the two `uint32_t` coordinate differences, which is nonzero
iff one of the coordinates differs (the style hook of this cell type carries
no data). -/
def CellBuildAntiAlias.notEqual (c : CellBuildAntiAlias) (ex ey : Int) : Bool :=
  ex != c.x || ey != c.y

/-- One `{start, num}` entry of the per-row table `sortedY_`
(`struct SortedYLevel`). -/
structure SortedYLevel where
  start : Nat
  num : Nat
deriving Repr, DecidableEq

/-- The state of `RasterizerCellsAntiAlias<CellBuildAntiAlias>`.

`cellsRev` holds the committed cells, most recent first (see the header
comment); `sortedCells` / `sortedY` model the two `GeometryPlaindataVector`
members (plain growable arrays, their type is declared in a header outside
this repository snapshot; modelled from the spec as flat arrays);
`droppedRev` is the ghost list of dropped cells described in the header
comment. -/
structure RasterizerCellsAntiAlias where
  numBlocks : Nat
  currBlock : Nat
  numCells : Nat
  cellBlockLimit : Nat
  cellsRev : List CellBuildAntiAlias
  currCell : CellBuildAntiAlias
  minX : Int
  minY : Int
  maxX : Int
  maxY : Int
  sorted : Bool
  sortedCells : Array CellBuildAntiAlias
  sortedY : Array SortedYLevel
  droppedRev : List CellBuildAntiAlias
deriving Repr, DecidableEq

/-- The constructor `RasterizerCellsAntiAlias(cellBlockLimit)`. -/
def initState (cellBlockLimit : Nat) : RasterizerCellsAntiAlias where
  numBlocks := 0
  currBlock := 0
  numCells := 0
  cellBlockLimit := cellBlockLimit
  cellsRev := []
  currCell := CellBuildAntiAlias.initialCell
  minX := 2147483647
  minY := 2147483647
  maxX := -2147483648
  maxY := -2147483648
  sorted := false
  sortedCells := #[]
  sortedY := #[]
  droppedRev := []

/-- `RasterizerCellsAntiAlias::Reset()`: cell count and block cursor go back
to zero, the allocated blocks (`numBlocks_`) are retained for reuse. -/
def reset (s : RasterizerCellsAntiAlias) : RasterizerCellsAntiAlias :=
  { s with
    numCells := 0
    currBlock := 0
    cellsRev := []
    currCell := CellBuildAntiAlias.initialCell
    sorted := false
    minX := 2147483647
    minY := 2147483647
    maxX := -2147483648
    maxY := -2147483648 }

/-- `RasterizerCellsAntiAlias::AllocateBlock()`: a fresh block is allocated
only when the block cursor has caught up with the allocated count; the
current cell pointer is parked at the start of block `currBlock_` (committed
cells are appended in order, so only the counters are observable). -/
def allocateBlock (s : RasterizerCellsAntiAlias) : RasterizerCellsAntiAlias :=
  if s.numBlocks ≤ s.currBlock then
    { s with numBlocks := s.numBlocks + 1, currBlock := s.currBlock + 1 }
  else
    { s with currBlock := s.currBlock + 1 }

/-- `RasterizerCellsAntiAlias::AddCurrentCell()`: a cell with
`area | cover == 0` (both accumulators zero) is not stored; at a block
boundary (`numCells_ & CELL_BLOCK_MASK == 0`) the commit first needs a block
and is dropped silently once `numBlocks_ >= cellBlockLimit_` (the ghost list
records the dropped cell). -/
def addCurrentCell (s : RasterizerCellsAntiAlias) : RasterizerCellsAntiAlias :=
  if s.currCell.area ≠ 0 ∨ s.currCell.cover ≠ 0 then
    if s.numCells % CELL_BLOCK_SIZE = 0 then
      if s.cellBlockLimit ≤ s.numBlocks then
        { s with droppedRev := s.currCell :: s.droppedRev }
      else
        let s1 := allocateBlock s
        { s1 with cellsRev := s1.currCell :: s1.cellsRev, numCells := s1.numCells + 1 }
    else
      { s with cellsRev := s.currCell :: s.cellsRev, numCells := s.numCells + 1 }
  else
    s

/-- `RasterizerCellsAntiAlias::SetCurrentCell(x, y)`: on an identity change
the accumulator cell is committed and restarted at `(x, y)` with zero
cover/area. -/
def setCurrentCell (s : RasterizerCellsAntiAlias) (x y : Int) : RasterizerCellsAntiAlias :=
  if s.currCell.notEqual x y then
    let s1 := addCurrentCell s
    { s1 with currCell := { x := x, y := y, cover := 0, area := 0 } }
  else
    s

/-- `RasterizerCellsAntiAlias::OutLineLegal(x1, y1, x2, y2)`: running
bounding box over both endpoints. -/
def outLineLegal (s : RasterizerCellsAntiAlias) (x1 y1 x2 y2 : Int) : RasterizerCellsAntiAlias :=
  { s with
    minX := min (min s.minX x1) x2
    maxX := max (max s.maxX x1) x2
    minY := min (min s.minY y1) y2
    maxY := max (max s.maxY y1) y2 }

/-- The accumulation motif `currCell_.cover += delta; currCell_.area += a` that
the walkers apply to the current cell. -/
def accumCover (t : RasterizerCellsAntiAlias) (delta a : Int) : RasterizerCellsAntiAlias :=
  { t with currCell :=
    { t.currCell with
      cover := t.currCell.cover + delta
      area := t.currCell.area + a } }

/-- The assignment motif `currCell_.cover = c; currCell_.area = a` of the
vertical-line walk. -/
def assignCover (t : RasterizerCellsAntiAlias) (c a : Int) : RasterizerCellsAntiAlias :=
  { t with currCell := { t.currCell with cover := c, area := a } }

/-- The inner column walk of `RenderHorizonline` (`while (pixelX1 != pixelX2)`),
expressed with its iteration count `n`.  Arguments mirror the loop state:
the running `pixelX1`, `modDxMask` and `polySubpixelMaskY1`; `liftDxMask`,
`remDxMask`, `dx`, `increase` and `ey` are loop-invariant.  Returns the state
together with the final `pixelX1`, `modDxMask`, `polySubpixelMaskY1`. -/
def renderHLoop (ey increase liftDxMask remDxMask dx : Int) :
    Nat → Int → Int → Int → RasterizerCellsAntiAlias →
    RasterizerCellsAntiAlias × Int × Int × Int
  | 0, pixelX1, modDxMask, maskY1, s => (s, pixelX1, modDxMask, maskY1)
  | n + 1, pixelX1, modDxMask, maskY1, s =>
    let delta := liftDxMask
    let modDxMask := modDxMask + remDxMask
    let p : Int × Int :=
      if 0 ≤ modDxMask then (delta + 1, modDxMask - dx) else (delta, modDxMask)
    let delta := p.1
    let modDxMask := p.2
    let s := accumCover s delta (POLY_SUBPIXEL_SCALE * delta)
    let maskY1 := maskY1 + delta
    let pixelX1 := pixelX1 + increase
    let s := setCurrentCell s pixelX1 ey
    renderHLoop ey increase liftDxMask remDxMask dx n pixelX1 modDxMask maskY1 s

/-- `RasterizerCellsAntiAlias::RenderHorizonline(ey, x1, polySubpixelMaskY1,
x2, polySubpixelMaskY2)`. -/
def renderHorizonline (s : RasterizerCellsAntiAlias)
    (ey x1 maskY1 x2 maskY2 : Int) : RasterizerCellsAntiAlias :=
  let submaskFlagsX1 := x1 % 256
  let submaskFlagsX2 := x2 % 256
  let pixelX1 := x1 / 256
  let pixelX2 := x2 / 256
  if maskY2 = maskY1 then
    setCurrentCell s pixelX2 ey
  else if pixelX1 = pixelX2 then
    let delta := maskY2 - maskY1
    accumCover s delta ((submaskFlagsX1 + submaskFlagsX2) * delta)
  else
    let q : Int × Int × Int × Int :=
      if x2 - x1 < 0 then
        (0, -1, -(x2 - x1), submaskFlagsX1 * (maskY2 - maskY1))
      else
        (POLY_SUBPIXEL_SCALE, 1, x2 - x1, (POLY_SUBPIXEL_SCALE - submaskFlagsX1) * (maskY2 - maskY1))
    let first := q.1
    let increase := q.2.1
    let dx := q.2.2.1
    let deltayMask := q.2.2.2
    let delta0 := deltayMask.tdiv dx
    let modDxMask0 := deltayMask.tmod dx
    let p : Int × Int :=
      if modDxMask0 < 0 then (delta0 - 1, modDxMask0 + dx) else (delta0, modDxMask0)
    let delta := p.1
    let modDxMask := p.2
    let s := accumCover s delta ((submaskFlagsX1 + first) * delta)
    let pixelX1 := pixelX1 + increase
    let s := setCurrentCell s pixelX1 ey
    let maskY1 := maskY1 + delta
    if pixelX1 ≠ pixelX2 then
      let deltayMask := POLY_SUBPIXEL_SCALE * (maskY2 - maskY1 + delta)
      let remDxMask0 := deltayMask.tmod dx
      let liftDxMask0 := deltayMask.tdiv dx
      let p2 : Int × Int :=
        if remDxMask0 < 0 then (liftDxMask0 - 1, remDxMask0 + dx) else (liftDxMask0, remDxMask0)
      let liftDxMask := p2.1
      let remDxMask := p2.2
      let modDxMask := modDxMask - dx
      let n : Nat := ((pixelX2 - pixelX1) * increase).toNat
      let r := renderHLoop ey increase liftDxMask remDxMask dx n pixelX1 modDxMask maskY1 s
      let s := r.1
      let maskY1 := r.2.2.2
      let delta := maskY2 - maskY1
      accumCover s delta ((submaskFlagsX2 + POLY_SUBPIXEL_SCALE - first) * delta)
    else
      let delta := maskY2 - maskY1
      accumCover s delta ((submaskFlagsX2 + POLY_SUBPIXEL_SCALE - first) * delta)

/-- The row walk of the vertical-line branch of `LineOperate`
(`while (ey1 != ey2)`), expressed with its iteration count.  Each step
assigns `cover = delta`, `area = area` on the current cell, moves one row and
re-targets the current cell.  Returns the state and the final `ey1`. -/
def vertLoop (ex increase delta area : Int) :
    Nat → Int → RasterizerCellsAntiAlias → RasterizerCellsAntiAlias × Int
  | 0, ey1, s => (s, ey1)
  | n + 1, ey1, s =>
    let s := assignCover s delta area
    let ey1 := ey1 + increase
    let s := setCurrentCell s ex ey1
    vertLoop ex increase delta area n ey1 s

/-- The row walk of the general sloped branch of `LineOperate`
(`while (ey1 != ey2)`), expressed with its iteration count.  Loop state:
`ey1`, `xFrom`, `modDyMask`; invariant: `first`, `increase`, `liftDyMask`,
`remDyMask`, `dy`.  Returns the state with the final `xFrom`, `ey1`. -/
def genLoop (first increase liftDyMask remDyMask dy : Int) :
    Nat → Int → Int → Int → RasterizerCellsAntiAlias →
    RasterizerCellsAntiAlias × Int × Int
  | 0, ey1, xFrom, _, s => (s, xFrom, ey1)
  | n + 1, ey1, xFrom, modDyMask, s =>
    let modDyMask := modDyMask + remDyMask
    let delta := if 0 ≤ modDyMask then liftDyMask + 1 else liftDyMask
    let modDyMask := if 0 ≤ modDyMask then modDyMask - dy else modDyMask
    let xTo := xFrom + delta
    let s := renderHorizonline s ey1 xFrom (POLY_SUBPIXEL_SCALE - first) xTo first
    let xFrom := xTo
    let ey1 := ey1 + increase
    let s := setCurrentCell s (xFrom / 256) ey1
    genLoop first increase liftDyMask remDyMask dy n ey1 xFrom modDyMask s

/-- The body of `RasterizerCellsAntiAlias::LineOperate` after the DX_LIMIT
check: bounding box, same-row / vertical / general sloped rendering. -/
def lineOperateBody (s : RasterizerCellsAntiAlias) (x1 y1 x2 y2 : Int) :
    RasterizerCellsAntiAlias :=
  let dy := y2 - y1
  let ex1 := x1 / 256
  let ex2 := x2 / 256
  let ey1 := y1 / 256
  let ey2 := y2 / 256
  let submaskFlagsY1 := y1 % 256
  let submaskFlagsY2 := y2 % 256
  let s := outLineLegal s ex1 ey1 ex2 ey2
  let s := setCurrentCell s ex1 ey1
  if ey1 = ey2 then
    renderHorizonline s ey1 x1 submaskFlagsY1 x2 submaskFlagsY2
  else if x2 - x1 = 0 then
    let ex := x1 / 256
    let twoFx := (x1 - ex * 256) * 2
    let q : Int × Int := if dy < 0 then (0, -1) else (POLY_SUBPIXEL_SCALE, 1)
    let first := q.1
    let increase := q.2
    let delta := first - submaskFlagsY1
    let s := accumCover s delta (twoFx * delta)
    let ey1c := ey1 + increase
    let s := setCurrentCell s ex ey1c
    let delta2 := first + first - POLY_SUBPIXEL_SCALE
    let area2 := twoFx * delta2
    let n : Nat := ((ey2 - ey1c) * increase).toNat
    let r := vertLoop ex increase delta2 area2 n ey1c s
    let s := r.1
    let delta3 := submaskFlagsY2 - POLY_SUBPIXEL_SCALE + first
    accumCover s delta3 (twoFx * delta3)
  else
    let q : Int × Int × Int × Int :=
      if dy < 0 then
        (submaskFlagsY1 * (x2 - x1), 0, -1, -dy)
      else
        ((POLY_SUBPIXEL_SCALE - submaskFlagsY1) * (x2 - x1), POLY_SUBPIXEL_SCALE, 1, dy)
    let deltaxMask := q.1
    let first := q.2.1
    let increase := q.2.2.1
    let dyAbs := q.2.2.2
    let delta0 := deltaxMask.tdiv dyAbs
    let modDyMask0 := deltaxMask.tmod dyAbs
    let p : Int × Int :=
      if modDyMask0 < 0 then (delta0 - 1, modDyMask0 + dyAbs) else (delta0, modDyMask0)
    let delta := p.1
    let modDyMask := p.2
    let xFrom := x1 + delta
    let s := renderHorizonline s ey1 x1 submaskFlagsY1 xFrom first
    let ey1c := ey1 + increase
    let s := setCurrentCell s (xFrom / 256) ey1c
    if ey1c ≠ ey2 then
      let deltaxMask := POLY_SUBPIXEL_SCALE * (x2 - x1)
      let liftDyMask0 := deltaxMask.tdiv dyAbs
      let remDyMask0 := deltaxMask.tmod dyAbs
      let p2 : Int × Int :=
        if remDyMask0 < 0 then (liftDyMask0 - 1, remDyMask0 + dyAbs) else (liftDyMask0, remDyMask0)
      let liftDyMask := p2.1
      let remDyMask := p2.2
      let modDyMask := modDyMask - dyAbs
      let n : Nat := ((ey2 - ey1c) * increase).toNat
      let r := genLoop first increase liftDyMask remDyMask dyAbs n ey1c xFrom modDyMask s
      let s := r.1
      let xFromF := r.2.1
      let ey1F := r.2.2
      renderHorizonline s ey1F xFromF (POLY_SUBPIXEL_SCALE - first) x2 submaskFlagsY2
    else
      renderHorizonline s ey1c xFrom (POLY_SUBPIXEL_SCALE - first) x2 submaskFlagsY2

/-- The recursion of `RasterizerCellsAntiAlias::LineOperate` expressed with a
fuel argument so that it is structural (and therefore reduces inside the
kernel).  One unit of fuel is spent per bisection level; since every
bisection strictly shrinks `|x2 - x1|`, a fuel of `(x2 - x1).natAbs` is
always sufficient, and `lineOperate_eq` below proves that the fueled
definition satisfies exactly the recurrence written in the C++ source. -/
def lineOperateAux :
    Nat → RasterizerCellsAntiAlias → Int → Int → Int → Int →
    RasterizerCellsAntiAlias
  | 0, s, x1, y1, x2, y2 => lineOperateBody s x1 y1 x2 y2
  | fuel + 1, s, x1, y1, x2, y2 =>
    if DX_LIMIT ≤ x2 - x1 ∨ x2 - x1 ≤ -DX_LIMIT then
      let cx := (x1 + x2) / 2
      let cy := (y1 + y2) / 2
      let s1 := lineOperateAux fuel s x1 y1 cx cy
      let s2 := lineOperateAux fuel s1 cx cy x2 y2
      lineOperateBody s2 x1 y1 x2 y2
    else
      lineOperateBody s x1 y1 x2 y2

/-- `RasterizerCellsAntiAlias::LineOperate(x1, y1, x2, y2)`.  When
`|x2 - x1| >= DX_LIMIT` the segment is bisected at the midpoint and both
halves are rasterized recursively; note that the C++ code has no `return`
after the recursion, so it then falls through and rasterizes the whole
segment as well (`lineOperate_eq` exhibits the recurrence; the fall-through
is reproduced faithfully). -/
def lineOperate (s : RasterizerCellsAntiAlias) (x1 y1 x2 y2 : Int) :
    RasterizerCellsAntiAlias :=
  lineOperateAux (x2 - x1).natAbs s x1 y1 x2 y2

theorem bisect_natAbs_left {x1 x2 : Int}
    (h : DX_LIMIT ≤ x2 - x1 ∨ x2 - x1 ≤ -DX_LIMIT) :
    ((x1 + x2) / 2 - x1).natAbs < (x2 - x1).natAbs := by
  simp only [DX_LIMIT, CONSTITUTION] at h
  omega

theorem bisect_natAbs_right {x1 x2 : Int}
    (h : DX_LIMIT ≤ x2 - x1 ∨ x2 - x1 ≤ -DX_LIMIT) :
    (x2 - (x1 + x2) / 2).natAbs < (x2 - x1).natAbs := by
  simp only [DX_LIMIT, CONSTITUTION] at h
  omega

/-- Any two sufficient fuels compute the same result. -/
theorem lineOperateAux_congr :
    ∀ (n f1 f2 : Nat) (s : RasterizerCellsAntiAlias) (x1 y1 x2 y2 : Int),
      (x2 - x1).natAbs ≤ n → (x2 - x1).natAbs ≤ f1 → (x2 - x1).natAbs ≤ f2 →
      lineOperateAux f1 s x1 y1 x2 y2 = lineOperateAux f2 s x1 y1 x2 y2 := by
  intro n
  induction n using Nat.strong_induction_on with
  | _ n ih =>
    intro f1 f2 s x1 y1 x2 y2 hn h1 h2
    by_cases hg : DX_LIMIT ≤ x2 - x1 ∨ x2 - x1 ≤ -DX_LIMIT
    · have hpos : 1 ≤ (x2 - x1).natAbs := by
        simp only [DX_LIMIT, CONSTITUTION] at hg
        omega
      obtain ⟨a, rfl⟩ : ∃ a, f1 = a + 1 := ⟨f1 - 1, by omega⟩
      obtain ⟨b, rfl⟩ : ∃ b, f2 = b + 1 := ⟨f2 - 1, by omega⟩
      have hL := bisect_natAbs_left hg
      have hR := bisect_natAbs_right hg
      simp only [lineOperateAux, if_pos hg]
      have e1 : lineOperateAux a s x1 y1 ((x1 + x2) / 2) ((y1 + y2) / 2) =
          lineOperateAux b s x1 y1 ((x1 + x2) / 2) ((y1 + y2) / 2) :=
        ih (((x1 + x2) / 2) - x1).natAbs (by omega) a b s x1 y1 _ _ le_rfl
          (by omega) (by omega)
      rw [e1]
      have e2 : lineOperateAux a
            (lineOperateAux b s x1 y1 ((x1 + x2) / 2) ((y1 + y2) / 2))
            ((x1 + x2) / 2) ((y1 + y2) / 2) x2 y2 =
          lineOperateAux b
            (lineOperateAux b s x1 y1 ((x1 + x2) / 2) ((y1 + y2) / 2))
            ((x1 + x2) / 2) ((y1 + y2) / 2) x2 y2 :=
        ih (x2 - ((x1 + x2) / 2)).natAbs (by omega) a b _ _ _ _ _ le_rfl
          (by omega) (by omega)
      rw [e2]
    · cases f1 with
      | zero => cases f2 with
        | zero => rfl
        | succ b => simp only [lineOperateAux, if_neg hg]
      | succ a => cases f2 with
        | zero => simp only [lineOperateAux, if_neg hg]
        | succ b => simp only [lineOperateAux, if_neg hg]

/-- The fueled `lineOperate` satisfies the recurrence of the C++ source:
bisect-and-recurse when `|dx|` reaches `DX_LIMIT` — and then, because the
source lacks a `return` after the recursion, fall through to rasterize the
whole segment as well; otherwise just rasterize the segment. -/
theorem lineOperate_eq (s : RasterizerCellsAntiAlias) (x1 y1 x2 y2 : Int) :
    lineOperate s x1 y1 x2 y2 =
      if DX_LIMIT ≤ x2 - x1 ∨ x2 - x1 ≤ -DX_LIMIT then
        lineOperateBody
          (lineOperate (lineOperate s x1 y1 ((x1 + x2) / 2) ((y1 + y2) / 2))
            ((x1 + x2) / 2) ((y1 + y2) / 2) x2 y2)
          x1 y1 x2 y2
      else
        lineOperateBody s x1 y1 x2 y2 := by
  by_cases hg : DX_LIMIT ≤ x2 - x1 ∨ x2 - x1 ≤ -DX_LIMIT
  · have hpos : 1 ≤ (x2 - x1).natAbs := by
      simp only [DX_LIMIT, CONSTITUTION] at hg
      omega
    have hL := bisect_natAbs_left hg
    have hR := bisect_natAbs_right hg
    rw [if_pos hg]
    show lineOperateAux (x2 - x1).natAbs s x1 y1 x2 y2 = _
    obtain ⟨a, ha⟩ : ∃ a, (x2 - x1).natAbs = a + 1 := ⟨(x2 - x1).natAbs - 1, by omega⟩
    rw [ha]
    simp only [lineOperateAux, if_pos hg]
    rw [lineOperateAux_congr (((x1 + x2) / 2) - x1).natAbs a _ s x1 y1 _ _ le_rfl
      (by omega) le_rfl]
    rw [lineOperateAux_congr (x2 - ((x1 + x2) / 2)).natAbs a _ _ _ _ _ _ le_rfl
      (by omega) le_rfl]
    rfl
  · rw [if_neg hg]
    show lineOperateAux (x2 - x1).natAbs s x1 y1 x2 y2 = _
    cases h : (x2 - x1).natAbs with
    | zero => rfl
    | succ a => simp only [lineOperateAux, if_neg hg]

/-- With `|x2 - x1| < DX_LIMIT` a `LineOperate` call is exactly its body. -/
theorem lineOperate_eq_body (s : RasterizerCellsAntiAlias) {x1 y1 x2 y2 : Int}
    (h : ¬(DX_LIMIT ≤ x2 - x1 ∨ x2 - x1 ≤ -DX_LIMIT)) :
    lineOperate s x1 y1 x2 y2 = lineOperateBody s x1 y1 x2 y2 := by
  rw [lineOperate_eq, if_neg h]

/-! ### The sort phase

`QsortCells` and its helpers operate in place on the flat cell-pointer array
`sortedCells_`; the embedding replaces pointers into cell storage by the cell
values themselves and raw pointer arithmetic by indices into the array
(`base`/`limit`/`iIndex`/`jIndex` become `Nat` indices).  The unbounded
pointer scans of `QsortCellsSweep` rely on the median-of-three sentinels to
stay inside the range; the embedding adds the range bound to the scan
condition, which never binds on inputs where the sentinel exists, and makes
the functions total. -/

/-- The out-of-range default cell for array reads (the C++ code never reads
out of range on the inputs the proofs use). -/
def cellDefault : CellBuildAntiAlias := { x := 0, y := 0, cover := 0, area := 0 }

/-- `SwapCells(one, two)` on positions `i`, `j` of the array. -/
def swapCells (a : Array CellBuildAntiAlias) (i j : Nat) : Array CellBuildAntiAlias :=
  let t := a.getD i cellDefault
  (a.setD i (a.getD j cellDefault)).setD j t

/-- The `x` value at a position of the array. -/
def getCellX (a : Array CellBuildAntiAlias) (i : Nat) : Int :=
  (a.getD i cellDefault).x

/-- The forward scan `do { iIndex++; } while ((**iIndex)->x < x)` of
`QsortCellsSweep`, bounded by `limit`. -/
def qsortScanI (a : Array CellBuildAntiAlias) (x : Int) (limit : Nat) (i : Nat) : Nat :=
  if h : i + 1 < limit ∧ getCellX a (i + 1) < x then
    qsortScanI a x limit (i + 1)
  else
    i + 1
termination_by limit - i
decreasing_by
  simp_wf
  omega

/-- The backward scan `do { jIndex--; } while (x < (**jIndex)->x)` of
`QsortCellsSweep`, bounded by `base`. -/
def qsortScanJ (a : Array CellBuildAntiAlias) (x : Int) (base : Nat) (j : Nat) : Nat :=
  if h : base < j - 1 ∧ x < getCellX a (j - 1) then
    qsortScanJ a x base (j - 1)
  else
    j - 1
termination_by j
decreasing_by
  simp_wf
  omega

theorem qsortScanI_lt (a : Array CellBuildAntiAlias) (x : Int) (limit : Nat) :
    ∀ i, i + 1 ≤ qsortScanI a x limit i ∧ qsortScanI a x limit i ≤ max (i + 1) limit := by
  have main : ∀ (n i : Nat), limit - i ≤ n →
      i + 1 ≤ qsortScanI a x limit i ∧ qsortScanI a x limit i ≤ max (i + 1) limit := by
    intro n
    induction n with
    | zero =>
      intro i hn
      rw [qsortScanI]
      by_cases h : i + 1 < limit ∧ getCellX a (i + 1) < x
      · omega
      · rw [dif_neg h]
        omega
    | succ n ih =>
      intro i hn
      rw [qsortScanI]
      by_cases h : i + 1 < limit ∧ getCellX a (i + 1) < x
      · rw [dif_pos h]
        have := ih (i + 1) (by omega)
        omega
      · rw [dif_neg h]
        omega
  exact fun i => main (limit - i) i le_rfl

theorem qsortScanJ_le (a : Array CellBuildAntiAlias) (x : Int) (base : Nat) :
    ∀ j, qsortScanJ a x base j ≤ j - 1 := by
  have main : ∀ (n j : Nat), j ≤ n → qsortScanJ a x base j ≤ j - 1 := by
    intro n
    induction n with
    | zero =>
      intro j hn
      rw [qsortScanJ]
      by_cases h : base < j - 1 ∧ x < getCellX a (j - 1)
      · omega
      · rw [dif_neg h]
    | succ n ih =>
      intro j hn
      rw [qsortScanJ]
      by_cases h : base < j - 1 ∧ x < getCellX a (j - 1)
      · rw [dif_pos h]
        have := ih (j - 1) (by omega)
        omega
      · rw [dif_neg h]
  exact fun j => main j j le_rfl

/-- The `while (1)` partition loop of `QsortCellsSweep`: scan, stop when the
indices cross, otherwise swap and continue.  Returns the array and the final
`iIndex`, `jIndex`. -/
def qsortSweepLoop (x : Int) (base limit : Nat) (a : Array CellBuildAntiAlias)
    (i j : Nat) : Array CellBuildAntiAlias × Nat × Nat :=
  let i1 := qsortScanI a x limit i
  let j1 := qsortScanJ a x base j
  if _h : j1 < i1 then
    (a, i1, j1)
  else
    qsortSweepLoop x base limit (swapCells a i1 j1) i1 j1
termination_by j - i
decreasing_by
  simp_wf
  have hi := (qsortScanI_lt a x limit i).1
  have hj := qsortScanJ_le a x base j
  omega

theorem qsortSweepLoop_facts (x : Int) (base limit : Nat) :
    ∀ (a : Array CellBuildAntiAlias) (i j : Nat),
      (qsortSweepLoop x base limit a i j).2.2 < (qsortSweepLoop x base limit a i j).2.1 ∧
      i + 1 ≤ (qsortSweepLoop x base limit a i j).2.1 ∧
      (qsortSweepLoop x base limit a i j).2.2 ≤ j - 1 := by
  have main : ∀ (n : Nat) (a : Array CellBuildAntiAlias) (i j : Nat), j - i ≤ n →
      (qsortSweepLoop x base limit a i j).2.2 < (qsortSweepLoop x base limit a i j).2.1 ∧
      i + 1 ≤ (qsortSweepLoop x base limit a i j).2.1 ∧
      (qsortSweepLoop x base limit a i j).2.2 ≤ j - 1 := by
    intro n
    induction n with
    | zero =>
      intro a i j hn
      rw [qsortSweepLoop]
      have hi := (qsortScanI_lt a x limit i).1
      have hj := qsortScanJ_le a x base j
      by_cases h : qsortScanJ a x base j < qsortScanI a x limit i
      · simp only [dif_pos h]
        omega
      · omega
    | succ n ih =>
      intro a i j hn
      rw [qsortSweepLoop]
      have hi := (qsortScanI_lt a x limit i).1
      have hj := qsortScanJ_le a x base j
      by_cases h : qsortScanJ a x base j < qsortScanI a x limit i
      · simp only [dif_pos h]
        omega
      · simp only [dif_neg h]
        have := ih (swapCells a (qsortScanI a x limit i) (qsortScanJ a x base j))
          (qsortScanI a x limit i) (qsortScanJ a x base j) (by omega)
        omega
  exact fun a i j => main (j - i) a i j le_rfl

/-- `QsortCellsSweep(&base, &iIndex, &jIndex)`: the three conditional swaps
establishing `*iIndex <= *base <= *jIndex` (median of three), then the
partition loop around the pivot at `base`. -/
def qsortCellsSweep (a : Array CellBuildAntiAlias) (base i j limit : Nat) :
    Array CellBuildAntiAlias × Nat × Nat :=
  let a := if getCellX a j < getCellX a i then swapCells a i j else a
  let a := if getCellX a base < getCellX a i then swapCells a base i else a
  let a := if getCellX a j < getCellX a base then swapCells a base j else a
  qsortSweepLoop (getCellX a base) base limit a i j

theorem qsortCellsSweep_facts (a : Array CellBuildAntiAlias) (base i j limit : Nat) :
    (qsortCellsSweep a base i j limit).2.2 < (qsortCellsSweep a base i j limit).2.1 ∧
    i + 1 ≤ (qsortCellsSweep a base i j limit).2.1 ∧
    (qsortCellsSweep a base i j limit).2.2 ≤ j - 1 := by
  unfold qsortCellsSweep
  exact qsortSweepLoop_facts _ _ _ _ i j

theorem nat_sq_sum_lt {a b c : Nat} (h : a + b < c) : a * a + b * b < c * c := by
  calc a * a + b * b ≤ (a + b) * (a + b) := by nlinarith
    _ < c * c := Nat.mul_lt_mul_of_lt_of_le h (Nat.le_of_lt h) (by omega)

/-- The inner insertion-sort loop of `QsortCellsFor`
(`for (; (*jIndex)[1]->x < (**jIndex)->x; (*jIndex)--)`), which swaps
downwards and breaks at `base`. -/
def qsortInsertInner (a : Array CellBuildAntiAlias) (base : Nat) (j : Nat) :
    Array CellBuildAntiAlias :=
  if getCellX a (j + 1) < getCellX a j then
    let a1 := swapCells a (j + 1) j
    if h : j ≤ base then a1
    else
      qsortInsertInner a1 base (j - 1)
  else
    a
termination_by j - base
decreasing_by
  simp_wf
  omega

/-- `QsortCellsFor(&iIndex, &jIndex, &limit, &base)`: straight insertion sort
of `[base, limit)`; the running `jIndex` always equals `iIndex - 1` when the
inner loop starts. -/
def qsortInsertLoop (base limit : Nat) (i : Nat) (a : Array CellBuildAntiAlias) :
    Array CellBuildAntiAlias :=
  if h : i < limit then
    qsortInsertLoop base limit (i + 1) (qsortInsertInner a base (i - 1))
  else
    a
termination_by limit - i
decreasing_by
  simp_wf
  omega

/-- `QSORT_THRESHOLD` of `QsortCells`. -/
def QSORT_THRESHOLD : Nat := 9

/-- The explicit-stack driver loop of `QsortCells` (`while (1)`).  Ranges are
`[base, limit)` index pairs; `TWO_TIMES`/`TWO_STEP` are the constant 2 of the
source.  On a long range: move the middle element to `base`, partition, push
one sub-range and continue with the other; on a short range: insertion sort,
then pop the next range or stop. -/
def qsortLoop (a : Array CellBuildAntiAlias) (base limit : Nat)
    (stack : List (Nat × Nat)) : Array CellBuildAntiAlias :=
  if hlen : QSORT_THRESHOLD < limit - base then
    let a1 := swapCells a base (base + (limit - base) / 2)
    let r := qsortCellsSweep a1 base (base + 1) (limit - 1) limit
    let a2 := swapCells r.1 base r.2.2
    if r.2.2 - base > limit - r.2.1 then
      qsortLoop a2 r.2.1 limit ((base, r.2.2) :: stack)
    else
      qsortLoop a2 base r.2.2 ((r.2.1, limit) :: stack)
  else
    let a1 := qsortInsertLoop base limit (base + 1) a
    if hst : stack = [] then a1
    else
      qsortLoop a1 (stack.headD (0, 0)).1 (stack.headD (0, 0)).2 stack.tail
termination_by
  2 * ((limit - base) * (limit - base) +
    (stack.map (fun p => (p.2 - p.1) * (p.2 - p.1))).sum) + stack.length
decreasing_by
  · have hr := qsortCellsSweep_facts (swapCells a base (base + (limit - base) / 2))
      base (base + 1) (limit - 1) limit
    have hs := nat_sq_sum_lt
      (a := limit - (qsortCellsSweep (swapCells a base (base + (limit - base) / 2))
        base (base + 1) (limit - 1) limit).2.1)
      (b := (qsortCellsSweep (swapCells a base (base + (limit - base) / 2))
        base (base + 1) (limit - 1) limit).2.2 - base)
      (c := limit - base)
      (by simp only [QSORT_THRESHOLD] at hlen; omega)
    simp_wf
    try simp only [List.map_cons, List.sum_cons, List.length_cons]
    linarith
  · have hr := qsortCellsSweep_facts (swapCells a base (base + (limit - base) / 2))
      base (base + 1) (limit - 1) limit
    have hs := nat_sq_sum_lt
      (a := limit - (qsortCellsSweep (swapCells a base (base + (limit - base) / 2))
        base (base + 1) (limit - 1) limit).2.1)
      (b := (qsortCellsSweep (swapCells a base (base + (limit - base) / 2))
        base (base + 1) (limit - 1) limit).2.2 - base)
      (c := limit - base)
      (by simp only [QSORT_THRESHOLD] at hlen; omega)
    simp_wf
    try simp only [List.map_cons, List.sum_cons, List.length_cons]
    linarith
  · simp_wf
    rcases stack with _ | ⟨⟨b2, l2⟩, rest⟩
    · exact absurd rfl hst
    · simp only [List.map_cons, List.sum_cons, List.length_cons, List.headD_cons,
        List.tail_cons, List.head?_cons, Option.getD_some, Nat.add_sub_cancel]
      linarith [Nat.zero_le ((limit - base) * (limit - base)),
        Nat.zero_le ((l2 - b2) * (l2 - b2))]

/-- `QsortCells(start, num)`: sort the range `[start, start + num)`. -/
def qsortCells (a : Array CellBuildAntiAlias) (start num : Nat) :
    Array CellBuildAntiAlias :=
  qsortLoop a start (start + num) []

/-- The histogram pass of `SortAllCells`: one `start`-increment of the row
entry `cell.y - minY` per committed cell, in commit order (the C++ loop walks
the pool blocks in order, which is commit order). -/
def histogramPass (minY : Int) :
    List CellBuildAntiAlias → Array SortedYLevel → Array SortedYLevel
  | [], sy => sy
  | c :: t, sy =>
    histogramPass minY t
      (sy.modify (c.y - minY).toNat (fun e => { e with start := e.start + 1 }))

/-- The prefix-sum pass of `SortAllCells`: replace every `start` count by the
running sum of the counts before it (`num` is still 0 after the histogram). -/
def prefixSumPass : List SortedYLevel → Nat → List SortedYLevel
  | [], _ => []
  | e :: t, acc => { start := acc, num := e.num } :: prefixSumPass t (acc + e.start)

/-- The scatter pass of `SortAllCells`: place every committed cell, in commit
order, at `start + num` of its row entry and bump that row's `num`. -/
def scatterPass (minY : Int) :
    List CellBuildAntiAlias → Array CellBuildAntiAlias → Array SortedYLevel →
    Array CellBuildAntiAlias × Array SortedYLevel
  | [], sc, sy => (sc, sy)
  | c :: t, sc, sy =>
    let idx := (c.y - minY).toNat
    let e := sy.getD idx { start := 0, num := 0 }
    scatterPass minY t (sc.setD (e.start + e.num) c)
      (sy.setD idx { start := e.start, num := e.num + 1 })

/-- The final pass of `SortAllCells`: `QsortCells` on every row whose `num`
is nonzero, in row order. -/
def qsortRows (sy : List SortedYLevel) (sc : Array CellBuildAntiAlias) :
    Array CellBuildAntiAlias :=
  sy.foldl (fun sc e => if e.num ≠ 0 then qsortCells sc e.start e.num else sc) sc

/-- `RasterizerCellsAntiAlias::SortAllCells()`: nothing on a re-sort; commit
the pending cell and re-initialize it; nothing further when no cell is
committed (the sorted flag stays unset); otherwise bucket the cells by row
(histogram, prefix sums, scatter) and sort every row slice by x. -/
def sortAllCells (s : RasterizerCellsAntiAlias) : RasterizerCellsAntiAlias :=
  if s.sorted then s
  else
    let s2 := { addCurrentCell s with currCell := CellBuildAntiAlias.initialCell }
    if s2.numCells = 0 then s2
    else
      let cells := s2.cellsRev.reverse
      let ySize := (s2.maxY - s2.minY + 1).toNat
      let hist := histogramPass s2.minY cells (Array.mkArray ySize { start := 0, num := 0 })
      let pre := (prefixSumPass hist.toList 0).toArray
      let p := scatterPass s2.minY cells (Array.mkArray s2.numCells cellDefault) pre
      { s2 with sortedCells := qsortRows p.2.toList p.1, sortedY := p.2, sorted := true }

/-- `GetTotalCells()`. -/
def getTotalCells (s : RasterizerCellsAntiAlias) : Nat := s.numCells

/-- `GetSorted()`. -/
def getSorted (s : RasterizerCellsAntiAlias) : Bool := s.sorted

/-- `ScanlineNumCells(yLevel)`: the `num` of row `yLevel` (valid for rows in
`[minY, maxY]` after sorting, as the source's caller contract requires). -/
def scanlineNumCells (s : RasterizerCellsAntiAlias) (yLevel : Int) : Nat :=
  (s.sortedY.getD (yLevel - s.minY).toNat { start := 0, num := 0 }).num

/-- `ScanlineCells(yLevel)` as the row's slice of the sorted cell array
(the C++ accessor returns the first address of that slice). -/
def scanlineCells (s : RasterizerCellsAntiAlias) (yLevel : Int) :
    List CellBuildAntiAlias :=
  (s.sortedCells.toList.drop
    (s.sortedY.getD (yLevel - s.minY).toNat { start := 0, num := 0 }).start).take
    (scanlineNumCells s yLevel)

/-! ### Semantic helpers used by the theorems -/

/-- The cover a single cell contributes to row `r`. -/
def coverAt (r : Int) (c : CellBuildAntiAlias) : Int :=
  if c.y = r then c.cover else 0

/-- Total cover contributed to row `r` by a list of cells. -/
def coverSum (r : Int) (l : List CellBuildAntiAlias) : Int :=
  (l.map (coverAt r)).sum

/-- Total cover bookkeeping of a rasterizer state at row `r`: committed cells
plus the pending current cell plus the ghost list of dropped cells. -/
def coverTotal (r : Int) (s : RasterizerCellsAntiAlias) : Int :=
  coverSum r s.cellsRev + coverAt r s.currCell + coverSum r s.droppedRev

/-- `y` clipped to the sub-pixel band of pixel row `r`. -/
def clipToRow (r y : Int) : Int :=
  max (256 * r) (min y (256 * (r + 1)))

/-- The signed vertical sub-pixel span a segment from `y1` to `y2`
contributes to pixel row `r`. -/
def rowSpan (r y1 y2 : Int) : Int :=
  clipToRow r y2 - clipToRow r y1

/-- Ingest a path: one `LineOperate` per adjacent vertex pair. -/
def lineOperatePath :
    RasterizerCellsAntiAlias → Int × Int → List (Int × Int) →
    RasterizerCellsAntiAlias
  | s, _, [] => s
  | s, v, w :: t => lineOperatePath (lineOperate s v.1 v.2 w.1 w.2) w t

/-- Ingest a closed polygon: the path through `v :: vs` and back to `v`, so
every segment starts where the previous one ended and the last segment ends
at the first segment's start. -/
def lineOperateClosed (s : RasterizerCellsAntiAlias) (v : Int × Int)
    (vs : List (Int × Int)) : RasterizerCellsAntiAlias :=
  lineOperatePath s v (vs ++ [v])

/-! ### Basic structural lemmas about commits -/

theorem addCurrentCell_zero {s : RasterizerCellsAntiAlias}
    (ha : s.currCell.area = 0) (hc : s.currCell.cover = 0) :
    addCurrentCell s = s := by
  unfold addCurrentCell
  rw [if_neg]
  push_neg
  exact ⟨ha, hc⟩

theorem addCurrentCell_sorted (s : RasterizerCellsAntiAlias) :
    (addCurrentCell s).sorted = s.sorted := by
  unfold addCurrentCell allocateBlock
  repeat' split
  all_goals rfl

theorem addCurrentCell_currCell (s : RasterizerCellsAntiAlias) :
    (addCurrentCell s).currCell = s.currCell := by
  unfold addCurrentCell allocateBlock
  repeat' split
  all_goals rfl

theorem sortAllCells_of_sorted {s : RasterizerCellsAntiAlias} (h : s.sorted = true) :
    sortAllCells s = s := by
  rw [sortAllCells, if_pos h]

theorem sortAllCells_unsorted_case {s : RasterizerCellsAntiAlias} (h : s.sorted = false) :
    ((addCurrentCell s).numCells = 0 ∧
      sortAllCells s = { addCurrentCell s with currCell := CellBuildAntiAlias.initialCell }) ∨
    ((addCurrentCell s).numCells ≠ 0 ∧ (sortAllCells s).sorted = true) := by
  rw [sortAllCells, if_neg (by simp [h])]
  by_cases hz : (addCurrentCell s).numCells = 0
  · left
    exact ⟨hz, by rw [if_pos hz]⟩
  · right
    exact ⟨hz, by rw [if_neg hz]⟩

/-! ### The truncated-division adjustment

The rasterizer computes C quotients and remainders (`Int.tdiv`/`Int.tmod`)
and then fixes up a negative remainder; the result is exactly the Euclidean
(= floor, the divisor being positive) quotient and remainder. -/

theorem tmod_neg_lt {a b : Int} (hb : 0 < b) : -b < a.tmod b := by
  rcases le_or_lt 0 a with ha | ha
  · have := Int.tmod_nonneg b ha
    omega
  · have h1 : (-a).tmod b = -(a.tmod b) := by
      rw [Int.tmod_def, Int.tmod_def, Int.neg_tdiv]
      ring
    have h2 := Int.tmod_lt_of_pos (-a) hb
    omega

theorem tdiv_adjust {a b : Int} (hb : 0 < b) :
    (if a.tmod b < 0 then (a.tdiv b - 1, a.tmod b + b) else (a.tdiv b, a.tmod b)) =
      (a / b, a % b) := by
  have hdm := Int.tdiv_add_tmod a b
  have hlow := tmod_neg_lt (a := a) hb
  have hhigh := Int.tmod_lt_of_pos a hb
  by_cases hneg : a.tmod b < 0
  · rw [if_pos hneg]
    have h4 := (Int.ediv_emod_unique (a := a) (b := b) (q := a.tdiv b - 1)
      (r := a.tmod b + b) hb).mpr ⟨by linarith [hdm], by omega, by omega⟩
    rw [h4.1.symm, h4.2.symm]
  · rw [if_neg hneg]
    have h4 := (Int.ediv_emod_unique (a := a) (b := b) (q := a.tdiv b)
      (r := a.tmod b) hb).mpr ⟨by linarith [hdm], by omega, by omega⟩
    rw [h4.1.symm, h4.2.symm]

/-! ### Cover accounting

`coverTotal r` (committed + pending + ghost-dropped cover at row `r`) is the
quantity the rasterizer conserves: committing moves cover between the three
summands, and only the explicit accumulations of the line walkers change it,
by exactly the vertical sub-pixel spans they process. -/

theorem coverSum_cons (r : Int) (c : CellBuildAntiAlias) (l : List CellBuildAntiAlias) :
    coverSum r (c :: l) = coverAt r c + coverSum r l := by
  simp [coverSum]

theorem coverAt_zero_cover {r : Int} {c : CellBuildAntiAlias} (h : c.cover = 0) :
    coverAt r c = 0 := by
  unfold coverAt
  rw [h]
  split <;> rfl

theorem coverTotal_addCurrentCell (r : Int) (s : RasterizerCellsAntiAlias) :
    coverTotal r (addCurrentCell s) = coverTotal r s + coverAt r s.currCell := by
  unfold addCurrentCell allocateBlock
  by_cases h1 : s.currCell.area ≠ 0 ∨ s.currCell.cover ≠ 0
  · rw [if_pos h1]
    by_cases h2 : s.numCells % CELL_BLOCK_SIZE = 0
    · rw [if_pos h2]
      by_cases h3 : s.cellBlockLimit ≤ s.numBlocks
      · rw [if_pos h3]
        unfold coverTotal
        simp only [coverSum_cons]
        ring
      · rw [if_neg h3]
        by_cases h4 : s.numBlocks ≤ s.currBlock
        · rw [if_pos h4]
          unfold coverTotal
          simp only [coverSum_cons]
          ring
        · rw [if_neg h4]
          unfold coverTotal
          simp only [coverSum_cons]
          ring
    · rw [if_neg h2]
      unfold coverTotal
      simp only [coverSum_cons]
      ring
  · rw [if_neg h1]
    push_neg at h1
    rw [coverAt_zero_cover h1.2]
    ring

theorem addCurrentCell_cellsRev_droppedRev (r : Int) (s : RasterizerCellsAntiAlias) :
    coverSum r (addCurrentCell s).cellsRev + coverSum r (addCurrentCell s).droppedRev =
      coverSum r s.cellsRev + coverSum r s.droppedRev + coverAt r s.currCell := by
  have h := coverTotal_addCurrentCell r s
  unfold coverTotal at h
  rw [addCurrentCell_currCell] at h
  linarith

theorem setCurrentCell_currCell_y (s : RasterizerCellsAntiAlias) (x y : Int) :
    (setCurrentCell s x y).currCell.y = y := by
  unfold setCurrentCell
  by_cases h : s.currCell.notEqual x y
  · rw [if_pos h]
  · rw [if_neg h]
    unfold CellBuildAntiAlias.notEqual at h
    simp only [Bool.or_eq_true, bne_iff_ne, ne_eq, not_or, not_not] at h
    exact h.2.symm

theorem setCurrentCell_currCell_x (s : RasterizerCellsAntiAlias) (x y : Int) :
    (setCurrentCell s x y).currCell.x = x := by
  unfold setCurrentCell
  by_cases h : s.currCell.notEqual x y
  · rw [if_pos h]
  · rw [if_neg h]
    unfold CellBuildAntiAlias.notEqual at h
    simp only [Bool.or_eq_true, bne_iff_ne, ne_eq, not_or, not_not] at h
    exact h.1.symm

theorem setCurrentCell_currCell_of_ne {s : RasterizerCellsAntiAlias} {x y : Int}
    (h : y ≠ s.currCell.y) :
    (setCurrentCell s x y).currCell = { x := x, y := y, cover := 0, area := 0 } := by
  unfold setCurrentCell
  rw [if_pos]
  unfold CellBuildAntiAlias.notEqual
  simp only [Bool.or_eq_true, bne_iff_ne, ne_eq]
  right
  exact h

theorem setCurrentCell_coverTotal (r : Int) (s : RasterizerCellsAntiAlias) (x y : Int) :
    coverTotal r (setCurrentCell s x y) = coverTotal r s := by
  unfold setCurrentCell
  by_cases h : s.currCell.notEqual x y
  · rw [if_pos h]
    show coverSum r (addCurrentCell s).cellsRev + coverAt r _ +
      coverSum r (addCurrentCell s).droppedRev = _
    rw [coverAt_zero_cover rfl]
    have := addCurrentCell_cellsRev_droppedRev r s
    unfold coverTotal
    linarith
  · rw [if_neg h]

theorem accumCover_coverTotal (r : Int) (t : RasterizerCellsAntiAlias) (delta a : Int) :
    coverTotal r (accumCover t delta a) =
      coverTotal r t + (if t.currCell.y = r then delta else 0) := by
  show coverSum r t.cellsRev + (if t.currCell.y = r then t.currCell.cover + delta else 0) +
      coverSum r t.droppedRev = _
  unfold coverTotal coverAt
  split <;> ring

theorem accumCover_currCell_y (t : RasterizerCellsAntiAlias) (delta a : Int) :
    (accumCover t delta a).currCell.y = t.currCell.y := rfl

theorem assignCover_coverTotal (r : Int) (t : RasterizerCellsAntiAlias) (c a : Int) :
    coverTotal r (assignCover t c a) =
      coverTotal r t + (if t.currCell.y = r then c - t.currCell.cover else 0) := by
  show coverSum r t.cellsRev + (if t.currCell.y = r then c else 0) +
      coverSum r t.droppedRev = _
  unfold coverTotal coverAt
  split <;> ring

theorem assignCover_currCell_y (t : RasterizerCellsAntiAlias) (c a : Int) :
    (assignCover t c a).currCell.y = t.currCell.y := rfl

/-- The number of the rows `e, e + inc, …, e + (n-1)·inc` that equal `r`. -/
def rowHits (r : Int) : Int → Int → Nat → Int
  | _, _, 0 => 0
  | e, inc, n + 1 => (if e = r then 1 else 0) + rowHits r (e + inc) inc n

theorem rowHits_up (r : Int) : ∀ (n : Nat) (e : Int),
    rowHits r e 1 n = if e ≤ r ∧ r < e + n then 1 else 0 := by
  intro n
  induction n with
  | zero =>
    intro e
    simp [rowHits]
    omega
  | succ n ih =>
    intro e
    rw [rowHits, ih]
    push_cast
    split_ifs <;> omega

theorem rowHits_down (r : Int) : ∀ (n : Nat) (e : Int),
    rowHits r e (-1) n = if e - n < r ∧ r ≤ e then 1 else 0 := by
  intro n
  induction n with
  | zero =>
    intro e
    simp [rowHits]
    omega
  | succ n ih =>
    intro e
    rw [rowHits, ih]
    push_cast
    split_ifs <;> omega

/-! ### Cover accounting through the line walkers -/

theorem renderHLoop_succ (ey increase lift rem dx : Int) (n : Nat) (px mod mask : Int)
    (s : RasterizerCellsAntiAlias) :
    renderHLoop ey increase lift rem dx (n + 1) px mod mask s =
      (let p : Int × Int :=
        if 0 ≤ mod + rem then (lift + 1, mod + rem - dx) else (lift, mod + rem)
       renderHLoop ey increase lift rem dx n (px + increase) p.2 (mask + p.1)
         (setCurrentCell (accumCover s p.1 (POLY_SUBPIXEL_SCALE * p.1))
           (px + increase) ey)) := rfl

theorem renderHLoop_coverTotal (ey increase lift rem dx : Int) :
    ∀ (n : Nat) (px mod mask : Int) (s : RasterizerCellsAntiAlias),
      s.currCell.y = ey →
      (∀ r, coverTotal r (renderHLoop ey increase lift rem dx n px mod mask s).1 =
        coverTotal r s +
          (if ey = r then
            (renderHLoop ey increase lift rem dx n px mod mask s).2.2.2 - mask
          else 0)) ∧
      (renderHLoop ey increase lift rem dx n px mod mask s).1.currCell.y = ey := by
  intro n
  induction n with
  | zero =>
    intro px mod mask s hy
    refine ⟨fun r => ?_, hy⟩
    show coverTotal r s = coverTotal r s + (if ey = r then mask - mask else 0)
    split <;> ring
  | succ n ih =>
    intro px mod mask s hy
    rw [renderHLoop_succ]
    set p : Int × Int :=
      if 0 ≤ mod + rem then (lift + 1, mod + rem - dx) else (lift, mod + rem) with hp
    set s1 : RasterizerCellsAntiAlias := accumCover s p.1 (POLY_SUBPIXEL_SCALE * p.1) with hs1
    set s2 := setCurrentCell s1 (px + increase) ey with hs2
    have hy2 : s2.currCell.y = ey := setCurrentCell_currCell_y s1 (px + increase) ey
    obtain ⟨ihc, ihy⟩ := ih (px + increase) p.2 (mask + p.1) s2 hy2
    refine ⟨fun r => ?_, ihy⟩
    rw [ihc r]
    have e1 : coverTotal r s2 = coverTotal r s1 := setCurrentCell_coverTotal r s1 _ _
    have e2 : coverTotal r s1 =
        coverTotal r s + (if s.currCell.y = r then p.1 else 0) :=
      accumCover_coverTotal r s p.1 _
    rw [e1, e2, hy]
    split <;> ring

theorem renderHLoop_coverTotal_eq {ey increase lift rem dx : Int} {n : Nat}
    {px mod mask : Int} {s : RasterizerCellsAntiAlias}
    (hy : s.currCell.y = ey) (r : Int) :
    coverTotal r (renderHLoop ey increase lift rem dx n px mod mask s).1 =
      coverTotal r s +
        (if ey = r then
          (renderHLoop ey increase lift rem dx n px mod mask s).2.2.2 - mask
        else 0) :=
  (renderHLoop_coverTotal ey increase lift rem dx n px mod mask s hy).1 r

theorem renderHLoop_currCell_y {ey increase lift rem dx : Int} {n : Nat}
    {px mod mask : Int} {s : RasterizerCellsAntiAlias}
    (hy : s.currCell.y = ey) :
    (renderHLoop ey increase lift rem dx n px mod mask s).1.currCell.y = ey :=
  (renderHLoop_coverTotal ey increase lift rem dx n px mod mask s hy).2

/-- The cover accounting of the whole walking branch of `RenderHorizonline`:
first partial column, inner walk, last partial column.  The mask telescopes,
so the branch adds exactly `m2 - m1` of cover at row `ey`, whatever the
division results are. -/
theorem hlineWalk_coverTotal {s : RasterizerCellsAntiAlias} {ey : Int}
    (increase delta a1 lift rem dx : Int) (n : Nat) (px mod m1 m2 a2 : Int)
    (hy : s.currCell.y = ey) :
    (∀ r, coverTotal r
        (accumCover
          (renderHLoop ey increase lift rem dx n px mod (m1 + delta)
            (setCurrentCell (accumCover s delta a1) px ey)).1
          (m2 -
            (renderHLoop ey increase lift rem dx n px mod (m1 + delta)
              (setCurrentCell (accumCover s delta a1) px ey)).2.2.2)
          a2) =
      coverTotal r s + (if ey = r then m2 - m1 else 0)) ∧
    (accumCover
      (renderHLoop ey increase lift rem dx n px mod (m1 + delta)
        (setCurrentCell (accumCover s delta a1) px ey)).1
      (m2 -
        (renderHLoop ey increase lift rem dx n px mod (m1 + delta)
          (setCurrentCell (accumCover s delta a1) px ey)).2.2.2)
      a2).currCell.y = ey := by
  have hy1 : (setCurrentCell (accumCover s delta a1) px ey).currCell.y = ey :=
    setCurrentCell_currCell_y _ _ _
  constructor
  · intro r
    rw [accumCover_coverTotal, renderHLoop_currCell_y hy1,
      renderHLoop_coverTotal_eq hy1 r, setCurrentCell_coverTotal,
      accumCover_coverTotal, hy]
    split <;> ring
  · rw [accumCover_currCell_y]
    exact renderHLoop_currCell_y hy1

/-- The cover accounting of `RenderHorizonline`: the call adds exactly the
sub-pixel span `m2 - m1` of cover at row `ey` and leaves the current cell on
row `ey`. -/
theorem renderHorizonline_coverTotal (s : RasterizerCellsAntiAlias)
    (ey x1 m1 x2 m2 : Int) (hy : s.currCell.y = ey) :
    (∀ r, coverTotal r (renderHorizonline s ey x1 m1 x2 m2) =
        coverTotal r s + (if ey = r then m2 - m1 else 0)) ∧
    (renderHorizonline s ey x1 m1 x2 m2).currCell.y = ey := by
  by_cases hm : m2 = m1
  · have he : renderHorizonline s ey x1 m1 x2 m2 = setCurrentCell s (x2 / 256) ey := by
      unfold renderHorizonline
      simp only [if_pos hm]
    rw [he]
    refine ⟨fun r => ?_, setCurrentCell_currCell_y _ _ _⟩
    rw [setCurrentCell_coverTotal, hm]
    split <;> ring
  · by_cases hpx : x1 / 256 = x2 / 256
    · have he : renderHorizonline s ey x1 m1 x2 m2 =
          accumCover s (m2 - m1) ((x1 % 256 + x2 % 256) * (m2 - m1)) := by
        unfold renderHorizonline
        simp only [if_neg hm, if_pos hpx]
      rw [he]
      refine ⟨fun r => ?_, by rw [accumCover_currCell_y]; exact hy⟩
      rw [accumCover_coverTotal, hy]
    · have hne : x1 ≠ x2 := fun h => hpx (by rw [h])
      by_cases hdir : x2 - x1 < 0
      · have hdx : (0 : Int) < -(x2 - x1) := by omega
        unfold renderHorizonline
        simp only [if_neg hm, if_neg hpx, if_pos hdir]
        rw [tdiv_adjust hdx]
        by_cases hpp : x1 / 256 + -1 ≠ x2 / 256
        · simp only [if_pos hpp]
          rw [tdiv_adjust hdx]
          exact hlineWalk_coverTotal _ _ _ _ _ _ _ _ _ _ _ _ hy
        · simp only [if_neg hpp]
          refine ⟨fun r => ?_, ?_⟩
          · rw [accumCover_coverTotal, setCurrentCell_currCell_y,
              setCurrentCell_coverTotal, accumCover_coverTotal, hy]
            split <;> ring
          · rw [accumCover_currCell_y]
            exact setCurrentCell_currCell_y _ _ _
      · have hdx : (0 : Int) < x2 - x1 := by omega
        unfold renderHorizonline
        simp only [if_neg hm, if_neg hpx, if_neg hdir]
        rw [tdiv_adjust hdx]
        by_cases hpp : x1 / 256 + 1 ≠ x2 / 256
        · simp only [if_pos hpp]
          rw [tdiv_adjust hdx]
          exact hlineWalk_coverTotal _ _ _ _ _ _ _ _ _ _ _ _ hy
        · simp only [if_neg hpp]
          refine ⟨fun r => ?_, ?_⟩
          · rw [accumCover_coverTotal, setCurrentCell_currCell_y,
              setCurrentCell_coverTotal, accumCover_coverTotal, hy]
            split <;> ring
          · rw [accumCover_currCell_y]
            exact setCurrentCell_currCell_y _ _ _

/-- The cover accounting of the vertical-line row walk: every iteration
assigns `cover = delta` onto a fresh (zero-cover) cell of the current row and
moves one row, so row `r` gains `delta` exactly once if the walk crosses it. -/
theorem vertLoop_coverTotal (ex increase delta area : Int) (hinc : increase ≠ 0) :
    ∀ (n : Nat) (ey1 : Int) (s : RasterizerCellsAntiAlias),
      s.currCell.y = ey1 → s.currCell.cover = 0 →
      (∀ r, coverTotal r (vertLoop ex increase delta area n ey1 s).1 =
          coverTotal r s + delta * rowHits r ey1 increase n) ∧
      (vertLoop ex increase delta area n ey1 s).2 = ey1 + increase * n ∧
      (vertLoop ex increase delta area n ey1 s).1.currCell.y = ey1 + increase * n ∧
      (vertLoop ex increase delta area n ey1 s).1.currCell.cover = 0 := by
  intro n
  induction n with
  | zero =>
    intro ey1 s hy hc
    refine ⟨fun r => ?_, ?_, ?_, ?_⟩ <;>
      simp [vertLoop, rowHits, hy, hc]
  | succ n ih =>
    intro ey1 s hy hc
    have hne : ey1 + increase ≠ (assignCover s delta area).currCell.y := by
      rw [assignCover_currCell_y, hy]
      omega
    have hcc := setCurrentCell_currCell_of_ne (x := ex) hne
    obtain ⟨ihc, ihe, ihy, ihcov⟩ :=
      ih (ey1 + increase)
        (setCurrentCell (assignCover s delta area) ex (ey1 + increase))
        (setCurrentCell_currCell_y _ _ _) (by rw [hcc])
    refine ⟨fun r => ?_, ?_, ?_, ?_⟩
    · show coverTotal r (vertLoop ex increase delta area n (ey1 + increase) _).1 = _
      rw [ihc r, setCurrentCell_coverTotal, assignCover_coverTotal, hy, hc]
      conv_rhs => rw [rowHits]
      split <;> ring
    · show (vertLoop ex increase delta area n (ey1 + increase) _).2 = _
      rw [ihe]
      push_cast
      ring
    · show (vertLoop ex increase delta area n (ey1 + increase) _).1.currCell.y = _
      rw [ihy]
      push_cast
      ring
    · exact ihcov

/-- The cover accounting of the sloped-line row walk: every iteration renders
one horizontal sub-band spanning `first - (256 - first)` sub-pixels of cover
on the current row and moves one row. -/
theorem genLoop_coverTotal (first increase liftDyMask remDyMask dy : Int) :
    ∀ (n : Nat) (ey1 xFrom modDyMask : Int) (s : RasterizerCellsAntiAlias),
      s.currCell.y = ey1 →
      (∀ r, coverTotal r
          (genLoop first increase liftDyMask remDyMask dy n ey1 xFrom modDyMask s).1 =
          coverTotal r s + (2 * first - 256) * rowHits r ey1 increase n) ∧
      (genLoop first increase liftDyMask remDyMask dy n ey1 xFrom modDyMask s).2.2 =
        ey1 + increase * n ∧
      (genLoop first increase liftDyMask remDyMask dy n ey1 xFrom modDyMask s).1.currCell.y =
        ey1 + increase * n := by
  intro n
  induction n with
  | zero =>
    intro ey1 xFrom modDyMask s hy
    refine ⟨fun r => ?_, ?_, ?_⟩ <;>
      simp [genLoop, rowHits, hy]
  | succ n ih =>
    intro ey1 xFrom modDyMask s hy
    obtain ⟨ihc, ihe, ihy⟩ :=
      ih (ey1 + increase) _ _ _ (setCurrentCell_currCell_y _ _ _)
    refine ⟨fun r => ?_, ?_, ?_⟩
    · show coverTotal r
        (genLoop first increase liftDyMask remDyMask dy n (ey1 + increase) _ _ _).1 = _
      rw [ihc r, setCurrentCell_coverTotal,
        (renderHorizonline_coverTotal _ _ _ _ _ _ hy).1 r]
      conv_rhs => rw [rowHits]
      simp only [POLY_SUBPIXEL_SCALE]
      split_ifs <;> ring
    · show (genLoop first increase liftDyMask remDyMask dy n (ey1 + increase) _ _ _).2.2 = _
      rw [ihe]
      push_cast
      ring
    · show (genLoop first increase liftDyMask remDyMask dy n (ey1 + increase) _ _ _).1.currCell.y = _
      rw [ihy]
      push_cast
      ring

theorem outLineLegal_coverTotal (r : Int) (s : RasterizerCellsAntiAlias)
    (x1 y1 x2 y2 : Int) :
    coverTotal r (outLineLegal s x1 y1 x2 y2) = coverTotal r s := rfl

/-- The cover accounting of the whole vertical-line branch of `LineOperate`:
first partial row, vertical walk, last partial row, with the division-free
per-row spans of the source. -/
theorem vertBranch_coverTotal (t : RasterizerCellsAntiAlias)
    (ex ey1 increase first m1 m2 twoFx : Int) (n : Nat) (r : Int)
    (hinc : increase ≠ 0) (hy : t.currCell.y = ey1) :
    coverTotal r
      (accumCover
        (vertLoop ex increase (first + first - 256) (twoFx * (first + first - 256)) n
          (ey1 + increase)
          (setCurrentCell (accumCover t (first - m1) (twoFx * (first - m1))) ex
            (ey1 + increase))).1
        (m2 - 256 + first) (twoFx * (m2 - 256 + first))) =
      coverTotal r t + (if ey1 = r then first - m1 else 0) +
        (first + first - 256) * rowHits r (ey1 + increase) increase n +
        (if ey1 + increase + increase * n = r then m2 - 256 + first else 0) := by
  have hy1 : (accumCover t (first - m1) (twoFx * (first - m1))).currCell.y = ey1 := by
    rw [accumCover_currCell_y, hy]
  have hne : ey1 + increase ≠ (accumCover t (first - m1) (twoFx * (first - m1))).currCell.y := by
    rw [hy1]
    omega
  obtain ⟨vc, ve, vy, vcov⟩ :=
    vertLoop_coverTotal ex increase (first + first - 256) (twoFx * (first + first - 256))
      hinc n (ey1 + increase)
      (setCurrentCell (accumCover t (first - m1) (twoFx * (first - m1))) ex (ey1 + increase))
      (setCurrentCell_currCell_y _ _ _) (by rw [setCurrentCell_currCell_of_ne hne])
  rw [accumCover_coverTotal, vy, vc r, setCurrentCell_coverTotal, accumCover_coverTotal, hy]

/-- The cover accounting of the body of `LineOperate` (the code after the
DX_LIMIT check): a single call adds exactly the clipped vertical sub-pixel
span of the segment to every row, whatever the division results are. -/
theorem lineOperateBody_coverTotal (s : RasterizerCellsAntiAlias)
    (x1 y1 x2 y2 r : Int) :
    coverTotal r (lineOperateBody s x1 y1 x2 y2) = coverTotal r s + rowSpan r y1 y2 := by
  by_cases h1 : y1 / 256 = y2 / 256
  · unfold lineOperateBody
    simp only [if_pos h1]
    rw [(renderHorizonline_coverTotal _ _ _ _ _ _ (setCurrentCell_currCell_y _ _ _)).1 r,
      setCurrentCell_coverTotal, outLineLegal_coverTotal]
    simp only [rowSpan, clipToRow]
    split_ifs <;> omega
  · by_cases h2 : x2 - x1 = 0
    · by_cases hdy : y2 - y1 < 0
      · unfold lineOperateBody
        simp only [if_neg h1, if_pos h2, if_pos hdy, POLY_SUBPIXEL_SCALE]
        rw [vertBranch_coverTotal _ _ _ _ _ _ _ _ _ _ (by decide : (-1 : ℤ) ≠ 0)
            (setCurrentCell_currCell_y _ _ _),
          setCurrentCell_coverTotal, outLineLegal_coverTotal, rowHits_down]
        simp only [rowSpan, clipToRow]
        split_ifs <;> omega
      · unfold lineOperateBody
        simp only [if_neg h1, if_pos h2, if_neg hdy, POLY_SUBPIXEL_SCALE]
        rw [vertBranch_coverTotal _ _ _ _ _ _ _ _ _ _ (by decide : (1 : ℤ) ≠ 0)
            (setCurrentCell_currCell_y _ _ _),
          setCurrentCell_coverTotal, outLineLegal_coverTotal, rowHits_up]
        simp only [rowSpan, clipToRow]
        split_ifs <;> omega
    · by_cases hdy : y2 - y1 < 0
      · by_cases h3 : y1 / 256 + -1 ≠ y2 / 256
        · unfold lineOperateBody
          simp only [if_neg h1, if_neg h2, if_pos hdy, if_pos h3, POLY_SUBPIXEL_SCALE]
          obtain ⟨gc, ge, gy⟩ :=
            genLoop_coverTotal _ _ _ _ _ _ _ _ _ _ (setCurrentCell_currCell_y _ _ _)
          rw [(renderHorizonline_coverTotal _ _ _ _ _ _ (gy.trans ge.symm)).1 r, ge,
            gc r, setCurrentCell_coverTotal,
            (renderHorizonline_coverTotal _ _ _ _ _ _ (setCurrentCell_currCell_y _ _ _)).1 r,
            setCurrentCell_coverTotal, outLineLegal_coverTotal, rowHits_down]
          simp only [rowSpan, clipToRow]
          split_ifs <;> omega
        · unfold lineOperateBody
          simp only [if_neg h1, if_neg h2, if_pos hdy, if_neg h3, POLY_SUBPIXEL_SCALE]
          rw [(renderHorizonline_coverTotal _ _ _ _ _ _ (setCurrentCell_currCell_y _ _ _)).1 r,
            setCurrentCell_coverTotal,
            (renderHorizonline_coverTotal _ _ _ _ _ _ (setCurrentCell_currCell_y _ _ _)).1 r,
            setCurrentCell_coverTotal, outLineLegal_coverTotal]
          simp only [rowSpan, clipToRow]
          split_ifs <;> omega
      · by_cases h3 : y1 / 256 + 1 ≠ y2 / 256
        · unfold lineOperateBody
          simp only [if_neg h1, if_neg h2, if_neg hdy, if_pos h3, POLY_SUBPIXEL_SCALE]
          obtain ⟨gc, ge, gy⟩ :=
            genLoop_coverTotal _ _ _ _ _ _ _ _ _ _ (setCurrentCell_currCell_y _ _ _)
          rw [(renderHorizonline_coverTotal _ _ _ _ _ _ (gy.trans ge.symm)).1 r, ge,
            gc r, setCurrentCell_coverTotal,
            (renderHorizonline_coverTotal _ _ _ _ _ _ (setCurrentCell_currCell_y _ _ _)).1 r,
            setCurrentCell_coverTotal, outLineLegal_coverTotal, rowHits_up]
          simp only [rowSpan, clipToRow]
          split_ifs <;> omega
        · unfold lineOperateBody
          simp only [if_neg h1, if_neg h2, if_neg hdy, if_neg h3, POLY_SUBPIXEL_SCALE]
          rw [(renderHorizonline_coverTotal _ _ _ _ _ _ (setCurrentCell_currCell_y _ _ _)).1 r,
            setCurrentCell_coverTotal,
            (renderHorizonline_coverTotal _ _ _ _ _ _ (setCurrentCell_currCell_y _ _ _)).1 r,
            setCurrentCell_coverTotal, outLineLegal_coverTotal]
          simp only [rowSpan, clipToRow]
          split_ifs <;> omega

/-! ### Preservation of the sorted flag along ingestion -/

theorem accumCover_sorted (t : RasterizerCellsAntiAlias) (delta a : Int) :
    (accumCover t delta a).sorted = t.sorted := rfl

theorem assignCover_sorted (t : RasterizerCellsAntiAlias) (c a : Int) :
    (assignCover t c a).sorted = t.sorted := rfl

theorem outLineLegal_sorted (s : RasterizerCellsAntiAlias) (x1 y1 x2 y2 : Int) :
    (outLineLegal s x1 y1 x2 y2).sorted = s.sorted := rfl

theorem setCurrentCell_sorted (s : RasterizerCellsAntiAlias) (x y : Int) :
    (setCurrentCell s x y).sorted = s.sorted := by
  unfold setCurrentCell
  split
  · exact addCurrentCell_sorted s
  · rfl

theorem renderHLoop_sorted (ey increase liftDxMask remDxMask dx : Int) :
    ∀ (n : Nat) (px mod mask : Int) (s : RasterizerCellsAntiAlias),
      (renderHLoop ey increase liftDxMask remDxMask dx n px mod mask s).1.sorted = s.sorted := by
  intro n
  induction n with
  | zero => intro px mod mask s; rfl
  | succ n ih =>
    intro px mod mask s
    show (renderHLoop ey increase liftDxMask remDxMask dx n _ _ _
        (setCurrentCell (accumCover s _ _) _ ey)).1.sorted = s.sorted
    rw [ih, setCurrentCell_sorted, accumCover_sorted]

theorem renderHorizonline_sorted (s : RasterizerCellsAntiAlias) (ey x1 m1 x2 m2 : Int) :
    (renderHorizonline s ey x1 m1 x2 m2).sorted = s.sorted := by
  unfold renderHorizonline
  simp [apply_ite RasterizerCellsAntiAlias.sorted, setCurrentCell_sorted,
    renderHLoop_sorted, accumCover_sorted]

theorem vertLoop_sorted (ex increase delta area : Int) :
    ∀ (n : Nat) (ey1 : Int) (s : RasterizerCellsAntiAlias),
      (vertLoop ex increase delta area n ey1 s).1.sorted = s.sorted := by
  intro n
  induction n with
  | zero => intro ey1 s; rfl
  | succ n ih =>
    intro ey1 s
    show (vertLoop ex increase delta area n _
        (setCurrentCell (assignCover s delta area) ex _)).1.sorted = s.sorted
    rw [ih, setCurrentCell_sorted, assignCover_sorted]

theorem genLoop_sorted (first increase liftDyMask remDyMask dy : Int) :
    ∀ (n : Nat) (ey1 xFrom modDyMask : Int) (s : RasterizerCellsAntiAlias),
      (genLoop first increase liftDyMask remDyMask dy n ey1 xFrom modDyMask s).1.sorted =
        s.sorted := by
  intro n
  induction n with
  | zero => intro ey1 xFrom modDyMask s; rfl
  | succ n ih =>
    intro ey1 xFrom modDyMask s
    show (genLoop first increase liftDyMask remDyMask dy n _ _ _
        (setCurrentCell (renderHorizonline s ey1 xFrom _ _ first) _ _)).1.sorted = s.sorted
    rw [ih, setCurrentCell_sorted, renderHorizonline_sorted]

theorem lineOperateBody_sorted (s : RasterizerCellsAntiAlias) (x1 y1 x2 y2 : Int) :
    (lineOperateBody s x1 y1 x2 y2).sorted = s.sorted := by
  unfold lineOperateBody
  simp [apply_ite RasterizerCellsAntiAlias.sorted, renderHorizonline_sorted,
    setCurrentCell_sorted, accumCover_sorted, vertLoop_sorted, genLoop_sorted,
    outLineLegal_sorted]

theorem lineOperateAux_sorted :
    ∀ (fuel : Nat) (s : RasterizerCellsAntiAlias) (x1 y1 x2 y2 : Int),
      (lineOperateAux fuel s x1 y1 x2 y2).sorted = s.sorted := by
  intro fuel
  induction fuel with
  | zero =>
    intro s x1 y1 x2 y2
    exact lineOperateBody_sorted s x1 y1 x2 y2
  | succ f ih =>
    intro s x1 y1 x2 y2
    simp only [lineOperateAux]
    split
    · rw [lineOperateBody_sorted, ih, ih]
    · rw [lineOperateBody_sorted]

theorem lineOperate_sorted (s : RasterizerCellsAntiAlias) (x1 y1 x2 y2 : Int) :
    (lineOperate s x1 y1 x2 y2).sorted = s.sorted :=
  lineOperateAux_sorted _ s x1 y1 x2 y2

theorem lineOperatePath_sorted :
    ∀ (ws : List (Int × Int)) (v : Int × Int) (s : RasterizerCellsAntiAlias),
      (lineOperatePath s v ws).sorted = s.sorted := by
  intro ws
  induction ws with
  | nil => intro v s; rfl
  | cons w t ih =>
    intro v s
    show (lineOperatePath (lineOperate s v.1 v.2 w.1 w.2) w t).sorted = s.sorted
    rw [ih, lineOperate_sorted]

/-! ### Span accounting along paths -/

/-- The sum of the clipped row-`r` spans of the segments of a path. -/
def pathSpanSum (r : Int) : Int × Int → List (Int × Int) → Int
  | _, [] => 0
  | v, w :: t => rowSpan r v.2 w.2 + pathSpanSum r w t

/-- Every segment of the path keeps `|x2 - x1|` below `DX_LIMIT`. -/
def pathBelowLimitB : Int × Int → List (Int × Int) → Bool
  | _, [] => true
  | v, w :: t => (-DX_LIMIT < w.1 - v.1 && w.1 - v.1 < DX_LIMIT) && pathBelowLimitB w t

/-- Bisection as the source writes it (`lineOperate_eq` in the guarded case). -/
theorem lineOperate_eq_bisect (s : RasterizerCellsAntiAlias) {x1 y1 x2 y2 : Int}
    (h : DX_LIMIT ≤ x2 - x1 ∨ x2 - x1 ≤ -DX_LIMIT) :
    lineOperate s x1 y1 x2 y2 =
      lineOperateBody
        (lineOperate (lineOperate s x1 y1 ((x1 + x2) / 2) ((y1 + y2) / 2))
          ((x1 + x2) / 2) ((y1 + y2) / 2) x2 y2)
        x1 y1 x2 y2 := by
  rw [lineOperate_eq, if_pos h]

theorem lineOperatePath_coverTotal (r : Int) :
    ∀ (ws : List (Int × Int)) (v : Int × Int) (s : RasterizerCellsAntiAlias),
      pathBelowLimitB v ws = true →
      coverTotal r (lineOperatePath s v ws) = coverTotal r s + pathSpanSum r v ws := by
  intro ws
  induction ws with
  | nil =>
    intro v s _
    show coverTotal r s = coverTotal r s + pathSpanSum r v []
    rw [pathSpanSum]
    ring
  | cons w t ih =>
    intro v s hb
    rw [pathBelowLimitB] at hb
    simp only [Bool.and_eq_true, decide_eq_true_eq] at hb
    obtain ⟨⟨hl, hr⟩, hb2⟩ := hb
    show coverTotal r (lineOperatePath (lineOperate s v.1 v.2 w.1 w.2) w t) = _
    rw [ih w _ hb2, lineOperate_eq_body _ (by omega), lineOperateBody_coverTotal,
      pathSpanSum]
    ring

theorem pathSpanSum_eq (r : Int) : ∀ (ws : List (Int × Int)) (v : Int × Int),
    pathSpanSum r v ws = clipToRow r (ws.getLastD v).2 - clipToRow r v.2 := by
  intro ws
  induction ws with
  | nil =>
    intro v
    rw [pathSpanSum, show (([] : List (Int × Int)).getLastD v) = v from rfl]
    ring
  | cons w t ih =>
    intro v
    rw [pathSpanSum, ih w, List.getLastD_cons]
    unfold rowSpan
    ring

theorem pathSpanSum_closed (r : Int) (v : Int × Int) (vs : List (Int × Int)) :
    pathSpanSum r v (vs ++ [v]) = 0 := by
  rw [pathSpanSum_eq, List.getLastD_concat]
  exact sub_self _

/-! ### The conservation bridge through finalization -/

theorem initState_sorted (cellBlockLimit : Nat) :
    (initState cellBlockLimit).sorted = false := rfl

theorem coverTotal_initState (r : Int) (cellBlockLimit : Nat) :
    coverTotal r (initState cellBlockLimit) = 0 := by
  show coverSum r [] + coverAt r CellBuildAntiAlias.initialCell + coverSum r [] = 0
  rw [coverAt_zero_cover rfl]
  rfl

theorem sortAllCells_fields {s : RasterizerCellsAntiAlias} (h : s.sorted = false) :
    (sortAllCells s).cellsRev = (addCurrentCell s).cellsRev ∧
    (sortAllCells s).droppedRev = (addCurrentCell s).droppedRev ∧
    (sortAllCells s).currCell = CellBuildAntiAlias.initialCell := by
  rw [sortAllCells, if_neg (by simp [h])]
  by_cases hz : (addCurrentCell s).numCells = 0
  · rw [if_pos hz]
    exact ⟨rfl, rfl, rfl⟩
  · rw [if_neg hz]
    exact ⟨rfl, rfl, rfl⟩

/-- After finalization (from an unsorted state), the cover of the committed
cells at any row is the conserved total minus whatever the block-limit
cutoff dropped. -/
theorem sortAllCells_coverSum {s : RasterizerCellsAntiAlias} (h : s.sorted = false)
    (r : Int) :
    coverSum r (sortAllCells s).cellsRev =
      coverTotal r s - coverSum r (sortAllCells s).droppedRev := by
  obtain ⟨hc, hd, _⟩ := sortAllCells_fields h
  rw [hc, hd]
  have := addCurrentCell_cellsRev_droppedRev r s
  unfold coverTotal
  linarith

/-! ### Drop-freeness: the block-limit cutoff never fires under headroom

`SafeStep s t k` says: if the pool invariant holds in `s` and at least `k`
more cells fit under the block limit, then the transition from `s` to `t`
keeps the invariant, commits at most `k` cells, drops nothing, and keeps the
limit. -/

def SafeStep (s t : RasterizerCellsAntiAlias) (k : Nat) : Prop :=
  s.numBlocks ≤ s.numCells + 1 → s.numCells + k < s.cellBlockLimit →
    t.numBlocks ≤ t.numCells + 1 ∧ t.numCells ≤ s.numCells + k ∧
    t.droppedRev = s.droppedRev ∧ t.cellBlockLimit = s.cellBlockLimit

theorem SafeStep.mono {s t : RasterizerCellsAntiAlias} {k m : Nat}
    (h : SafeStep s t k) (hkm : k ≤ m) : SafeStep s t m := by
  intro hI hR
  obtain ⟨a, b, c, d⟩ := h hI (by omega)
  exact ⟨a, by omega, c, d⟩

theorem SafeStep.comp {s t u : RasterizerCellsAntiAlias} {k l : Nat}
    (h1 : SafeStep s t k) (h2 : SafeStep t u l) : SafeStep s u (k + l) := by
  intro hI hR
  obtain ⟨a1, b1, c1, d1⟩ := h1 hI (by omega)
  obtain ⟨a2, b2, c2, d2⟩ := h2 a1 (by omega)
  exact ⟨a2, by omega, c2.trans c1, d2.trans d1⟩

theorem accumCover_step (s : RasterizerCellsAntiAlias) (delta a : Int) :
    SafeStep s (accumCover s delta a) 0 :=
  fun hI _ => ⟨hI, Nat.le_add_right _ _, rfl, rfl⟩

theorem assignCover_step (s : RasterizerCellsAntiAlias) (c a : Int) :
    SafeStep s (assignCover s c a) 0 :=
  fun hI _ => ⟨hI, Nat.le_add_right _ _, rfl, rfl⟩

theorem outLineLegal_step (s : RasterizerCellsAntiAlias) (x1 y1 x2 y2 : Int) :
    SafeStep s (outLineLegal s x1 y1 x2 y2) 0 :=
  fun hI _ => ⟨hI, Nat.le_add_right _ _, rfl, rfl⟩

theorem addCurrentCell_step (s : RasterizerCellsAntiAlias) :
    SafeStep s (addCurrentCell s) 1 := by
  intro hI hR
  unfold addCurrentCell allocateBlock
  split_ifs with h1 h2 h3 h4
  · exact absurd h3 (by omega)
  · exact ⟨Nat.add_le_add_right hI 1, le_rfl, rfl, rfl⟩
  · exact ⟨Nat.le_succ_of_le hI, le_rfl, rfl, rfl⟩
  · exact ⟨Nat.le_succ_of_le hI, le_rfl, rfl, rfl⟩
  · exact ⟨hI, Nat.le_succ _, rfl, rfl⟩

theorem setCurrentCell_step (s : RasterizerCellsAntiAlias) (x y : Int) :
    SafeStep s (setCurrentCell s x y) 1 := by
  intro hI hR
  unfold setCurrentCell
  split_ifs with h
  · exact addCurrentCell_step s hI hR
  · exact ⟨hI, Nat.le_succ _, rfl, rfl⟩

theorem renderHLoop_step (ey increase liftDxMask remDxMask dx : Int) :
    ∀ (n : Nat) (px mod mask : Int) (s : RasterizerCellsAntiAlias),
      SafeStep s (renderHLoop ey increase liftDxMask remDxMask dx n px mod mask s).1 n := by
  intro n
  induction n with
  | zero =>
    intro px mod mask s
    exact fun hI _ => ⟨hI, Nat.le_add_right _ _, rfl, rfl⟩
  | succ n ih =>
    intro px mod mask s
    exact SafeStep.mono
      (SafeStep.comp
        (SafeStep.comp (accumCover_step s _ _) (setCurrentCell_step _ _ _))
        (ih _ _ _ _))
      (by omega)

theorem renderHorizonline_step (s : RasterizerCellsAntiAlias) (ey x1 m1 x2 m2 : Int) :
    SafeStep s (renderHorizonline s ey x1 m1 x2 m2) ((x2 - x1).natAbs + 2) := by
  by_cases hm : m2 = m1
  · unfold renderHorizonline
    simp only [if_pos hm]
    exact SafeStep.mono (setCurrentCell_step _ _ _) (by omega)
  · by_cases hpx : x1 / 256 = x2 / 256
    · unfold renderHorizonline
      simp only [if_neg hm, if_pos hpx]
      exact SafeStep.mono (accumCover_step _ _ _) (by omega)
    · by_cases hdir : x2 - x1 < 0
      · unfold renderHorizonline
        simp only [if_neg hm, if_neg hpx, if_pos hdir]
        by_cases hpp : x1 / 256 + -1 ≠ x2 / 256
        · simp only [if_pos hpp]
          exact SafeStep.mono
            (SafeStep.comp
              (SafeStep.comp
                (SafeStep.comp (accumCover_step _ _ _) (setCurrentCell_step _ _ _))
                (renderHLoop_step _ _ _ _ _ _ _ _ _ _))
              (accumCover_step _ _ _))
            (by omega)
        · simp only [if_neg hpp]
          exact SafeStep.mono
            (SafeStep.comp
              (SafeStep.comp (accumCover_step _ _ _) (setCurrentCell_step _ _ _))
              (accumCover_step _ _ _))
            (by omega)
      · unfold renderHorizonline
        simp only [if_neg hm, if_neg hpx, if_neg hdir]
        by_cases hpp : x1 / 256 + 1 ≠ x2 / 256
        · simp only [if_pos hpp]
          exact SafeStep.mono
            (SafeStep.comp
              (SafeStep.comp
                (SafeStep.comp (accumCover_step _ _ _) (setCurrentCell_step _ _ _))
                (renderHLoop_step _ _ _ _ _ _ _ _ _ _))
              (accumCover_step _ _ _))
            (by omega)
        · simp only [if_neg hpp]
          exact SafeStep.mono
            (SafeStep.comp
              (SafeStep.comp (accumCover_step _ _ _) (setCurrentCell_step _ _ _))
              (accumCover_step _ _ _))
            (by omega)

theorem lineOperateBody_sameRow_step (s : RasterizerCellsAntiAlias) (x1 x2 : Int)
    {y1 y2 : Int} (h1 : y1 / 256 = y2 / 256) :
    SafeStep s (lineOperateBody s x1 y1 x2 y2) ((x2 - x1).natAbs + 3) := by
  unfold lineOperateBody
  simp only [if_pos h1]
  exact SafeStep.mono
    (SafeStep.comp
      (SafeStep.comp (outLineLegal_step _ _ _ _ _) (setCurrentCell_step _ _ _))
      (renderHorizonline_step _ _ _ _ _ _))
    (by omega)

theorem sortAllCells_droppedRev {s : RasterizerCellsAntiAlias} (h : s.sorted = false)
    (hI : s.numBlocks ≤ s.numCells + 1) (hroom : s.numCells + 1 < s.cellBlockLimit) :
    (sortAllCells s).droppedRev = s.droppedRev := by
  obtain ⟨_, hd, _⟩ := sortAllCells_fields h
  rw [hd]
  exact (addCurrentCell_step s hI hroom).2.2.1

/-! ### Per-cell area bounds for a single segment

Division bounds for the Bresenham quotients, and the invariant that every
committed cell of a single `LineOperate` on a fresh rasterizer carries
`|area| <= 2 * 256 * 256`. -/

theorem ediv_le_of_le_mul {a b c : Int} (hb : 0 < b) (h : a ≤ b * c) : a / b ≤ c := by
  have h2 := Int.ediv_le_ediv hb h
  rwa [Int.mul_ediv_cancel_left _ (ne_of_gt hb)] at h2

theorem le_ediv_of_mul_le {a b c : Int} (hb : 0 < b) (h : b * c ≤ a) : c ≤ a / b := by
  have h2 := Int.ediv_le_ediv hb h
  rwa [Int.mul_ediv_cancel_left _ (ne_of_gt hb)] at h2

/-- The scaled quotient `f * m / d` with `0 ≤ f ≤ d` lies between `0` and `m`. -/
theorem ediv_scaled_between {f d m : Int} (hd : 0 < d) (hf0 : 0 ≤ f) (hfd : f ≤ d) :
    (f * m / d).natAbs ≤ m.natAbs ∧
    (0 ≤ m → 0 ≤ f * m / d) ∧ (m ≤ 0 → f * m / d ≤ 0) := by
  have hpos : 0 ≤ m → 0 ≤ f * m / d ∧ f * m / d ≤ m := by
    intro hm
    exact ⟨Int.ediv_nonneg (mul_nonneg hf0 hm) hd.le,
      ediv_le_of_le_mul hd (by nlinarith)⟩
  have hneg : m ≤ 0 → m ≤ f * m / d ∧ f * m / d ≤ 0 := by
    intro hm
    exact ⟨le_ediv_of_mul_le hd (by nlinarith),
      ediv_le_of_le_mul hd (by nlinarith)⟩
  refine ⟨?_, fun hm => (hpos hm).1, fun hm => (hneg hm).2⟩
  rcases le_total 0 m with hm | hm
  · obtain ⟨u, v⟩ := hpos hm
    omega
  · obtain ⟨u, v⟩ := hneg hm
    omega

/-- Every committed cell carries `|area| <= 2 * 256 * 256 = 131072`. -/
def cellsAreaOK (s : RasterizerCellsAntiAlias) : Prop :=
  ∀ c ∈ s.cellsRev, c.area.natAbs ≤ 131072

theorem accumCover_currCell_x (t : RasterizerCellsAntiAlias) (delta a : Int) :
    (accumCover t delta a).currCell.x = t.currCell.x := rfl

theorem accumCover_currCell_area (t : RasterizerCellsAntiAlias) (delta a : Int) :
    (accumCover t delta a).currCell.area = t.currCell.area + a := rfl

theorem assignCover_currCell_area (t : RasterizerCellsAntiAlias) (c a : Int) :
    (assignCover t c a).currCell.area = a := rfl

theorem setCurrentCell_currCell_of_ne_x {s : RasterizerCellsAntiAlias} {x y : Int}
    (h : x ≠ s.currCell.x) :
    (setCurrentCell s x y).currCell = { x := x, y := y, cover := 0, area := 0 } := by
  unfold setCurrentCell
  rw [if_pos]
  unfold CellBuildAntiAlias.notEqual
  simp only [Bool.or_eq_true, bne_iff_ne, ne_eq]
  left
  exact h

theorem addCurrentCell_areaOK {s : RasterizerCellsAntiAlias}
    (hok : cellsAreaOK s) (hb : s.currCell.area.natAbs ≤ 131072) :
    cellsAreaOK (addCurrentCell s) := by
  have hcons : ∀ c ∈ s.currCell :: s.cellsRev, c.area.natAbs ≤ 131072 := by
    intro c hc
    rcases List.mem_cons.mp hc with hc | hc
    · rw [hc]
      exact hb
    · exact hok c hc
  unfold addCurrentCell allocateBlock
  split_ifs with h1 h2 h3 h4
  · exact hok
  · exact hcons
  · exact hcons
  · exact hcons
  · exact hok

theorem setCurrentCell_areaOK (x y : Int) {s : RasterizerCellsAntiAlias}
    (hok : cellsAreaOK s) (hb : s.currCell.area.natAbs ≤ 131072) :
    cellsAreaOK (setCurrentCell s x y) := by
  unfold setCurrentCell
  split_ifs with h
  · exact addCurrentCell_areaOK hok hb
  · exact hok

/-- The cells committed by the vertical-line row walk all receive the
assigned `area` value; the walk leaves a just-reset current cell. -/
theorem vertLoop_areaOK (ex increase delta area : Int) (hinc : increase ≠ 0)
    (harea : area.natAbs ≤ 131072) :
    ∀ (n : Nat) (ey1 : Int) (s : RasterizerCellsAntiAlias),
      cellsAreaOK s → s.currCell.area = 0 → s.currCell.y = ey1 →
      cellsAreaOK (vertLoop ex increase delta area n ey1 s).1 ∧
      (vertLoop ex increase delta area n ey1 s).1.currCell.area = 0 ∧
      (vertLoop ex increase delta area n ey1 s).1.currCell.y = ey1 + increase * n := by
  intro n
  induction n with
  | zero =>
    intro ey1 s hok hb hy
    refine ⟨hok, hb, ?_⟩
    show s.currCell.y = _
    rw [hy]
    push_cast
    ring
  | succ n ih =>
    intro ey1 s hok hb hy
    have hne : ey1 + increase ≠ (assignCover s delta area).currCell.y := by
      rw [assignCover_currCell_y, hy]
      omega
    have hfresh := setCurrentCell_currCell_of_ne (x := ex) hne
    obtain ⟨a1, a2, a3⟩ := ih (ey1 + increase)
      (setCurrentCell (assignCover s delta area) ex (ey1 + increase))
      (setCurrentCell_areaOK _ _ hok (by rw [assignCover_currCell_area]; exact harea))
      (by rw [hfresh])
      (by rw [hfresh])
    refine ⟨a1, a2, ?_⟩
    show (vertLoop ex increase delta area n (ey1 + increase) _).1.currCell.y = _
    rw [a3]
    push_cast
    ring

/-- The inner column walk of `RenderHorizonline`: with `|liftDxMask| ≤ 256`
and a normalized running remainder in `[-dx, 0)`, every committed column cell
carries `|area| = |256 * delta| ≤ 256 * 257`, the walk leaves a just-reset
current cell at the final column, the remainder stays normalized, and the row
mask advances by exactly `n * (liftDxMask * dx + remDxMask)` in the scaled
accounting. -/
theorem renderHLoop_areaOK (ey increase liftDxMask remDxMask dx : Int)
    (hinc : increase ≠ 0) (hdx : 0 < dx) (hlift : liftDxMask.natAbs ≤ 256)
    (hrem0 : 0 ≤ remDxMask) (hremd : remDxMask < dx) :
    ∀ (n : Nat) (px mod mask : Int) (s : RasterizerCellsAntiAlias),
      cellsAreaOK s → s.currCell.area = 0 → s.currCell.x = px →
      -dx ≤ mod → mod < 0 →
      cellsAreaOK (renderHLoop ey increase liftDxMask remDxMask dx n px mod mask s).1 ∧
      (renderHLoop ey increase liftDxMask remDxMask dx n px mod mask s).1.currCell.area
        = 0 ∧
      -dx ≤ (renderHLoop ey increase liftDxMask remDxMask dx n px mod mask s).2.2.1 ∧
      (renderHLoop ey increase liftDxMask remDxMask dx n px mod mask s).2.2.1 < 0 ∧
      (renderHLoop ey increase liftDxMask remDxMask dx n px mod mask s).2.2.2 * dx +
          (renderHLoop ey increase liftDxMask remDxMask dx n px mod mask s).2.2.1 =
        mask * dx + mod + n * (liftDxMask * dx + remDxMask) := by
  intro n
  induction n with
  | zero =>
    intro px mod mask s hok h0 hx hm1 hm2
    refine ⟨hok, h0, hm1, hm2, ?_⟩
    show mask * dx + mod = _
    push_cast
    ring
  | succ n ih =>
    intro px mod mask s hok h0 hx hm1 hm2
    by_cases hb : 0 ≤ mod + remDxMask
    · have hcur : (accumCover s (liftDxMask + 1)
          (POLY_SUBPIXEL_SCALE * (liftDxMask + 1))).currCell.area.natAbs ≤ 131072 := by
        show (s.currCell.area + 256 * (liftDxMask + 1)).natAbs ≤ 131072
        omega
      have hne : px + increase ≠ (accumCover s (liftDxMask + 1)
          (POLY_SUBPIXEL_SCALE * (liftDxMask + 1))).currCell.x := by
        rw [accumCover_currCell_x, hx]
        omega
      have hfresh := setCurrentCell_currCell_of_ne_x (y := ey) hne
      obtain ⟨a1, a2, a3, a4, a5⟩ := ih (px + increase) (mod + remDxMask - dx)
        (mask + (liftDxMask + 1))
        (setCurrentCell (accumCover s (liftDxMask + 1)
          (POLY_SUBPIXEL_SCALE * (liftDxMask + 1))) (px + increase) ey)
        (setCurrentCell_areaOK _ _ hok hcur)
        (by rw [hfresh]) (by rw [hfresh]) (by omega) (by omega)
      simp only [renderHLoop, if_pos hb]
      refine ⟨a1, a2, a3, a4, ?_⟩
      rw [a5]
      push_cast
      ring
    · have hcur : (accumCover s liftDxMask
          (POLY_SUBPIXEL_SCALE * liftDxMask)).currCell.area.natAbs ≤ 131072 := by
        show (s.currCell.area + 256 * liftDxMask).natAbs ≤ 131072
        omega
      have hne : px + increase ≠ (accumCover s liftDxMask
          (POLY_SUBPIXEL_SCALE * liftDxMask)).currCell.x := by
        rw [accumCover_currCell_x, hx]
        omega
      have hfresh := setCurrentCell_currCell_of_ne_x (y := ey) hne
      obtain ⟨a1, a2, a3, a4, a5⟩ := ih (px + increase) (mod + remDxMask)
        (mask + liftDxMask)
        (setCurrentCell (accumCover s liftDxMask
          (POLY_SUBPIXEL_SCALE * liftDxMask)) (px + increase) ey)
        (setCurrentCell_areaOK _ _ hok hcur)
        (by rw [hfresh]) (by rw [hfresh]) (by omega) (by omega)
      simp only [renderHLoop, if_neg hb]
      refine ⟨a1, a2, a3, a4, ?_⟩
      rw [a5]
      push_cast
      ring

theorem setCurrentCell_area_le {s : RasterizerCellsAntiAlias} (x y : Int)
    (h : s.currCell.area.natAbs ≤ 131072) :
    (setCurrentCell s x y).currCell.area.natAbs ≤ 131072 := by
  unfold setCurrentCell
  split_ifs
  · exact Nat.zero_le _
  · exact h

set_option maxHeartbeats 2000000 in
/-- The committed cells of one `RenderHorizonline` call all carry
`|area| ≤ 131072`, and so does the pending cell it leaves behind: the first
and last partial columns contribute at most `511 * 256` and each inner column
at most `256 * 257`. -/
theorem renderHorizonline_areaOK (s : RasterizerCellsAntiAlias) (ey x1 m1 x2 m2 : Int)
    (hok : cellsAreaOK s) (h0 : s.currCell.area = 0) (hcx : s.currCell.x = x1 / 256)
    (hm1a : 0 ≤ m1) (hm1b : m1 ≤ 256) (hm2a : 0 ≤ m2) (hm2b : m2 ≤ 256) :
    cellsAreaOK (renderHorizonline s ey x1 m1 x2 m2) ∧
    (renderHorizonline s ey x1 m1 x2 m2).currCell.area.natAbs ≤ 131072 := by
  by_cases hm : m2 = m1
  · unfold renderHorizonline
    simp only [if_pos hm, POLY_SUBPIXEL_SCALE]
    refine ⟨setCurrentCell_areaOK _ _ hok (by rw [h0]; exact Nat.zero_le _), ?_⟩
    exact setCurrentCell_area_le _ _ (by rw [h0]; exact Nat.zero_le _)
  · by_cases hpx : x1 / 256 = x2 / 256
    · unfold renderHorizonline
      simp only [if_neg hm, if_pos hpx, POLY_SUBPIXEL_SCALE]
      refine ⟨hok, ?_⟩
      show (s.currCell.area + (x1 % 256 + x2 % 256) * (m2 - m1)).natAbs ≤ 131072
      rw [h0, zero_add, Int.natAbs_mul]
      have ha : (x1 % 256 + x2 % 256).natAbs ≤ 510 := by omega
      have hb' : (m2 - m1).natAbs ≤ 256 := by omega
      calc (x1 % 256 + x2 % 256).natAbs * (m2 - m1).natAbs
          ≤ 510 * 256 := Nat.mul_le_mul ha hb'
        _ ≤ 131072 := by omega
    · by_cases hdir : x2 - x1 < 0
      · -- walking left: first = 0, increase = -1, dx = -(x2 - x1)
        have hdxpos : (0 : ℤ) < -(x2 - x1) := by omega
        unfold renderHorizonline
        simp only [if_neg hm, if_neg hpx, if_pos hdir, POLY_SUBPIXEL_SCALE]
        rw [tdiv_adjust hdxpos]
        set dxE : ℤ := -(x2 - x1) with hdxE
        have hdE : (0 : ℤ) < dxE := by rw [hdxE]; omega
        set D1 : ℤ := x1 % 256 * (m2 - m1) / dxE with hD1
        set r0 : ℤ := x1 % 256 * (m2 - m1) % dxE with hr0
        have hfxd : x1 % 256 ≤ dxE := by rw [hdxE]; omega
        obtain ⟨hd1abs, hd1pos, hd1neg⟩ :=
          ediv_scaled_between (m := m2 - m1) hdE (by omega) hfxd
        rw [← hD1] at hd1abs hd1pos hd1neg
        have hd1n : D1.natAbs ≤ 256 := by omega
        have harea1 : (s.currCell.area + (x1 % 256 + 0) * D1).natAbs ≤ 131072 := by
          rw [h0, zero_add, Int.natAbs_mul]
          have ha : (x1 % 256 + 0).natAbs ≤ 255 := by omega
          calc (x1 % 256 + 0).natAbs * D1.natAbs
              ≤ 255 * 256 := Nat.mul_le_mul ha hd1n
            _ ≤ 131072 := by omega
        have hneS : x1 / 256 + -1 ≠
            (accumCover s D1 ((x1 % 256 + 0) * D1)).currCell.x := by
          rw [accumCover_currCell_x, hcx]
          omega
        have hfrS := setCurrentCell_currCell_of_ne_x (y := ey) hneS
        by_cases hpp : x1 / 256 + -1 ≠ x2 / 256
        · simp only [if_pos hpp]
          rw [tdiv_adjust hdE]
          set L : ℤ := 256 * (m2 - (m1 + D1) + D1) / dxE with hL
          set R : ℤ := 256 * (m2 - (m1 + D1) + D1) % dxE with hR
          set n : ℕ := ((x2 / 256 - (x1 / 256 + -1)) * -1).toNat with hn
          have hnn : ((n : ℕ) : ℤ) = x1 / 256 - 1 - x2 / 256 := by rw [hn]; omega
          have hn1 : 1 ≤ ((n : ℕ) : ℤ) := by omega
          have hdxF : dxE = 256 * (((n : ℕ) : ℤ) + 1) + x1 % 256 - x2 % 256 := by
            rw [hdxE, hnn]; omega
          have hdx256 : 256 ≤ dxE := by omega
          obtain ⟨hLabs, hLpos, hLneg⟩ :=
            ediv_scaled_between (m := m2 - (m1 + D1) + D1) hdE (by omega) hdx256
          rw [← hL] at hLabs hLpos hLneg
          have hLn : L.natAbs ≤ 256 := by omega
          have hr0a : 0 ≤ r0 := by rw [hr0]; exact Int.emod_nonneg _ (ne_of_gt hdE)
          have hr0b : r0 < dxE := by rw [hr0]; exact Int.emod_lt_of_pos _ hdE
          have hRa : 0 ≤ R := by rw [hR]; exact Int.emod_nonneg _ (ne_of_gt hdE)
          have hRb : R < dxE := by rw [hR]; exact Int.emod_lt_of_pos _ hdE
          obtain ⟨b1, b2, b3, b4, b5⟩ :=
            renderHLoop_areaOK ey (-1) L R dxE (by decide) hdE hLn hRa hRb
              n (x1 / 256 + -1) (r0 - dxE) (m1 + D1)
              (setCurrentCell (accumCover s D1 ((x1 % 256 + 0) * D1)) (x1 / 256 + -1) ey)
              (setCurrentCell_areaOK _ _ hok harea1)
              (by rw [hfrS]) (by rw [hfrS]) (by omega) (by omega)
          refine ⟨b1, ?_⟩
          show ((renderHLoop ey (-1) L R dxE n (x1 / 256 + -1) (r0 - dxE) (m1 + D1)
              (setCurrentCell (accumCover s D1 ((x1 % 256 + 0) * D1))
                (x1 / 256 + -1) ey)).1.currCell.area +
            (x2 % 256 + 256 - 0) *
              (m2 - (renderHLoop ey (-1) L R dxE n (x1 / 256 + -1) (r0 - dxE) (m1 + D1)
                (setCurrentCell (accumCover s D1 ((x1 % 256 + 0) * D1))
                  (x1 / 256 + -1) ey)).2.2.2)).natAbs ≤ 131072
          rw [b2, zero_add, Int.natAbs_mul]
          set MF : ℤ := (renderHLoop ey (-1) L R dxE n (x1 / 256 + -1) (r0 - dxE) (m1 + D1)
            (setCurrentCell (accumCover s D1 ((x1 % 256 + 0) * D1))
              (x1 / 256 + -1) ey)).2.2.2 with hMF
          set MODF : ℤ := (renderHLoop ey (-1) L R dxE n (x1 / 256 + -1) (r0 - dxE) (m1 + D1)
            (setCurrentCell (accumCover s D1 ((x1 % 256 + 0) * D1))
              (x1 / 256 + -1) ey)).2.2.1 with hMODF
          have hedm : dxE * D1 + r0 = x1 % 256 * (m2 - m1) := by
            rw [hD1, hr0]; exact Int.ediv_add_emod _ _
          have hedL : dxE * L + R = 256 * (m2 - (m1 + D1) + D1) := by
            rw [hL, hR]; exact Int.ediv_add_emod _ _
          clear_value dxE D1 r0 L R n MF MODF
          have hkey : (m2 - MF) * dxE =
              (m2 - m1) * (256 - x2 % 256) + (dxE + MODF) := by
            linear_combination (-1 : ℤ) * b5 - hedm - ((n : ℕ) : ℤ) * hedL +
              (m2 - m1) * hdxF
          have hcoeff : (0 : ℤ) ≤ 256 - x2 % 256 := by omega
          have hdlb : 512 - x2 % 256 ≤ dxE := by omega
          have t1 : (m2 - m1) * (256 - x2 % 256) ≤ 256 * (256 - x2 % 256) := by
            nlinarith [mul_nonneg (show (0 : ℤ) ≤ 256 - (m2 - m1) by omega) hcoeff]
          have t2 : 256 * (256 - x2 % 256) ≤ 255 * dxE := by omega
          have hup2 : (m2 - MF) * dxE ≤ 256 * dxE := by linarith
          have hub : m2 - MF ≤ 256 := le_of_mul_le_mul_right hup2 hdE
          have t3 : -(256 * (256 - x2 % 256)) ≤ (m2 - m1) * (256 - x2 % 256) := by
            nlinarith [mul_nonneg (show (0 : ℤ) ≤ m2 - m1 + 256 by omega) hcoeff]
          have t4 : 256 * (256 - x2 % 256) ≤ 256 * dxE := by omega
          have hlow2 : (-256) * dxE ≤ (m2 - MF) * dxE := by linarith
          have hlb : (-256 : ℤ) ≤ m2 - MF := le_of_mul_le_mul_right hlow2 hdE
          have hcoefN : (x2 % 256 + 256 - 0).natAbs ≤ 511 := by omega
          have hdN : (m2 - MF).natAbs ≤ 256 := by omega
          calc (x2 % 256 + 256 - 0).natAbs * (m2 - MF).natAbs
              ≤ 511 * 256 := Nat.mul_le_mul hcoefN hdN
            _ ≤ 131072 := by omega
        · simp only [if_neg hpp]
          rw [tdiv_adjust hdE]
          refine ⟨setCurrentCell_areaOK _ _ hok harea1, ?_⟩
          show ((setCurrentCell (accumCover s D1 ((x1 % 256 + 0) * D1))
              (x1 / 256 + -1) ey).currCell.area +
            (x2 % 256 + 256 - 0) * (m2 - (m1 + D1))).natAbs ≤ 131072
          rw [hfrS]
          show ((0 : ℤ) + (x2 % 256 + 256 - 0) * (m2 - (m1 + D1))).natAbs ≤ 131072
          rw [zero_add, Int.natAbs_mul]
          clear_value dxE D1 r0
          have hcoefN : (x2 % 256 + 256 - 0).natAbs ≤ 511 := by omega
          have hdN : (m2 - (m1 + D1)).natAbs ≤ 256 := by omega
          calc (x2 % 256 + 256 - 0).natAbs * (m2 - (m1 + D1)).natAbs
              ≤ 511 * 256 := Nat.mul_le_mul hcoefN hdN
            _ ≤ 131072 := by omega
      · -- walking right: first = 256, increase = 1, dx = x2 - x1
        have hdxpos : (0 : ℤ) < x2 - x1 := by
          rcases lt_or_le x1 x2 with h | h
          · omega
          · exfalso; apply hpx; omega
        unfold renderHorizonline
        simp only [if_neg hm, if_neg hpx, if_neg hdir, POLY_SUBPIXEL_SCALE]
        rw [tdiv_adjust hdxpos]
        set dxE : ℤ := x2 - x1 with hdxE
        have hdE : (0 : ℤ) < dxE := by rw [hdxE]; omega
        set D1 : ℤ := (256 - x1 % 256) * (m2 - m1) / dxE with hD1
        set r0 : ℤ := (256 - x1 % 256) * (m2 - m1) % dxE with hr0
        have hfxd : 256 - x1 % 256 ≤ dxE := by rw [hdxE]; omega
        obtain ⟨hd1abs, hd1pos, hd1neg⟩ :=
          ediv_scaled_between (m := m2 - m1) hdE (by omega) hfxd
        rw [← hD1] at hd1abs hd1pos hd1neg
        have hd1n : D1.natAbs ≤ 256 := by omega
        have harea1 : (s.currCell.area + (x1 % 256 + 256) * D1).natAbs ≤ 131072 := by
          rw [h0, zero_add, Int.natAbs_mul]
          have ha : (x1 % 256 + 256).natAbs ≤ 511 := by omega
          calc (x1 % 256 + 256).natAbs * D1.natAbs
              ≤ 511 * 256 := Nat.mul_le_mul ha hd1n
            _ ≤ 131072 := by omega
        have hneS : x1 / 256 + 1 ≠
            (accumCover s D1 ((x1 % 256 + 256) * D1)).currCell.x := by
          rw [accumCover_currCell_x, hcx]
          omega
        have hfrS := setCurrentCell_currCell_of_ne_x (y := ey) hneS
        by_cases hpp : x1 / 256 + 1 ≠ x2 / 256
        · simp only [if_pos hpp]
          rw [tdiv_adjust hdE]
          set L : ℤ := 256 * (m2 - (m1 + D1) + D1) / dxE with hL
          set R : ℤ := 256 * (m2 - (m1 + D1) + D1) % dxE with hR
          set n : ℕ := ((x2 / 256 - (x1 / 256 + 1)) * 1).toNat with hn
          have hnn : ((n : ℕ) : ℤ) = x2 / 256 - 1 - x1 / 256 := by rw [hn]; omega
          have hn1 : 1 ≤ ((n : ℕ) : ℤ) := by omega
          have hdxF : dxE = 256 * (((n : ℕ) : ℤ) + 1) + x2 % 256 - x1 % 256 := by
            rw [hdxE, hnn]; omega
          have hdx256 : 256 ≤ dxE := by omega
          obtain ⟨hLabs, hLpos, hLneg⟩ :=
            ediv_scaled_between (m := m2 - (m1 + D1) + D1) hdE (by omega) hdx256
          rw [← hL] at hLabs hLpos hLneg
          have hLn : L.natAbs ≤ 256 := by omega
          have hr0a : 0 ≤ r0 := by rw [hr0]; exact Int.emod_nonneg _ (ne_of_gt hdE)
          have hr0b : r0 < dxE := by rw [hr0]; exact Int.emod_lt_of_pos _ hdE
          have hRa : 0 ≤ R := by rw [hR]; exact Int.emod_nonneg _ (ne_of_gt hdE)
          have hRb : R < dxE := by rw [hR]; exact Int.emod_lt_of_pos _ hdE
          obtain ⟨b1, b2, b3, b4, b5⟩ :=
            renderHLoop_areaOK ey 1 L R dxE (by decide) hdE hLn hRa hRb
              n (x1 / 256 + 1) (r0 - dxE) (m1 + D1)
              (setCurrentCell (accumCover s D1 ((x1 % 256 + 256) * D1)) (x1 / 256 + 1) ey)
              (setCurrentCell_areaOK _ _ hok harea1)
              (by rw [hfrS]) (by rw [hfrS]) (by omega) (by omega)
          refine ⟨b1, ?_⟩
          show ((renderHLoop ey 1 L R dxE n (x1 / 256 + 1) (r0 - dxE) (m1 + D1)
              (setCurrentCell (accumCover s D1 ((x1 % 256 + 256) * D1))
                (x1 / 256 + 1) ey)).1.currCell.area +
            (x2 % 256 + 256 - 256) *
              (m2 - (renderHLoop ey 1 L R dxE n (x1 / 256 + 1) (r0 - dxE) (m1 + D1)
                (setCurrentCell (accumCover s D1 ((x1 % 256 + 256) * D1))
                  (x1 / 256 + 1) ey)).2.2.2)).natAbs ≤ 131072
          rw [b2, zero_add, Int.natAbs_mul]
          set MF : ℤ := (renderHLoop ey 1 L R dxE n (x1 / 256 + 1) (r0 - dxE) (m1 + D1)
            (setCurrentCell (accumCover s D1 ((x1 % 256 + 256) * D1))
              (x1 / 256 + 1) ey)).2.2.2 with hMF
          set MODF : ℤ := (renderHLoop ey 1 L R dxE n (x1 / 256 + 1) (r0 - dxE) (m1 + D1)
            (setCurrentCell (accumCover s D1 ((x1 % 256 + 256) * D1))
              (x1 / 256 + 1) ey)).2.2.1 with hMODF
          have hedm : dxE * D1 + r0 = (256 - x1 % 256) * (m2 - m1) := by
            rw [hD1, hr0]; exact Int.ediv_add_emod _ _
          have hedL : dxE * L + R = 256 * (m2 - (m1 + D1) + D1) := by
            rw [hL, hR]; exact Int.ediv_add_emod _ _
          clear_value dxE D1 r0 L R n MF MODF
          have hkey : (m2 - MF) * dxE =
              (m2 - m1) * (x2 % 256) + (dxE + MODF) := by
            linear_combination (-1 : ℤ) * b5 - hedm - ((n : ℕ) : ℤ) * hedL +
              (m2 - m1) * hdxF
          have hcoeff : (0 : ℤ) ≤ x2 % 256 := by omega
          have hdlb : 257 + x2 % 256 ≤ dxE := by omega
          have t1 : (m2 - m1) * (x2 % 256) ≤ 256 * (x2 % 256) := by
            nlinarith [mul_nonneg (show (0 : ℤ) ≤ 256 - (m2 - m1) by omega) hcoeff]
          have t2 : 256 * (x2 % 256) ≤ 255 * dxE := by omega
          have hup2 : (m2 - MF) * dxE ≤ 256 * dxE := by linarith
          have hub : m2 - MF ≤ 256 := le_of_mul_le_mul_right hup2 hdE
          have t3 : -(256 * (x2 % 256)) ≤ (m2 - m1) * (x2 % 256) := by
            nlinarith [mul_nonneg (show (0 : ℤ) ≤ m2 - m1 + 256 by omega) hcoeff]
          have t4 : 256 * (x2 % 256) ≤ 256 * dxE := by omega
          have hlow2 : (-256) * dxE ≤ (m2 - MF) * dxE := by linarith
          have hlb : (-256 : ℤ) ≤ m2 - MF := le_of_mul_le_mul_right hlow2 hdE
          have hcoefN : (x2 % 256 + 256 - 256).natAbs ≤ 255 := by omega
          have hdN : (m2 - MF).natAbs ≤ 256 := by omega
          calc (x2 % 256 + 256 - 256).natAbs * (m2 - MF).natAbs
              ≤ 255 * 256 := Nat.mul_le_mul hcoefN hdN
            _ ≤ 131072 := by omega
        · simp only [if_neg hpp]
          rw [tdiv_adjust hdE]
          refine ⟨setCurrentCell_areaOK _ _ hok harea1, ?_⟩
          show ((setCurrentCell (accumCover s D1 ((x1 % 256 + 256) * D1))
              (x1 / 256 + 1) ey).currCell.area +
            (x2 % 256 + 256 - 256) * (m2 - (m1 + D1))).natAbs ≤ 131072
          rw [hfrS]
          show ((0 : ℤ) + (x2 % 256 + 256 - 256) * (m2 - (m1 + D1))).natAbs ≤ 131072
          rw [zero_add, Int.natAbs_mul]
          clear_value dxE D1 r0
          have hcoefN : (x2 % 256 + 256 - 256).natAbs ≤ 255 := by omega
          have hdN : (m2 - (m1 + D1)).natAbs ≤ 256 := by omega
          calc (x2 % 256 + 256 - 256).natAbs * (m2 - (m1 + D1)).natAbs
              ≤ 255 * 256 := Nat.mul_le_mul hcoefN hdN
            _ ≤ 131072 := by omega

theorem setCurrentCell_area0 {s : RasterizerCellsAntiAlias}
    (h : s.currCell.area = 0) (x y : Int) :
    (setCurrentCell s x y).currCell.area = 0 := by
  unfold setCurrentCell
  split_ifs
  · rfl
  · exact h

/-- The cells committed by the sloped-line row walk all carry
`|area| ≤ 131072`; the walk leaves a just-reset current cell positioned at
the pixel of the running intersection `xFrom`. -/
theorem genLoop_areaOK (first increase liftDyMask remDyMask dy : Int)
    (hinc : increase ≠ 0) (hf : first = 0 ∨ first = 256) :
    ∀ (n : Nat) (ey1 xFrom modDyMask : Int) (s : RasterizerCellsAntiAlias),
      cellsAreaOK s → s.currCell.area = 0 → s.currCell.y = ey1 →
      s.currCell.x = xFrom / 256 →
      cellsAreaOK (genLoop first increase liftDyMask remDyMask dy n ey1 xFrom modDyMask s).1 ∧
      (genLoop first increase liftDyMask remDyMask dy n ey1 xFrom modDyMask s).1.currCell.area
        = 0 ∧
      (genLoop first increase liftDyMask remDyMask dy n ey1 xFrom modDyMask s).1.currCell.x =
        (genLoop first increase liftDyMask remDyMask dy n ey1 xFrom modDyMask s).2.1 / 256 := by
  have hfb : 0 ≤ first ∧ first ≤ 256 := by rcases hf with h | h <;> simp [h]
  intro n
  induction n with
  | zero =>
    intro ey1 xFrom modDyMask s hok h0 hy hx
    exact ⟨hok, h0, hx⟩
  | succ n ih =>
    intro ey1 xFrom modDyMask s hok h0 hy hx
    set xTo : ℤ :=
      xFrom + (if 0 ≤ modDyMask + remDyMask then liftDyMask + 1 else liftDyMask) with hxTo
    set mod2 : ℤ :=
      if 0 ≤ modDyMask + remDyMask then modDyMask + remDyMask - dy
      else modDyMask + remDyMask with hmod2
    obtain ⟨c1, c2⟩ := renderHorizonline_areaOK s ey1 xFrom (256 - first) xTo first
      hok h0 hx (by omega) (by omega) (by omega) (by omega)
    have hyR := (renderHorizonline_coverTotal s ey1 xFrom (256 - first) xTo first hy).2
    have hneY : ey1 + increase ≠
        (renderHorizonline s ey1 xFrom (256 - first) xTo first).currCell.y := by
      rw [hyR]
      omega
    have hfr := setCurrentCell_currCell_of_ne (x := xTo / 256) hneY
    obtain ⟨g1, g2, g3⟩ := ih (ey1 + increase) xTo mod2
      (setCurrentCell (renderHorizonline s ey1 xFrom (256 - first) xTo first)
        (xTo / 256) (ey1 + increase))
      (setCurrentCell_areaOK _ _ c1 c2)
      (by rw [hfr]) (by rw [hfr]) (by rw [hfr])
    exact ⟨g1, g2, g3⟩

/-- One `LineOperate` body on a state whose pending cell is clean: every
committed cell and the pending cell it leaves carry `|area| ≤ 131072`. -/
theorem lineOperateBody_areaOK (s : RasterizerCellsAntiAlias) (x1 y1 x2 y2 : Int)
    (hok : cellsAreaOK s) (h0 : s.currCell.area = 0) :
    cellsAreaOK (lineOperateBody s x1 y1 x2 y2) ∧
    (lineOperateBody s x1 y1 x2 y2).currCell.area.natAbs ≤ 131072 := by
  have hok1 : cellsAreaOK (setCurrentCell (outLineLegal s (x1 / 256) (y1 / 256)
      (x2 / 256) (y2 / 256)) (x1 / 256) (y1 / 256)) :=
    setCurrentCell_areaOK _ _ hok
      (by show s.currCell.area.natAbs ≤ 131072; rw [h0]; exact Nat.zero_le _)
  have h01 : (setCurrentCell (outLineLegal s (x1 / 256) (y1 / 256)
      (x2 / 256) (y2 / 256)) (x1 / 256) (y1 / 256)).currCell.area = 0 :=
    setCurrentCell_area0
      (s := outLineLegal s (x1 / 256) (y1 / 256) (x2 / 256) (y2 / 256)) h0 _ _
  have hx1 : (setCurrentCell (outLineLegal s (x1 / 256) (y1 / 256)
      (x2 / 256) (y2 / 256)) (x1 / 256) (y1 / 256)).currCell.x = x1 / 256 :=
    setCurrentCell_currCell_x _ _ _
  have hy1 : (setCurrentCell (outLineLegal s (x1 / 256) (y1 / 256)
      (x2 / 256) (y2 / 256)) (x1 / 256) (y1 / 256)).currCell.y = y1 / 256 :=
    setCurrentCell_currCell_y _ _ _
  by_cases h1 : y1 / 256 = y2 / 256
  · unfold lineOperateBody
    simp only [if_pos h1, POLY_SUBPIXEL_SCALE]
    exact renderHorizonline_areaOK _ _ _ _ _ _ hok1 h01 hx1
      (by omega) (by omega) (by omega) (by omega)
  · by_cases h2 : x2 - x1 = 0
    · -- vertical branch
      by_cases hdy : y2 - y1 < 0
      · unfold lineOperateBody
        simp only [if_neg h1, if_pos h2, if_pos hdy, POLY_SUBPIXEL_SCALE]
        have harea1 : ((setCurrentCell (outLineLegal s (x1 / 256) (y1 / 256)
            (x2 / 256) (y2 / 256)) (x1 / 256) (y1 / 256)).currCell.area +
            (x1 - x1 / 256 * 256) * 2 * (0 - y1 % 256)).natAbs ≤ 131072 := by
          rw [h01, zero_add, Int.natAbs_mul]
          have hu : ((x1 - x1 / 256 * 256) * 2).natAbs ≤ 510 := by omega
          have hv : (0 - y1 % 256).natAbs ≤ 256 := by omega
          calc ((x1 - x1 / 256 * 256) * 2).natAbs * (0 - y1 % 256).natAbs
              ≤ 510 * 256 := Nat.mul_le_mul hu hv
            _ ≤ 131072 := by omega
        have hne : y1 / 256 + -1 ≠ (accumCover (setCurrentCell (outLineLegal s
            (x1 / 256) (y1 / 256) (x2 / 256) (y2 / 256)) (x1 / 256) (y1 / 256))
            (0 - y1 % 256) ((x1 - x1 / 256 * 256) * 2 * (0 - y1 % 256))).currCell.y := by
          rw [accumCover_currCell_y, hy1]
          omega
        have hfr := setCurrentCell_currCell_of_ne (x := x1 / 256) hne
        obtain ⟨v1, v2, v3⟩ := vertLoop_areaOK (x1 / 256) (-1) (0 + 0 - 256)
          ((x1 - x1 / 256 * 256) * 2 * (0 + 0 - 256)) (by decide)
          (by rw [Int.natAbs_mul]
              have hu : ((x1 - x1 / 256 * 256) * 2).natAbs ≤ 510 := by omega
              have hv : ((0 : ℤ) + 0 - 256).natAbs ≤ 256 := by omega
              calc ((x1 - x1 / 256 * 256) * 2).natAbs * ((0 : ℤ) + 0 - 256).natAbs
                  ≤ 510 * 256 := Nat.mul_le_mul hu hv
                _ ≤ 131072 := by omega)
          ((y2 / 256 - (y1 / 256 + -1)) * -1).toNat (y1 / 256 + -1)
          (setCurrentCell (accumCover (setCurrentCell (outLineLegal s
            (x1 / 256) (y1 / 256) (x2 / 256) (y2 / 256)) (x1 / 256) (y1 / 256))
            (0 - y1 % 256) ((x1 - x1 / 256 * 256) * 2 * (0 - y1 % 256)))
            (x1 / 256) (y1 / 256 + -1))
          (setCurrentCell_areaOK _ _ hok1 harea1)
          (by rw [hfr]) (by rw [hfr])
        refine ⟨v1, ?_⟩
        show ((vertLoop (x1 / 256) (-1) (0 + 0 - 256)
            ((x1 - x1 / 256 * 256) * 2 * (0 + 0 - 256))
            (((y2 / 256 - (y1 / 256 + -1)) * -1).toNat) (y1 / 256 + -1)
            (setCurrentCell (accumCover (setCurrentCell (outLineLegal s
              (x1 / 256) (y1 / 256) (x2 / 256) (y2 / 256)) (x1 / 256) (y1 / 256))
              (0 - y1 % 256) ((x1 - x1 / 256 * 256) * 2 * (0 - y1 % 256)))
              (x1 / 256) (y1 / 256 + -1))).1.currCell.area +
          (x1 - x1 / 256 * 256) * 2 * (y2 % 256 - 256 + 0)).natAbs ≤ 131072
        rw [v2, zero_add, Int.natAbs_mul]
        have hu : ((x1 - x1 / 256 * 256) * 2).natAbs ≤ 510 := by omega
        have hv : (y2 % 256 - 256 + 0).natAbs ≤ 256 := by omega
        calc ((x1 - x1 / 256 * 256) * 2).natAbs * (y2 % 256 - 256 + 0).natAbs
            ≤ 510 * 256 := Nat.mul_le_mul hu hv
          _ ≤ 131072 := by omega
      · unfold lineOperateBody
        simp only [if_neg h1, if_pos h2, if_neg hdy, POLY_SUBPIXEL_SCALE]
        have harea1 : ((setCurrentCell (outLineLegal s (x1 / 256) (y1 / 256)
            (x2 / 256) (y2 / 256)) (x1 / 256) (y1 / 256)).currCell.area +
            (x1 - x1 / 256 * 256) * 2 * (256 - y1 % 256)).natAbs ≤ 131072 := by
          rw [h01, zero_add, Int.natAbs_mul]
          have hu : ((x1 - x1 / 256 * 256) * 2).natAbs ≤ 510 := by omega
          have hv : (256 - y1 % 256).natAbs ≤ 256 := by omega
          calc ((x1 - x1 / 256 * 256) * 2).natAbs * (256 - y1 % 256).natAbs
              ≤ 510 * 256 := Nat.mul_le_mul hu hv
            _ ≤ 131072 := by omega
        have hne : y1 / 256 + 1 ≠ (accumCover (setCurrentCell (outLineLegal s
            (x1 / 256) (y1 / 256) (x2 / 256) (y2 / 256)) (x1 / 256) (y1 / 256))
            (256 - y1 % 256) ((x1 - x1 / 256 * 256) * 2 * (256 - y1 % 256))).currCell.y := by
          rw [accumCover_currCell_y, hy1]
          omega
        have hfr := setCurrentCell_currCell_of_ne (x := x1 / 256) hne
        obtain ⟨v1, v2, v3⟩ := vertLoop_areaOK (x1 / 256) 1 (256 + 256 - 256)
          ((x1 - x1 / 256 * 256) * 2 * (256 + 256 - 256)) (by decide)
          (by rw [Int.natAbs_mul]
              have hu : ((x1 - x1 / 256 * 256) * 2).natAbs ≤ 510 := by omega
              have hv : ((256 : ℤ) + 256 - 256).natAbs ≤ 256 := by omega
              calc ((x1 - x1 / 256 * 256) * 2).natAbs * ((256 : ℤ) + 256 - 256).natAbs
                  ≤ 510 * 256 := Nat.mul_le_mul hu hv
                _ ≤ 131072 := by omega)
          ((y2 / 256 - (y1 / 256 + 1)) * 1).toNat (y1 / 256 + 1)
          (setCurrentCell (accumCover (setCurrentCell (outLineLegal s
            (x1 / 256) (y1 / 256) (x2 / 256) (y2 / 256)) (x1 / 256) (y1 / 256))
            (256 - y1 % 256) ((x1 - x1 / 256 * 256) * 2 * (256 - y1 % 256)))
            (x1 / 256) (y1 / 256 + 1))
          (setCurrentCell_areaOK _ _ hok1 harea1)
          (by rw [hfr]) (by rw [hfr])
        refine ⟨v1, ?_⟩
        show ((vertLoop (x1 / 256) 1 (256 + 256 - 256)
            ((x1 - x1 / 256 * 256) * 2 * (256 + 256 - 256))
            (((y2 / 256 - (y1 / 256 + 1)) * 1).toNat) (y1 / 256 + 1)
            (setCurrentCell (accumCover (setCurrentCell (outLineLegal s
              (x1 / 256) (y1 / 256) (x2 / 256) (y2 / 256)) (x1 / 256) (y1 / 256))
              (256 - y1 % 256) ((x1 - x1 / 256 * 256) * 2 * (256 - y1 % 256)))
              (x1 / 256) (y1 / 256 + 1))).1.currCell.area +
          (x1 - x1 / 256 * 256) * 2 * (y2 % 256 - 256 + 256)).natAbs ≤ 131072
        rw [v2, zero_add, Int.natAbs_mul]
        have hu : ((x1 - x1 / 256 * 256) * 2).natAbs ≤ 510 := by omega
        have hv : (y2 % 256 - 256 + 256).natAbs ≤ 256 := by omega
        calc ((x1 - x1 / 256 * 256) * 2).natAbs * (y2 % 256 - 256 + 256).natAbs
            ≤ 510 * 256 := Nat.mul_le_mul hu hv
          _ ≤ 131072 := by omega
    · -- sloped branch
      by_cases hdy : y2 - y1 < 0
      · have hdyA : (0 : ℤ) < -(y2 - y1) := by omega
        unfold lineOperateBody
        simp only [if_neg h1, if_neg h2, if_pos hdy, POLY_SUBPIXEL_SCALE]
        rw [tdiv_adjust (a := y1 % 256 * (x2 - x1)) hdyA]
        obtain ⟨c1, c2⟩ := renderHorizonline_areaOK _ (y1 / 256) x1 (y1 % 256)
          (x1 + y1 % 256 * (x2 - x1) / -(y2 - y1)) 0
          hok1 h01 hx1 (by omega) (by omega) (by omega) (by omega)
        have hyR := (renderHorizonline_coverTotal _ (y1 / 256) x1 (y1 % 256)
          (x1 + y1 % 256 * (x2 - x1) / -(y2 - y1)) 0 hy1).2
        have hneY : y1 / 256 + -1 ≠
            (renderHorizonline (setCurrentCell (outLineLegal s (x1 / 256) (y1 / 256)
              (x2 / 256) (y2 / 256)) (x1 / 256) (y1 / 256)) (y1 / 256) x1 (y1 % 256)
              (x1 + y1 % 256 * (x2 - x1) / -(y2 - y1)) 0).currCell.y := by
          rw [hyR]
          omega
        have hfr := setCurrentCell_currCell_of_ne
          (x := (x1 + y1 % 256 * (x2 - x1) / -(y2 - y1)) / 256) hneY
        by_cases h3 : y1 / 256 + -1 ≠ y2 / 256
        · simp only [if_pos h3]
          rw [tdiv_adjust (a := 256 * (x2 - x1)) hdyA]
          obtain ⟨g1, g2, g3⟩ := genLoop_areaOK 0 (-1)
            (256 * (x2 - x1) / -(y2 - y1)) (256 * (x2 - x1) % -(y2 - y1)) (-(y2 - y1))
            (by decide) (Or.inl rfl)
            (((y2 / 256 - (y1 / 256 + -1)) * -1).toNat) (y1 / 256 + -1)
            (x1 + y1 % 256 * (x2 - x1) / -(y2 - y1))
            (y1 % 256 * (x2 - x1) % -(y2 - y1) - -(y2 - y1))
            (setCurrentCell (renderHorizonline (setCurrentCell (outLineLegal s
              (x1 / 256) (y1 / 256) (x2 / 256) (y2 / 256)) (x1 / 256) (y1 / 256))
              (y1 / 256) x1 (y1 % 256) (x1 + y1 % 256 * (x2 - x1) / -(y2 - y1)) 0)
              ((x1 + y1 % 256 * (x2 - x1) / -(y2 - y1)) / 256) (y1 / 256 + -1))
            (setCurrentCell_areaOK _ _ c1 c2)
            (by rw [hfr]) (by rw [hfr]) (by rw [hfr])
          exact renderHorizonline_areaOK _ _ _ (256 - 0) x2 (y2 % 256)
            g1 g2 g3 (by omega) (by omega) (by omega) (by omega)
        · simp only [if_neg h3]
          exact renderHorizonline_areaOK _ _ _ (256 - 0) x2 (y2 % 256)
            (setCurrentCell_areaOK _ _ c1 c2) (by rw [hfr]) (by rw [hfr])
            (by omega) (by omega) (by omega) (by omega)
      · have hdyA : (0 : ℤ) < y2 - y1 := by
          rcases lt_or_le y1 y2 with h | h
          · omega
          · exfalso; apply h1; omega
        unfold lineOperateBody
        simp only [if_neg h1, if_neg h2, if_neg hdy, POLY_SUBPIXEL_SCALE]
        rw [tdiv_adjust (a := (256 - y1 % 256) * (x2 - x1)) hdyA]
        obtain ⟨c1, c2⟩ := renderHorizonline_areaOK _ (y1 / 256) x1 (y1 % 256)
          (x1 + (256 - y1 % 256) * (x2 - x1) / (y2 - y1)) 256
          hok1 h01 hx1 (by omega) (by omega) (by omega) (by omega)
        have hyR := (renderHorizonline_coverTotal _ (y1 / 256) x1 (y1 % 256)
          (x1 + (256 - y1 % 256) * (x2 - x1) / (y2 - y1)) 256 hy1).2
        have hneY : y1 / 256 + 1 ≠
            (renderHorizonline (setCurrentCell (outLineLegal s (x1 / 256) (y1 / 256)
              (x2 / 256) (y2 / 256)) (x1 / 256) (y1 / 256)) (y1 / 256) x1 (y1 % 256)
              (x1 + (256 - y1 % 256) * (x2 - x1) / (y2 - y1)) 256).currCell.y := by
          rw [hyR]
          omega
        have hfr := setCurrentCell_currCell_of_ne
          (x := (x1 + (256 - y1 % 256) * (x2 - x1) / (y2 - y1)) / 256) hneY
        by_cases h3 : y1 / 256 + 1 ≠ y2 / 256
        · simp only [if_pos h3]
          rw [tdiv_adjust (a := 256 * (x2 - x1)) hdyA]
          obtain ⟨g1, g2, g3⟩ := genLoop_areaOK 256 1
            (256 * (x2 - x1) / (y2 - y1)) (256 * (x2 - x1) % (y2 - y1)) (y2 - y1)
            (by decide) (Or.inr rfl)
            (((y2 / 256 - (y1 / 256 + 1)) * 1).toNat) (y1 / 256 + 1)
            (x1 + (256 - y1 % 256) * (x2 - x1) / (y2 - y1))
            ((256 - y1 % 256) * (x2 - x1) % (y2 - y1) - (y2 - y1))
            (setCurrentCell (renderHorizonline (setCurrentCell (outLineLegal s
              (x1 / 256) (y1 / 256) (x2 / 256) (y2 / 256)) (x1 / 256) (y1 / 256))
              (y1 / 256) x1 (y1 % 256)
              (x1 + (256 - y1 % 256) * (x2 - x1) / (y2 - y1)) 256)
              ((x1 + (256 - y1 % 256) * (x2 - x1) / (y2 - y1)) / 256) (y1 / 256 + 1))
            (setCurrentCell_areaOK _ _ c1 c2)
            (by rw [hfr]) (by rw [hfr]) (by rw [hfr])
          exact renderHorizonline_areaOK _ _ _ (256 - 256) x2 (y2 % 256)
            g1 g2 g3 (by omega) (by omega) (by omega) (by omega)
        · simp only [if_neg h3]
          exact renderHorizonline_areaOK _ _ _ (256 - 256) x2 (y2 % 256)
            (setCurrentCell_areaOK _ _ c1 c2) (by rw [hfr]) (by rw [hfr])
            (by omega) (by omega) (by omega) (by omega)

/-! ### Claims -/

/-- C1: the claim asserts that a segment with `|x2 - x1| >= DX_LIMIT` is
bisected at the exact integer midpoint and that the total accumulated cover
equals the non-bisected reference rasterization.  The code does bisect at the
midpoint, but `LineOperate` has no `return` after the recursive calls, so it
falls through and rasterizes the whole segment a third time: on the segment
`(0,0) -> (DX_LIMIT, 1)` the two halves together contribute row-0 cover 1
(the reference value), and the fall-through adds another 1, so the total is 2
instead of the reference 1. -/
theorem C1_bisection_fall_through_code_bug :
    coverTotal 0 (lineOperate (initState 4294967295) 0 0 4194304 1) = 2 ∧
    coverTotal 0 (lineOperateBody (initState 4294967295) 0 0 4194304 1) = 1 := by
  have hgA : DX_LIMIT ≤ (4194304 : ℤ) - 0 ∨ (4194304 : ℤ) - 0 ≤ -DX_LIMIT := by decide
  have hgA1 : ¬(DX_LIMIT ≤ ((0 : ℤ) + 4194304) / 2 - 0 ∨
      ((0 : ℤ) + 4194304) / 2 - 0 ≤ -DX_LIMIT) := by decide
  have hgA2 : ¬(DX_LIMIT ≤ (4194304 : ℤ) - (0 + 4194304) / 2 ∨
      (4194304 : ℤ) - (0 + 4194304) / 2 ≤ -DX_LIMIT) := by decide
  constructor
  · rw [lineOperate_eq_bisect _ hgA, lineOperateBody_coverTotal,
      lineOperate_eq_body _ hgA2, lineOperateBody_coverTotal,
      lineOperate_eq_body _ hgA1, lineOperateBody_coverTotal, coverTotal_initState]
    simp only [rowSpan, clipToRow]
    omega
  · rw [lineOperateBody_coverTotal, coverTotal_initState]
    simp only [rowSpan, clipToRow]
    omega

/-- C2 (counterexample): for the closed triangle
`(0,0) -> (DX_LIMIT,1) -> (DX_LIMIT,0) -> (0,0)` the row-0 cover sum over the
committed cells after finalization is 1, not 0: the first edge reaches
`DX_LIMIT`, is bisected, and — lacking the `return` — is rasterized once more
whole, so its row-0 cover counts twice (2 - 1 + 0 = 1).  The block-limit
cutoff never fires here (limit 4294967295), so nothing is dropped. -/
theorem C2_closed_polygon_counterexample :
    coverSum 0 (sortAllCells (lineOperateClosed (initState 4294967295) (0, 0)
      [(4194304, 1), (4194304, 0)])).cellsRev = 1 := by
  have hgA : DX_LIMIT ≤ (4194304 : ℤ) - 0 ∨ (4194304 : ℤ) - 0 ≤ -DX_LIMIT := by decide
  have hgA1 : ¬(DX_LIMIT ≤ ((0 : ℤ) + 4194304) / 2 - 0 ∨
      ((0 : ℤ) + 4194304) / 2 - 0 ≤ -DX_LIMIT) := by decide
  have hgA2 : ¬(DX_LIMIT ≤ (4194304 : ℤ) - (0 + 4194304) / 2 ∨
      (4194304 : ℤ) - (0 + 4194304) / 2 ≤ -DX_LIMIT) := by decide
  have hgB : ¬(DX_LIMIT ≤ (4194304 : ℤ) - 4194304 ∨
      (4194304 : ℤ) - 4194304 ≤ -DX_LIMIT) := by decide
  have hgC : DX_LIMIT ≤ (0 : ℤ) - 4194304 ∨ (0 : ℤ) - 4194304 ≤ -DX_LIMIT := by decide
  have hgC1 : ¬(DX_LIMIT ≤ ((4194304 : ℤ) + 0) / 2 - 4194304 ∨
      ((4194304 : ℤ) + 0) / 2 - 4194304 ≤ -DX_LIMIT) := by decide
  have hgC2 : ¬(DX_LIMIT ≤ (0 : ℤ) - (4194304 + 0) / 2 ∨
      (0 : ℤ) - (4194304 + 0) / 2 ≤ -DX_LIMIT) := by decide
  have hA : ∀ s, coverTotal 0 (lineOperate s 0 0 4194304 1) = coverTotal 0 s + 2 := by
    intro s
    rw [lineOperate_eq_bisect _ hgA, lineOperateBody_coverTotal,
      lineOperate_eq_body _ hgA2, lineOperateBody_coverTotal,
      lineOperate_eq_body _ hgA1, lineOperateBody_coverTotal]
    simp only [rowSpan, clipToRow]
    omega
  have hB : ∀ s, coverTotal 0 (lineOperate s 4194304 1 4194304 0) = coverTotal 0 s - 1 := by
    intro s
    rw [lineOperate_eq_body _ hgB, lineOperateBody_coverTotal]
    simp only [rowSpan, clipToRow]
    omega
  have hC : ∀ s, coverTotal 0 (lineOperate s 4194304 0 0 0) = coverTotal 0 s := by
    intro s
    rw [lineOperate_eq_bisect _ hgC, lineOperateBody_coverTotal,
      lineOperate_eq_body _ hgC2, lineOperateBody_coverTotal,
      lineOperate_eq_body _ hgC1, lineOperateBody_coverTotal]
    simp only [rowSpan, clipToRow]
    omega
  have hPcov : coverTotal 0 (lineOperate (lineOperate (lineOperate
      (initState 4294967295) 0 0 4194304 1) 4194304 1 4194304 0) 4194304 0 0 0) = 1 := by
    rw [hC, hB, hA, coverTotal_initState]
    decide
  have hsafe : SafeStep (initState 4294967295)
      (lineOperate (lineOperate (lineOperate
        (initState 4294967295) 0 0 4194304 1) 4194304 1 4194304 0) 4194304 0 0 0)
      20000000 := by
    rw [lineOperate_eq_bisect _ hgC, lineOperate_eq_body _ hgC2, lineOperate_eq_body _ hgC1,
      lineOperate_eq_bisect _ hgA, lineOperate_eq_body _ hgA2, lineOperate_eq_body _ hgA1,
      lineOperate_eq_body _ hgB]
    exact SafeStep.mono
      (SafeStep.comp (SafeStep.comp (SafeStep.comp (SafeStep.comp (SafeStep.comp (SafeStep.comp
        (lineOperateBody_sameRow_step _ _ _
          (by decide : (0 : ℤ) / 256 = (((0 : ℤ) + 1) / 2) / 256))
        (lineOperateBody_sameRow_step _ _ _
          (by decide : (((0 : ℤ) + 1) / 2) / 256 = (1 : ℤ) / 256)))
        (lineOperateBody_sameRow_step _ _ _
          (by decide : (0 : ℤ) / 256 = (1 : ℤ) / 256)))
        (lineOperateBody_sameRow_step _ _ _
          (by decide : (1 : ℤ) / 256 = (0 : ℤ) / 256)))
        (lineOperateBody_sameRow_step _ _ _
          (by decide : (0 : ℤ) / 256 = (((0 : ℤ) + 0) / 2) / 256)))
        (lineOperateBody_sameRow_step _ _ _
          (by decide : (((0 : ℤ) + 0) / 2) / 256 = (0 : ℤ) / 256)))
        (lineOperateBody_sameRow_step _ _ _
          (by decide : (0 : ℤ) / 256 = (0 : ℤ) / 256)))
      (by decide)
  have hsorted : (lineOperate (lineOperate (lineOperate
      (initState 4294967295) 0 0 4194304 1) 4194304 1 4194304 0) 4194304 0 0 0).sorted =
      false := by
    simp only [lineOperate_sorted]
    rfl
  obtain ⟨hIP, hNP, hDP, hLP⟩ := hsafe (by decide) (by decide)
  have hroomP : (lineOperate (lineOperate (lineOperate
      (initState 4294967295) 0 0 4194304 1) 4194304 1 4194304 0) 4194304 0 0 0).numCells + 1 <
      (lineOperate (lineOperate (lineOperate
        (initState 4294967295) 0 0 4194304 1) 4194304 1 4194304 0) 4194304 0 0 0).cellBlockLimit := by
    rw [hLP]
    have h0 : (initState 4294967295).numCells = 0 := rfl
    have hL0 : (initState 4294967295).cellBlockLimit = 4294967295 := rfl
    omega
  show coverSum 0 (sortAllCells (lineOperate (lineOperate (lineOperate
    (initState 4294967295) 0 0 4194304 1) 4194304 1 4194304 0) 4194304 0 0 0)).cellsRev = 1
  rw [sortAllCells_coverSum hsorted 0, hPcov,
    sortAllCells_droppedRev hsorted hIP hroomP, hDP]
  decide

/-- C2 (amended): for a closed polygon all of whose segments keep
`|x2 - x1|` strictly below `DX_LIMIT` (so no segment is bisected), and whose
ingestion into a fresh rasterizer drops no cell at the block limit, the sum
of cover over the committed cells of any single row is zero after
finalization. -/
theorem C2_closed_polygon_amended (cellBlockLimit : Nat) (v : Int × Int)
    (vs : List (Int × Int)) (r : Int)
    (hdx : pathBelowLimitB v (vs ++ [v]) = true)
    (hdrop : (sortAllCells (lineOperateClosed (initState cellBlockLimit) v vs)).droppedRev
      = []) :
    coverSum r (sortAllCells (lineOperateClosed (initState cellBlockLimit) v vs)).cellsRev
      = 0 := by
  have hsorted : (lineOperateClosed (initState cellBlockLimit) v vs).sorted = false := by
    unfold lineOperateClosed
    rw [lineOperatePath_sorted]
    rfl
  rw [sortAllCells_coverSum hsorted r, hdrop]
  show coverTotal r (lineOperatePath (initState cellBlockLimit) v (vs ++ [v])) -
    coverSum r [] = 0
  rw [lineOperatePath_coverTotal r _ _ _ hdx, pathSpanSum_closed, coverTotal_initState]
  rfl

theorem C2_closed_polygon_amended_witness :
    pathBelowLimitB (0, 0) ([((0 : ℤ), (256 : ℤ))] ++ [(0, 0)]) = true ∧
    (sortAllCells (lineOperateClosed (initState 1024) (0, 0) [(0, 256)])).droppedRev = [] ∧
    coverSum 0 (sortAllCells (lineOperateClosed (initState 1024) (0, 0) [(0, 256)])).cellsRev
      = 0 :=
  ⟨by decide, by decide,
    C2_closed_polygon_amended 1024 (0, 0) [(0, 256)] 0 (by decide) (by decide)⟩

/-- C8 (counterexample): the bound `|area| <= 2 * 256 * 256` fails for
general call sequences, because `area` accumulates in the current cell for as
long as the pixel identity does not change: a zig-zag polyline that climbs the
right edge of pixel (0,0) twice (and descends its left edge, which adds zero
area) commits a single cell whose area is `2 * (255 + 255) * 255 = 260100 >
131072`. -/
theorem C8_area_bound_counterexample :
    ∃ c ∈ (sortAllCells (lineOperatePath (initState 1024) (255, 0)
      [(255, 255), (0, 255), (0, 0), (255, 0), (255, 255), (0, 255), (0, 0)])).cellsRev,
      131072 < c.area.natAbs := by
  decide

/-- C8 (amended): for a single `LineOperate` call on a fresh rasterizer whose
horizontal delta stays below `DX_LIMIT`, every committed cell (including the
final pending cell committed by `SortAllCells`) satisfies
`|area| <= 2 * 256 * 256 = 131072`. -/
theorem C8_area_bound_amended (cellBlockLimit : Nat) (x1 y1 x2 y2 : Int)
    (hdx : ¬(DX_LIMIT ≤ x2 - x1 ∨ x2 - x1 ≤ -DX_LIMIT)) :
    ∀ c ∈ (sortAllCells (lineOperate (initState cellBlockLimit) x1 y1 x2 y2)).cellsRev,
      c.area.natAbs ≤ 131072 := by
  intro c hc'
  have hsorted : (lineOperate (initState cellBlockLimit) x1 y1 x2 y2).sorted = false := by
    rw [lineOperate_sorted]
    rfl
  obtain ⟨hcells, _, _⟩ := sortAllCells_fields hsorted
  rw [hcells, lineOperate_eq_body _ hdx] at hc'
  obtain ⟨hok, hcur⟩ := lineOperateBody_areaOK (initState cellBlockLimit) x1 y1 x2 y2
    (fun c hc => absurd hc (List.not_mem_nil c)) rfl
  exact addCurrentCell_areaOK hok hcur c hc'

theorem C8_area_bound_amended_witness :
    ¬(DX_LIMIT ≤ (256 : ℤ) - 0 ∨ (256 : ℤ) - 0 ≤ -DX_LIMIT) ∧
    ∀ c ∈ (sortAllCells (lineOperate (initState 1024) 0 0 256 256)).cellsRev,
      c.area.natAbs ≤ 131072 :=
  ⟨by decide, C8_area_bound_amended 1024 0 0 256 256 (by decide)⟩

/-- C4: once `numBlocks_` has reached `cellBlockLimit_`, a commit attempted by
`AddCurrentCell` at a block boundary (`numCells_ % CELL_BLOCK_SIZE == 0`) is
dropped silently: the committed cells, the cell count, the block counters,
the current cell, the bounding box, the sorted flag and the sorted view are
all unchanged (only the ghost record of dropped cells can differ). -/
theorem C4_block_limit_silent_drop (s : RasterizerCellsAntiAlias)
    (hl : s.cellBlockLimit ≤ s.numBlocks) (hb : s.numCells % CELL_BLOCK_SIZE = 0) :
    (addCurrentCell s).cellsRev = s.cellsRev ∧
    getTotalCells (addCurrentCell s) = getTotalCells s ∧
    (addCurrentCell s).numBlocks = s.numBlocks ∧
    (addCurrentCell s).currBlock = s.currBlock ∧
    (addCurrentCell s).cellBlockLimit = s.cellBlockLimit ∧
    (addCurrentCell s).currCell = s.currCell ∧
    (addCurrentCell s).minX = s.minX ∧
    (addCurrentCell s).minY = s.minY ∧
    (addCurrentCell s).maxX = s.maxX ∧
    (addCurrentCell s).maxY = s.maxY ∧
    (addCurrentCell s).sorted = s.sorted ∧
    (addCurrentCell s).sortedCells = s.sortedCells ∧
    (addCurrentCell s).sortedY = s.sortedY := by
  unfold addCurrentCell getTotalCells
  by_cases hz : s.currCell.area ≠ 0 ∨ s.currCell.cover ≠ 0
  · rw [if_pos hz, if_pos hb, if_pos hl]
    exact ⟨rfl, rfl, rfl, rfl, rfl, rfl, rfl, rfl, rfl, rfl, rfl, rfl, rfl⟩
  · rw [if_neg hz]
    exact ⟨rfl, rfl, rfl, rfl, rfl, rfl, rfl, rfl, rfl, rfl, rfl, rfl, rfl⟩

theorem C4_block_limit_silent_drop_witness :
    let s : RasterizerCellsAntiAlias :=
      { initState 0 with currCell := { x := 0, y := 0, cover := 1, area := 1 } }
    s.cellBlockLimit ≤ s.numBlocks ∧ s.numCells % CELL_BLOCK_SIZE = 0 ∧
    ((addCurrentCell s).cellsRev = s.cellsRev ∧
     getTotalCells (addCurrentCell s) = getTotalCells s ∧
     (addCurrentCell s).numBlocks = s.numBlocks ∧
     (addCurrentCell s).currBlock = s.currBlock ∧
     (addCurrentCell s).cellBlockLimit = s.cellBlockLimit ∧
     (addCurrentCell s).currCell = s.currCell ∧
     (addCurrentCell s).minX = s.minX ∧
     (addCurrentCell s).minY = s.minY ∧
     (addCurrentCell s).maxX = s.maxX ∧
     (addCurrentCell s).maxY = s.maxY ∧
     (addCurrentCell s).sorted = s.sorted ∧
     (addCurrentCell s).sortedCells = s.sortedCells ∧
     (addCurrentCell s).sortedY = s.sortedY) :=
  ⟨by decide, by decide,
    C4_block_limit_silent_drop _ (by decide) (by decide)⟩

/-- C5: a commit of a current cell whose accumulated `area` and `cover` are
both zero stores nothing: `AddCurrentCell` leaves the state (cell count and
pool contents included) exactly as it was. -/
theorem C5_zero_cell_not_stored (s : RasterizerCellsAntiAlias)
    (ha : s.currCell.area = 0) (hc : s.currCell.cover = 0) :
    addCurrentCell s = s :=
  addCurrentCell_zero ha hc

theorem C5_zero_cell_not_stored_witness :
    (initState 1024).currCell.area = 0 ∧ (initState 1024).currCell.cover = 0 ∧
    addCurrentCell (initState 1024) = initState 1024 :=
  ⟨by decide, by decide, C5_zero_cell_not_stored _ (by decide) (by decide)⟩

/-- C6: on a fresh rasterizer, the vertical segment from `(10*256, 0)` to
`(10*256, 3*256)` followed by `SortAllCells` commits exactly 3 cells, at
`x = 10` and `y = 0, 1, 2`, each with `cover = 256` and all with one and the
same `area` value. -/
theorem C6_vertical_segment_scenario :
    getTotalCells (sortAllCells (lineOperate (initState 1024) (10 * 256) 0 (10 * 256) (3 * 256))) = 3 ∧
    (sortAllCells (lineOperate (initState 1024) (10 * 256) 0 (10 * 256) (3 * 256))).cellsRev.reverse.map
      (fun c => (c.x, c.y)) = [(10, 0), (10, 1), (10, 2)] ∧
    (∀ c ∈ (sortAllCells (lineOperate (initState 1024) (10 * 256) 0 (10 * 256) (3 * 256))).cellsRev,
      c.cover = 256) ∧
    (∃ a, ∀ c ∈ (sortAllCells (lineOperate (initState 1024) (10 * 256) 0 (10 * 256) (3 * 256))).cellsRev,
      c.area = a) :=
  ⟨by decide, by decide, by decide, ⟨0, by decide⟩⟩

/-- C7 counterexample: on a fresh rasterizer, the horizontal segment from
`(0,0)` to `(256,0)` followed by `SortAllCells` does NOT commit exactly one
cell (the equal y-masks short-circuit `RenderHorizonline`, and a cell with
zero cover and area is dropped at commit time), refuting the claim. -/
theorem C7_horizontal_segment_counterexample :
    ¬ getTotalCells (sortAllCells (lineOperate (initState 1024) 0 0 256 0)) = 1 := by
  decide

/-- C7 amended: the horizontal segment from `(0,0)` to `(256,0)` commits no
cell at all: both sub-pixel y-masks are 0, so `RenderHorizonline` returns
after `SetCurrentCell` without accumulating, and the all-zero cell is not
stored; the committed-cell list stays empty, and (as no cell was committed)
the sorted flag stays unset. -/
theorem C7_horizontal_segment_amended :
    getTotalCells (sortAllCells (lineOperate (initState 1024) 0 0 256 0)) = 0 ∧
    (sortAllCells (lineOperate (initState 1024) 0 0 256 0)).cellsRev = [] ∧
    getSorted (sortAllCells (lineOperate (initState 1024) 0 0 256 0)) = false :=
  ⟨by decide, by decide, by decide⟩

/-- C9: a second `SortAllCells` with no ingestion in between changes nothing
at all: finalization is idempotent on the entire state (cell count, sorted
flag, bounding box and the per-row sorted view included). -/
theorem C9_sort_idempotent (s : RasterizerCellsAntiAlias) :
    sortAllCells (sortAllCells s) = sortAllCells s := by
  by_cases hs : s.sorted = true
  · rw [sortAllCells_of_sorted hs]
    exact sortAllCells_of_sorted hs
  · have hs' : s.sorted = false := by simpa using hs
    rcases sortAllCells_unsorted_case hs' with ⟨hz, heq⟩ | ⟨_, hsorted⟩
    · rw [heq]
      have h1 : ({ addCurrentCell s with currCell := CellBuildAntiAlias.initialCell } :
          RasterizerCellsAntiAlias).sorted = false := by
        show (addCurrentCell s).sorted = false
        rw [addCurrentCell_sorted]
        exact hs'
      rcases sortAllCells_unsorted_case h1 with ⟨_, heq2⟩ | ⟨hnz2, _⟩
      · rw [heq2]
        rw [addCurrentCell_zero (by rfl) (by rfl)]
      · exfalso
        apply hnz2
        rw [addCurrentCell_zero (by rfl) (by rfl)]
        exact hz
    · exact sortAllCells_of_sorted hsorted

/-- C10: when `SortAllCells` runs on an unsorted state, the sorted flag ends
up set exactly when the final `AddCurrentCell` leaves at least one committed
cell: finalizing an empty shape returns before setting the flag (so
`GetSorted()` stays false), while a non-empty finalization sets it. -/
theorem C10_empty_finalize_leaves_unsorted (s : RasterizerCellsAntiAlias)
    (h : getSorted s = false) :
    getSorted (sortAllCells s) = ((addCurrentCell s).numCells != 0) := by
  rcases sortAllCells_unsorted_case h with ⟨hz, heq⟩ | ⟨hnz, hsorted⟩
  · rw [getSorted, heq, hz]
    show (addCurrentCell s).sorted = _
    rw [addCurrentCell_sorted]
    exact h
  · rw [getSorted, hsorted]
    simp [bne, hnz]

theorem C10_empty_finalize_leaves_unsorted_witness :
    getSorted (initState 1024) = false ∧
    getSorted (sortAllCells (initState 1024)) =
      ((addCurrentCell (initState 1024)).numCells != 0) :=
  ⟨by decide, C10_empty_finalize_leaves_unsorted _ (by decide)⟩

/-! ### Array access toolkit for the sort-phase proofs -/

theorem getD_eq_getElem {α : Type} (a : Array α) (k : Nat) (d : α) (h : k < a.size) :
    a.getD k d = a[k] := by
  unfold Array.getD
  rw [dif_pos h]
  rfl

theorem setD_getD_self {α : Type} (a : Array α) (i : Nat) (v d : α) (h : i < a.size) :
    (a.setD i v).getD i d = v := by
  unfold Array.setD
  rw [dif_pos h]
  rw [getD_eq_getElem _ _ _ (by simp [h])]
  simp [Array.getElem_set]

theorem setD_getD_ne {α : Type} (a : Array α) (i k : Nat) (v d : α) (h : i ≠ k) :
    (a.setD i v).getD k d = a.getD k d := by
  unfold Array.setD
  by_cases hi : i < a.size
  · rw [dif_pos hi]
    by_cases hk : k < a.size
    · rw [getD_eq_getElem _ _ _ (by simp [hk]), getD_eq_getElem _ _ _ hk]
      simp [Array.getElem_set]
      intro he
      exact absurd he h
    · unfold Array.getD
      rw [dif_neg (by simp [hk]), dif_neg hk]
  · rw [dif_neg hi]

theorem modify_getD_self {α : Type} (a : Array α) (i : Nat) (f : α → α) (d : α)
    (h : i < a.size) : (a.modify i f).getD i d = f (a.getD i d) := by
  rw [getD_eq_getElem _ _ _ (by simp [h]), getD_eq_getElem _ _ _ h]
  simp [Array.getElem_modify]

theorem modify_getD_ne {α : Type} (a : Array α) (i k : Nat) (f : α → α) (d : α)
    (h : i ≠ k) : (a.modify i f).getD k d = a.getD k d := by
  by_cases hk : k < a.size
  · rw [getD_eq_getElem _ _ _ (by simp [hk]), getD_eq_getElem _ _ _ hk]
    simp [Array.getElem_modify, h]
  · unfold Array.getD
    rw [dif_neg (by simp [hk]), dif_neg hk]

theorem swapCells_size (a : Array CellBuildAntiAlias) (i j : Nat) :
    (swapCells a i j).size = a.size := by
  unfold swapCells
  simp [Array.size_setD]

theorem swapCells_getD_fst (a : Array CellBuildAntiAlias) (i j : Nat)
    (hi : i < a.size) (hj : j < a.size) :
    (swapCells a i j).getD i cellDefault = a.getD j cellDefault := by
  unfold swapCells
  by_cases hij : i = j
  · subst hij
    rw [setD_getD_self _ _ _ _ (by simp [Array.size_setD, hi])]
  · rw [setD_getD_ne _ _ _ _ _ (fun he => hij he.symm),
      setD_getD_self _ _ _ _ hi]

theorem swapCells_getD_snd (a : Array CellBuildAntiAlias) (i j : Nat)
    (hi : i < a.size) (hj : j < a.size) :
    (swapCells a i j).getD j cellDefault = a.getD i cellDefault := by
  unfold swapCells
  rw [setD_getD_self _ _ _ _ (by simp [Array.size_setD, hj])]

theorem swapCells_getD_ne (a : Array CellBuildAntiAlias) (i j k : Nat)
    (hik : i ≠ k) (hjk : j ≠ k) :
    (swapCells a i j).getD k cellDefault = a.getD k cellDefault := by
  unfold swapCells
  rw [setD_getD_ne _ _ _ _ _ hjk, setD_getD_ne _ _ _ _ _ hik]

/-- The contents of positions `[l, r)` of the array, as a list. -/
def segList (a : Array CellBuildAntiAlias) (l r : Nat) : List CellBuildAntiAlias :=
  (List.range (r - l)).map (fun k => a.getD (l + k) cellDefault)

theorem segList_length (a : Array CellBuildAntiAlias) (l r : Nat) :
    (segList a l r).length = r - l := by
  simp [segList]

theorem segList_getElem (a : Array CellBuildAntiAlias) (l r k : Nat)
    (h : k < (segList a l r).length) :
    (segList a l r)[k] = a.getD (l + k) cellDefault := by
  simp [segList]

theorem segList_congr {a b : Array CellBuildAntiAlias} {l r : Nat}
    (h : ∀ k, l ≤ k → k < r → a.getD k cellDefault = b.getD k cellDefault) :
    segList a l r = segList b l r := by
  unfold segList
  apply List.map_congr_left
  intro k hk
  rw [List.mem_range] at hk
  exact h (l + k) (by omega) (by omega)

theorem segList_split (a : Array CellBuildAntiAlias) {l m r : Nat}
    (h1 : l ≤ m) (h2 : m ≤ r) :
    segList a l r = segList a l m ++ segList a m r := by
  unfold segList
  have hr : r - l = (m - l) + (r - m) := by omega
  rw [hr, List.range_add, List.map_append, List.map_map]
  congr 1
  apply List.map_congr_left
  intro k _
  show a.getD (l + (m - l + k)) cellDefault = a.getD (m + k) cellDefault
  congr 1
  omega

theorem mem_segList {a : Array CellBuildAntiAlias} {l r : Nat} {v : CellBuildAntiAlias}
    (h : v ∈ segList a l r) :
    ∃ k, l ≤ k ∧ k < r ∧ a.getD k cellDefault = v := by
  unfold segList at h
  obtain ⟨k, hk, he⟩ := List.mem_map.mp h
  rw [List.mem_range] at hk
  exact ⟨l + k, by omega, by omega, he⟩

theorem index_mem_segList (a : Array CellBuildAntiAlias) {l r k : Nat}
    (hl : l ≤ k) (hr : k < r) :
    a.getD k cellDefault ∈ segList a l r := by
  unfold segList
  refine List.mem_map.mpr ⟨k - l, List.mem_range.mpr (by omega), ?_⟩
  congr 1
  omega

theorem segList_setD (a : Array CellBuildAntiAlias) {l r i : Nat} (v : CellBuildAntiAlias)
    (hl : l ≤ i) (hir : i < r) (hsz : i < a.size) :
    segList (a.setD i v) l r = (segList a l r).set (i - l) v := by
  apply List.ext_getElem
  · simp [segList_length]
  · intro n h1 h2
    rw [segList_getElem, List.getElem_set]
    by_cases hn : i - l = n
    · rw [if_pos hn]
      have : l + n = i := by omega
      rw [this, setD_getD_self _ _ _ _ hsz]
    · rw [if_neg hn, setD_getD_ne _ _ _ _ _ (by omega), segList_getElem]

theorem segList_setD_outside (a : Array CellBuildAntiAlias) {l r i : Nat}
    (v : CellBuildAntiAlias) (h : i < l ∨ r ≤ i) :
    segList (a.setD i v) l r = segList a l r := by
  apply segList_congr
  intro k hk1 hk2
  rw [setD_getD_ne _ _ _ _ _ (by omega)]

theorem cons_set_perm {α : Type} :
    ∀ (t : List α) (k : Nat) (x : α) (h : k < t.length),
      (t[k] :: t.set k x).Perm (x :: t) := by
  intro t
  induction t with
  | nil => intro k x h; simp at h
  | cons a t2 ih =>
    intro k x h
    match k with
    | 0 => exact List.Perm.swap x a t2
    | m + 1 =>
      have hm : m < t2.length := by simpa using h
      show (t2[m] :: a :: t2.set m x).Perm (x :: a :: t2)
      have h1 : (t2[m] :: a :: t2.set m x).Perm (a :: t2[m] :: t2.set m x) :=
        List.Perm.swap a t2[m] (t2.set m x)
      have h2 : (a :: t2[m] :: t2.set m x).Perm (a :: x :: t2) :=
        List.Perm.cons a (ih m x hm)
      have h3 : (a :: x :: t2).Perm (x :: a :: t2) := List.Perm.swap x a t2
      exact (h1.trans h2).trans h3

theorem list_swap_perm {α : Type} :
    ∀ (l : List α) (i j : Nat) (hi : i < l.length) (hj : j < l.length),
      ((l.set i l[j]).set j l[i]).Perm l := by
  intro l
  induction l with
  | nil => intro i j hi hj; simp at hi
  | cons a t ih =>
    intro i j hi hj
    match i, j with
    | 0, 0 => simp
    | 0, m + 1 =>
      have hm : m < t.length := by simpa using hj
      show (t[m] :: t.set m a).Perm (a :: t)
      exact cons_set_perm t m a hm
    | m + 1, 0 =>
      have hm : m < t.length := by simpa using hi
      show (t[m] :: t.set m a).Perm (a :: t)
      exact cons_set_perm t m a hm
    | m + 1, n + 1 =>
      have hm : m < t.length := by simpa using hi
      have hn : n < t.length := by simpa using hj
      show (a :: (t.set m t[n]).set n t[m]).Perm (a :: t)
      exact List.Perm.cons a (ih m n hm hn)

theorem swapCells_segList_perm (a : Array CellBuildAntiAlias) {l r i j : Nat}
    (hli : l ≤ i) (hir : i < r) (hlj : l ≤ j) (hjr : j < r) (hr : r ≤ a.size) :
    (segList (swapCells a i j) l r).Perm (segList a l r) := by
  unfold swapCells
  show (segList ((a.setD i (a.getD j cellDefault)).setD j (a.getD i cellDefault)) l r).Perm _
  rw [segList_setD _ _ hlj hjr (by simp [Array.size_setD]; omega),
    segList_setD _ _ hli hir (by omega)]
  have hjb : j - l < (segList a l r).length := by rw [segList_length]; omega
  have hib : i - l < (segList a l r).length := by rw [segList_length]; omega
  have hgj : a.getD j cellDefault = (segList a l r)[j - l] := by
    rw [segList_getElem]
    congr 1
    omega
  have hgi : a.getD i cellDefault = (segList a l r)[i - l] := by
    rw [segList_getElem]
    congr 1
    omega
  rw [hgj, hgi]
  exact list_swap_perm (segList a l r) (i - l) (j - l)
    (by rw [segList_length]; omega) (by rw [segList_length]; omega)

/-- Positions `[l, r)` of the array are non-decreasing in `x`. -/
def sortedRange (a : Array CellBuildAntiAlias) (l r : Nat) : Prop :=
  ∀ p q : Nat, l ≤ p → p < q → q < r → getCellX a p ≤ getCellX a q

theorem sortedRange_congr {a b : Array CellBuildAntiAlias} {l r : Nat}
    (h : ∀ k, l ≤ k → k < r → a.getD k cellDefault = b.getD k cellDefault)
    (hs : sortedRange a l r) : sortedRange b l r := by
  intro p q h1 h2 h3
  unfold getCellX
  rw [← h p (by omega) (by omega), ← h q (by omega) (by omega)]
  exact hs p q h1 h2 h3

theorem sortedRange_sub {a : Array CellBuildAntiAlias} {l r l2 r2 : Nat}
    (hs : sortedRange a l r) (h1 : l ≤ l2) (h2 : r2 ≤ r) : sortedRange a l2 r2 :=
  fun p q g1 g2 g3 => hs p q (by omega) g2 (by omega)

theorem sortedRange_vacuous (a : Array CellBuildAntiAlias) {l r : Nat} (h : r ≤ l + 1) :
    sortedRange a l r := by
  intro p q g1 g2 g3
  exact (by omega : False).elim

theorem sortedRange_pairwise {a : Array CellBuildAntiAlias} {l r : Nat}
    (hs : sortedRange a l r) :
    List.Pairwise (fun u v : CellBuildAntiAlias => u.x ≤ v.x) (segList a l r) := by
  rw [List.pairwise_iff_getElem]
  intro p q h1 h2 hpq
  rw [segList_getElem, segList_getElem]
  rw [segList_length] at h1 h2
  exact hs (l + p) (l + q) (by omega) (by omega) (by omega)

theorem drop_take_eq_segList (a : Array CellBuildAntiAlias) (l r : Nat) (hr : r ≤ a.size) :
    (a.toList.drop l).take (r - l) = segList a l r := by
  by_cases hlr : l ≤ r
  · apply List.ext_getElem
    · simp [segList_length, Array.length_toList]
      omega
    · intro n h1 h2
      rw [segList_getElem]
      rw [List.getElem_take, List.getElem_drop]
      rw [getD_eq_getElem _ _ _ (by rw [segList_length] at h2; omega)]
      rfl
  · have h0 : r - l = 0 := by omega
    simp [h0, segList]

/-! ### Value facts about the partition scans -/

theorem qsortScanI_val (a : Array CellBuildAntiAlias) (x : Int) (limit : Nat) :
    ∀ i, (∀ k, i + 1 ≤ k → k < qsortScanI a x limit i → getCellX a k < x) ∧
      (qsortScanI a x limit i < limit → x ≤ getCellX a (qsortScanI a x limit i)) := by
  have main : ∀ (n i : Nat), limit - i ≤ n →
      (∀ k, i + 1 ≤ k → k < qsortScanI a x limit i → getCellX a k < x) ∧
      (qsortScanI a x limit i < limit → x ≤ getCellX a (qsortScanI a x limit i)) := by
    intro n
    induction n with
    | zero =>
      intro i hn
      rw [qsortScanI]
      by_cases h : i + 1 < limit ∧ getCellX a (i + 1) < x
      · exact (by omega : False).elim
      · rw [dif_neg h]
        push_neg at h
        exact ⟨fun k h1 h2 => (by omega : False).elim, h⟩
    | succ n ih =>
      intro i hn
      rw [qsortScanI]
      by_cases h : i + 1 < limit ∧ getCellX a (i + 1) < x
      · rw [dif_pos h]
        obtain ⟨ih1, ih2⟩ := ih (i + 1) (by omega)
        refine ⟨fun k h1 h2 => ?_, ih2⟩
        by_cases hk : k = i + 1
        · rw [hk]; exact h.2
        · exact ih1 k (by omega) h2
      · rw [dif_neg h]
        push_neg at h
        exact ⟨fun k h1 h2 => (by omega : False).elim, h⟩
  exact fun i => main (limit - i) i le_rfl

theorem qsortScanJ_val (a : Array CellBuildAntiAlias) (x : Int) (base : Nat) :
    ∀ j, (∀ k, qsortScanJ a x base j < k → k ≤ j - 1 → x < getCellX a k) ∧
      (base < qsortScanJ a x base j → getCellX a (qsortScanJ a x base j) ≤ x) := by
  have main : ∀ (n j : Nat), j ≤ n →
      (∀ k, qsortScanJ a x base j < k → k ≤ j - 1 → x < getCellX a k) ∧
      (base < qsortScanJ a x base j → getCellX a (qsortScanJ a x base j) ≤ x) := by
    intro n
    induction n with
    | zero =>
      intro j hn
      rw [qsortScanJ]
      by_cases h : base < j - 1 ∧ x < getCellX a (j - 1)
      · exact (by omega : False).elim
      · rw [dif_neg h]
        push_neg at h
        exact ⟨fun k h1 h2 => (by omega : False).elim, h⟩
    | succ n ih =>
      intro j hn
      rw [qsortScanJ]
      by_cases h : base < j - 1 ∧ x < getCellX a (j - 1)
      · rw [dif_pos h]
        obtain ⟨ih1, ih2⟩ := ih (j - 1) (by omega)
        have hres := qsortScanJ_le a x base (j - 1)
        refine ⟨fun k h1 h2 => ?_, ih2⟩
        by_cases hk : k = j - 1
        · rw [hk]; exact h.2
        · exact ih1 k h1 (by omega)
      · rw [dif_neg h]
        push_neg at h
        exact ⟨fun k h1 h2 => (by omega : False).elim, h⟩
  exact fun j => main j j le_rfl

theorem qsortScanJ_ge (a : Array CellBuildAntiAlias) (x : Int) (base : Nat) :
    ∀ j, base + 1 ≤ j → base ≤ qsortScanJ a x base j := by
  have main : ∀ (n j : Nat), j ≤ n → base + 1 ≤ j → base ≤ qsortScanJ a x base j := by
    intro n
    induction n with
    | zero =>
      intro j hn hj
      exact (by omega : False).elim
    | succ n ih =>
      intro j hn hj
      rw [qsortScanJ]
      by_cases h : base < j - 1 ∧ x < getCellX a (j - 1)
      · rw [dif_pos h]
        exact ih (j - 1) (by omega) (by omega)
      · rw [dif_neg h]
        omega
  exact fun j => main j j le_rfl

/-- Full partition invariant of the `QsortCellsSweep` loop: with the pivot
value sitting at `base` and the two median sentinels in place, the loop keeps
`[base+1, i]` at most the pivot and `[j, limit)` at least the pivot, touches
only `(base, limit)`, permutes the range, and stops with crossed indices
delimiting the two regions, the final `jIndex` landing on a value at most the
pivot. -/
theorem qsortSweepLoop_spec (x : Int) (base limit : Nat) :
    ∀ (n : Nat) (a : Array CellBuildAntiAlias) (i j : Nat), j - i ≤ n →
      limit ≤ a.size → base < i → i ≤ j → j < limit →
      (∀ k, base + 1 ≤ k → k ≤ i → getCellX a k ≤ x) →
      (∀ k, j ≤ k → k < limit → x ≤ getCellX a k) →
      getCellX a base = x →
      (qsortSweepLoop x base limit a i j).1.size = a.size ∧
      (∀ k, k < base ∨ limit ≤ k →
        (qsortSweepLoop x base limit a i j).1.getD k cellDefault = a.getD k cellDefault) ∧
      (segList (qsortSweepLoop x base limit a i j).1 base limit).Perm
        (segList a base limit) ∧
      getCellX (qsortSweepLoop x base limit a i j).1 base = x ∧
      base ≤ (qsortSweepLoop x base limit a i j).2.2 ∧
      (qsortSweepLoop x base limit a i j).2.1 ≤ limit ∧
      (∀ k, base + 1 ≤ k → k < (qsortSweepLoop x base limit a i j).2.1 →
        getCellX (qsortSweepLoop x base limit a i j).1 k ≤ x) ∧
      (∀ k, (qsortSweepLoop x base limit a i j).2.2 < k → k < limit →
        x ≤ getCellX (qsortSweepLoop x base limit a i j).1 k) ∧
      getCellX (qsortSweepLoop x base limit a i j).1
        (qsortSweepLoop x base limit a i j).2.2 ≤ x := by
  have stopCase : ∀ (a : Array CellBuildAntiAlias) (i j : Nat),
      limit ≤ a.size → base < i → i ≤ j → j < limit →
      (∀ k, base + 1 ≤ k → k ≤ i → getCellX a k ≤ x) →
      (∀ k, j ≤ k → k < limit → x ≤ getCellX a k) →
      getCellX a base = x →
      qsortScanJ a x base j < qsortScanI a x limit i →
      (qsortSweepLoop x base limit a i j).1.size = a.size ∧
      (∀ k, k < base ∨ limit ≤ k →
        (qsortSweepLoop x base limit a i j).1.getD k cellDefault = a.getD k cellDefault) ∧
      (segList (qsortSweepLoop x base limit a i j).1 base limit).Perm
        (segList a base limit) ∧
      getCellX (qsortSweepLoop x base limit a i j).1 base = x ∧
      base ≤ (qsortSweepLoop x base limit a i j).2.2 ∧
      (qsortSweepLoop x base limit a i j).2.1 ≤ limit ∧
      (∀ k, base + 1 ≤ k → k < (qsortSweepLoop x base limit a i j).2.1 →
        getCellX (qsortSweepLoop x base limit a i j).1 k ≤ x) ∧
      (∀ k, (qsortSweepLoop x base limit a i j).2.2 < k → k < limit →
        x ≤ getCellX (qsortSweepLoop x base limit a i j).1 k) ∧
      getCellX (qsortSweepLoop x base limit a i j).1
        (qsortSweepLoop x base limit a i j).2.2 ≤ x := by
    intro a i j hsz hbi hij hjl hL hR hx h
    have hIb := (qsortScanI_lt a x limit i).1
    have hJb := qsortScanJ_le a x base j
    have hIv1 := (qsortScanI_val a x limit i).1
    have hIv2 := (qsortScanI_val a x limit i).2
    have hJv1 := (qsortScanJ_val a x base j).1
    have hJv2 := (qsortScanJ_val a x base j).2
    have hImax := (qsortScanI_lt a x limit i).2
    have hJg := qsortScanJ_ge a x base j (by omega)
    have heq : qsortSweepLoop x base limit a i j =
        (a, qsortScanI a x limit i, qsortScanJ a x base j) := by
      rw [qsortSweepLoop]
      simp only [dif_pos h]
    rw [heq]
    refine ⟨rfl, fun k _ => rfl, List.Perm.refl _, hx, hJg,
      (by omega : qsortScanI a x limit i ≤ limit),
      fun k h1 h2 => ?_, fun k h1 h2 => ?_, ?_⟩
    · replace h2 : k < qsortScanI a x limit i := h2
      show getCellX a k ≤ x
      by_cases hk : k ≤ i
      · exact hL k h1 hk
      · exact le_of_lt (hIv1 k (by omega) h2)
    · replace h1 : qsortScanJ a x base j < k := h1
      show x ≤ getCellX a k
      by_cases hk : j ≤ k
      · exact hR k hk h2
      · exact le_of_lt (hJv1 k h1 (by omega))
    · show getCellX a (qsortScanJ a x base j) ≤ x
      by_cases hbj : base < qsortScanJ a x base j
      · exact hJv2 hbj
      · have hb : qsortScanJ a x base j = base := by omega
        rw [hb, hx]
  intro n
  induction n with
  | zero =>
    intro a i j hn hsz hbi hij hjl hL hR hx
    have hIb := (qsortScanI_lt a x limit i).1
    have hJb := qsortScanJ_le a x base j
    exact stopCase a i j hsz hbi hij hjl hL hR hx (by omega)
  | succ n ih =>
    intro a i j hn hsz hbi hij hjl hL hR hx
    have hIb := (qsortScanI_lt a x limit i).1
    have hJb := qsortScanJ_le a x base j
    have hIv1 := (qsortScanI_val a x limit i).1
    have hIv2 := (qsortScanI_val a x limit i).2
    have hJv1 := (qsortScanJ_val a x base j).1
    have hJv2 := (qsortScanJ_val a x base j).2
    have hImax := (qsortScanI_lt a x limit i).2
    have hJg := qsortScanJ_ge a x base j (by omega)
    by_cases h : qsortScanJ a x base j < qsortScanI a x limit i
    · exact stopCase a i j hsz hbi hij hjl hL hR hx h
    · have heq : qsortSweepLoop x base limit a i j =
          qsortSweepLoop x base limit
            (swapCells a (qsortScanI a x limit i) (qsortScanJ a x base j))
            (qsortScanI a x limit i) (qsortScanJ a x base j) := by
        rw [qsortSweepLoop]
        simp only [dif_neg h]
      rw [heq]
      set I1 := qsortScanI a x limit i with hI1
      set J1 := qsortScanJ a x base j with hJ1
      have hI1lim : I1 < limit := by omega
      have hJ1b : base + 1 < J1 := by omega
      have hvi1 : x ≤ getCellX a I1 := hIv2 hI1lim
      have hvj1 : getCellX a J1 ≤ x := hJv2 (by omega)
      have hswsz : (swapCells a I1 J1).size = a.size := swapCells_size a I1 J1
      have hL2 : ∀ k, base + 1 ≤ k → k ≤ I1 → getCellX (swapCells a I1 J1) k ≤ x := by
        intro k h1 h2
        by_cases hk : k = I1
        · rw [hk]
          unfold getCellX
          rw [swapCells_getD_fst a I1 J1 (by omega) (by omega)]
          exact hvj1
        · unfold getCellX
          rw [swapCells_getD_ne a I1 J1 k (by omega) (by omega)]
          by_cases hki : k ≤ i
          · exact hL k h1 hki
          · exact le_of_lt (hIv1 k (by omega) (by omega))
      have hR2 : ∀ k, J1 ≤ k → k < limit → x ≤ getCellX (swapCells a I1 J1) k := by
        intro k h1 h2
        by_cases hk : k = J1
        · rw [hk]
          unfold getCellX
          rw [swapCells_getD_snd a I1 J1 (by omega) (by omega)]
          exact hvi1
        · unfold getCellX
          rw [swapCells_getD_ne a I1 J1 k (by omega) (by omega)]
          by_cases hkj : j ≤ k
          · exact hR k hkj h2
          · exact le_of_lt (hJv1 k (by omega) (by omega))
      have hx2 : getCellX (swapCells a I1 J1) base = x := by
        unfold getCellX
        rw [swapCells_getD_ne a I1 J1 base (by omega) (by omega)]
        exact hx
      obtain ⟨c1, c2, c3, c4, c5, c6, c7, c8, c9⟩ :=
        ih (swapCells a I1 J1) I1 J1 (by omega) (by omega) (by omega) (by omega)
          (by omega) hL2 hR2 hx2
      refine ⟨by rw [c1, hswsz], fun k hk => ?_, ?_, c4, c5, c6, c7, c8, c9⟩
      · rw [c2 k hk, swapCells_getD_ne a I1 J1 k (by omega) (by omega)]
      · exact c3.trans (swapCells_segList_perm a (by omega) (by omega) (by omega)
          (by omega) hsz)

theorem getCellX_swap_fst (a : Array CellBuildAntiAlias) {i j : Nat}
    (hi : i < a.size) (hj : j < a.size) :
    getCellX (swapCells a i j) i = getCellX a j := by
  unfold getCellX
  rw [swapCells_getD_fst a i j hi hj]

theorem getCellX_swap_snd (a : Array CellBuildAntiAlias) {i j : Nat}
    (hi : i < a.size) (hj : j < a.size) :
    getCellX (swapCells a i j) j = getCellX a i := by
  unfold getCellX
  rw [swapCells_getD_snd a i j hi hj]

theorem getCellX_swap_ne (a : Array CellBuildAntiAlias) {i j k : Nat}
    (hik : i ≠ k) (hjk : j ≠ k) :
    getCellX (swapCells a i j) k = getCellX a k := by
  unfold getCellX
  rw [swapCells_getD_ne a i j k hik hjk]

theorem condSwap_spec {a : Array CellBuildAntiAlias} {l r i j : Nat} (P : Prop)
    [Decidable P] (hli : l ≤ i) (hir : i < r) (hlj : l ≤ j) (hjr : j < r)
    (hr : r ≤ a.size) :
    (if P then swapCells a i j else a).size = a.size ∧
    (∀ k, k < l ∨ r ≤ k →
      (if P then swapCells a i j else a).getD k cellDefault = a.getD k cellDefault) ∧
    (segList (if P then swapCells a i j else a) l r).Perm (segList a l r) := by
  split_ifs with h
  · exact ⟨swapCells_size a i j,
      fun k hk => swapCells_getD_ne a i j k (by omega) (by omega),
      swapCells_segList_perm a hli hir hlj hjr hr⟩
  · exact ⟨rfl, fun k _ => rfl, List.Perm.refl _⟩

/-- `QsortCellsSweep` followed by the pivot swap of the driver: the median
swaps and the partition loop leave the range permuted and everything outside
untouched, and after swapping the pivot to the final `jIndex` the range is
split into a low region `[base, j1)`, a pivot plateau `[j1, i1)` and a high
region `[i1, limit)` around the pivot value. -/
theorem qsortCellsSweep_spec (a : Array CellBuildAntiAlias) (base limit : Nat)
    (hlen : base + 3 ≤ limit) (hsz : limit ≤ a.size)
    (R : Array CellBuildAntiAlias) (i1 j1 : Nat)
    (hE : qsortCellsSweep a base (base + 1) (limit - 1) limit = (R, i1, j1)) :
    R.size = a.size ∧
    (∀ k, k < base ∨ limit ≤ k → R.getD k cellDefault = a.getD k cellDefault) ∧
    (segList R base limit).Perm (segList a base limit) ∧
    base ≤ j1 ∧ j1 < i1 ∧ i1 ≤ limit ∧ base + 2 ≤ i1 ∧ j1 + 2 ≤ limit ∧
    (∀ k, base ≤ k → k < j1 →
      getCellX (swapCells R base j1) k ≤ getCellX R base) ∧
    (∀ k, j1 ≤ k → k < i1 →
      getCellX (swapCells R base j1) k = getCellX R base) ∧
    (∀ k, i1 ≤ k → k < limit →
      getCellX R base ≤ getCellX (swapCells R base j1) k) := by
  have hb1 : base + 1 < a.size := by omega
  have hl1 : limit - 1 < a.size := by omega
  have hbb : base < a.size := by omega
  set A1 := (if getCellX a (limit - 1) < getCellX a (base + 1) then
    swapCells a (base + 1) (limit - 1) else a) with hA1
  obtain ⟨s1, f1, p1⟩ := condSwap_spec (a := a) (l := base) (r := limit)
    (i := base + 1) (j := limit - 1)
    (getCellX a (limit - 1) < getCellX a (base + 1))
    (by omega) (by omega) (by omega) (by omega) hsz
  rw [← hA1] at s1 f1 p1
  have hv1 : getCellX A1 (base + 1) ≤ getCellX A1 (limit - 1) := by
    rw [hA1]
    split_ifs with h
    · rw [getCellX_swap_fst a hb1 hl1, getCellX_swap_snd a hb1 hl1]
      exact le_of_lt h
    · omega
  set A2 := (if getCellX A1 base < getCellX A1 (base + 1) then
    swapCells A1 base (base + 1) else A1) with hA2
  obtain ⟨s2, f2, p2⟩ := condSwap_spec (a := A1) (l := base) (r := limit)
    (i := base) (j := base + 1)
    (getCellX A1 base < getCellX A1 (base + 1))
    (by omega) (by omega) (by omega) (by omega) (by omega)
  rw [← hA2] at s2 f2 p2
  have hbbA1 : base < A1.size := by omega
  have hb1A1 : base + 1 < A1.size := by omega
  have hv2a : getCellX A2 (base + 1) ≤ getCellX A2 base := by
    rw [hA2]
    split_ifs with h
    · rw [getCellX_swap_fst A1 hbbA1 hb1A1, getCellX_swap_snd A1 hbbA1 hb1A1]
      exact le_of_lt h
    · omega
  have hv2b : getCellX A2 (base + 1) ≤ getCellX A2 (limit - 1) := by
    rw [hA2]
    split_ifs with h
    · rw [getCellX_swap_snd A1 hbbA1 hb1A1,
        getCellX_swap_ne A1 (i := base) (j := base + 1) (k := limit - 1)
          (by omega) (by omega)]
      exact le_of_lt (lt_of_lt_of_le h hv1)
    · exact hv1
  set A3 := (if getCellX A2 (limit - 1) < getCellX A2 base then
    swapCells A2 base (limit - 1) else A2) with hA3
  obtain ⟨s3, f3, p3⟩ := condSwap_spec (a := A2) (l := base) (r := limit)
    (i := base) (j := limit - 1)
    (getCellX A2 (limit - 1) < getCellX A2 base)
    (by omega) (by omega) (by omega) (by omega) (by omega)
  rw [← hA3] at s3 f3 p3
  have hbbA2 : base < A2.size := by omega
  have hl1A2 : limit - 1 < A2.size := by omega
  have hv3a : getCellX A3 (base + 1) ≤ getCellX A3 base := by
    rw [hA3]
    split_ifs with h
    · rw [getCellX_swap_fst A2 hbbA2 hl1A2,
        getCellX_swap_ne A2 (i := base) (j := limit - 1) (k := base + 1)
          (by omega) (by omega)]
      exact hv2b
    · exact hv2a
  have hv3b : getCellX A3 base ≤ getCellX A3 (limit - 1) := by
    rw [hA3]
    split_ifs with h
    · rw [getCellX_swap_fst A2 hbbA2 hl1A2, getCellX_swap_snd A2 hbbA2 hl1A2]
      exact le_of_lt h
    · omega
  have hunfold : qsortCellsSweep a base (base + 1) (limit - 1) limit =
      qsortSweepLoop (getCellX A3 base) base limit A3 (base + 1) (limit - 1) := by
    rw [hA3, hA2, hA1]
    rfl
  have hE2 : qsortSweepLoop (getCellX A3 base) base limit A3 (base + 1) (limit - 1) =
      (R, i1, j1) := by
    rw [← hunfold]
    exact hE
  obtain ⟨c1, c2, c3, c4, c5, c6, c7, c8, c9⟩ :=
    qsortSweepLoop_spec (getCellX A3 base) base limit ((limit - 1) - (base + 1))
      A3 (base + 1) (limit - 1) le_rfl (by omega) (by omega) (by omega) (by omega)
      (fun k h1 h2 => by
        have hk : k = base + 1 := by omega
        rw [hk]; exact hv3a)
      (fun k h1 h2 => by
        have hk : k = limit - 1 := by omega
        rw [hk]; exact hv3b)
      rfl
  rw [hE2] at c1 c2 c3 c4 c5 c6 c7 c8 c9
  replace c1 : R.size = A3.size := c1
  replace c2 : ∀ k, k < base ∨ limit ≤ k →
      R.getD k cellDefault = A3.getD k cellDefault := c2
  replace c3 : (segList R base limit).Perm (segList A3 base limit) := c3
  replace c4 : getCellX R base = getCellX A3 base := c4
  replace c5 : base ≤ j1 := c5
  replace c6 : i1 ≤ limit := c6
  replace c7 : ∀ k, base + 1 ≤ k → k < i1 → getCellX R k ≤ getCellX A3 base := c7
  replace c8 : ∀ k, j1 < k → k < limit → getCellX A3 base ≤ getCellX R k := c8
  replace c9 : getCellX R j1 ≤ getCellX A3 base := c9
  have hfacts := qsortCellsSweep_facts a base (base + 1) (limit - 1) limit
  rw [hE] at hfacts
  replace hfacts : j1 < i1 ∧ base + 1 + 1 ≤ i1 ∧ j1 ≤ limit - 1 - 1 := hfacts
  have hRsz : R.size = a.size := by omega
  have hj1sz : j1 < R.size := by omega
  have hbsz : base < R.size := by omega
  rw [← c4] at c7 c8 c9
  refine ⟨hRsz,
    fun k hk => by rw [c2 k hk, f3 k hk, f2 k hk, f1 k hk],
    c3.trans (p3.trans (p2.trans p1)),
    c5, hfacts.1, c6, by omega, by omega,
    fun k h1 h2 => ?_, fun k h1 h2 => ?_, fun k h1 h2 => ?_⟩
  · by_cases hkb : k = base
    · rw [hkb, getCellX_swap_fst R hbsz hj1sz]
      exact c9
    · rw [getCellX_swap_ne R (by omega) (by omega)]
      exact c7 k (by omega) (by omega)
  · by_cases hkj : k = j1
    · rw [hkj, getCellX_swap_snd R hbsz hj1sz]
    · rw [getCellX_swap_ne R (by omega) (by omega)]
      exact le_antisymm (c7 k (by omega) (by omega)) (c8 k (by omega) (by omega))
  · rw [getCellX_swap_ne R (by omega) (by omega)]
    exact c8 k (by omega) (by omega)

theorem segPred_of_perm {A B : Array CellBuildAntiAlias} {l r : Nat}
    (P : CellBuildAntiAlias → Prop)
    (hperm : (segList A l r).Perm (segList B l r))
    (hB : ∀ k, l ≤ k → k < r → P (B.getD k cellDefault)) :
    ∀ k, l ≤ k → k < r → P (A.getD k cellDefault) := by
  intro k h1 h2
  have hm : A.getD k cellDefault ∈ segList A l r := index_mem_segList A h1 h2
  have hm2 : A.getD k cellDefault ∈ segList B l r := hperm.mem_iff.mp hm
  obtain ⟨k2, g1, g2, ge⟩ := mem_segList hm2
  have hv := hB k2 g1 g2
  rw [ge] at hv
  exact hv

/-- Correctness of the inner insertion pass: starting from a prefix
`[base, j]` already sorted, bubbling the element at `j + 1` downwards leaves
`[base, j + 1]` sorted, only touches `[base, j + 2)`, and permutes it. -/
theorem qsortInsertInner_spec (base : Nat) :
    ∀ (n : Nat) (a : Array CellBuildAntiAlias) (j : Nat), j - base ≤ n →
      base ≤ j → j + 2 ≤ a.size →
      sortedRange a base (j + 1) →
      (qsortInsertInner a base j).size = a.size ∧
      (∀ k, k < base ∨ j + 2 ≤ k →
        (qsortInsertInner a base j).getD k cellDefault = a.getD k cellDefault) ∧
      (segList (qsortInsertInner a base j) base (j + 2)).Perm
        (segList a base (j + 2)) ∧
      sortedRange (qsortInsertInner a base j) base (j + 2) := by
  intro n
  induction n with
  | zero =>
    intro a j hn hbj hsz hsort
    have hjb : j = base := by omega
    subst hjb
    rw [qsortInsertInner]
    by_cases h : getCellX a (j + 1) < getCellX a j
    · rw [if_pos h, dif_pos le_rfl]
      refine ⟨swapCells_size a (j + 1) j,
        fun k hk => swapCells_getD_ne a (j + 1) j k (by omega) (by omega),
        swapCells_segList_perm a (by omega) (by omega) (by omega) (by omega) hsz,
        fun p q g1 g2 g3 => ?_⟩
      have hp : p = j := by omega
      have hq : q = j + 1 := by omega
      rw [hp, hq, getCellX_swap_snd a (by omega) (by omega),
        getCellX_swap_fst a (by omega) (by omega)]
      exact le_of_lt h
    · rw [if_neg h]
      refine ⟨rfl, fun k _ => rfl, List.Perm.refl _, fun p q g1 g2 g3 => ?_⟩
      have hp : p = j := by omega
      have hq : q = j + 1 := by omega
      rw [hp, hq]
      omega
  | succ n ih =>
    intro a j hn hbj hsz hsort
    rw [qsortInsertInner]
    by_cases h : getCellX a (j + 1) < getCellX a j
    · rw [if_pos h]
      by_cases hb : j ≤ base
      · rw [dif_pos hb]
        have hjb : j = base := by omega
        subst hjb
        refine ⟨swapCells_size a (j + 1) j,
          fun k hk => swapCells_getD_ne a (j + 1) j k (by omega) (by omega),
          swapCells_segList_perm a (by omega) (by omega) (by omega) (by omega) hsz,
          fun p q g1 g2 g3 => ?_⟩
        have hp : p = j := by omega
        have hq : q = j + 1 := by omega
        rw [hp, hq, getCellX_swap_snd a (by omega) (by omega),
          getCellX_swap_fst a (by omega) (by omega)]
        exact le_of_lt h
      · rw [dif_neg hb]
        have hsort1 : sortedRange (swapCells a (j + 1) j) base (j - 1 + 1) := by
          apply sortedRange_congr (a := a)
          · intro k h1 h2
            rw [swapCells_getD_ne a (j + 1) j k (by omega) (by omega)]
          · exact sortedRange_sub hsort le_rfl (by omega)
        obtain ⟨c1, c2, c3, c4⟩ := ih (swapCells a (j + 1) j) (j - 1) (by omega)
          (by omega) (by rw [swapCells_size]; omega) hsort1
        have e2 : j - 1 + 2 = j + 1 := by omega
        rw [e2] at c2 c3 c4
        have hswsz : (swapCells a (j + 1) j).size = a.size := swapCells_size a (j + 1) j
        refine ⟨by rw [c1, hswsz], fun k hk => ?_, ?_, fun p q g1 g2 g3 => ?_⟩
        · rw [c2 k (by omega), swapCells_getD_ne a (j + 1) j k (by omega) (by omega)]
        · have hsplit1 : segList (qsortInsertInner (swapCells a (j + 1) j) base (j - 1))
              base (j + 2) =
              segList (qsortInsertInner (swapCells a (j + 1) j) base (j - 1))
                base (j + 1) ++
              segList (qsortInsertInner (swapCells a (j + 1) j) base (j - 1))
                (j + 1) (j + 2) :=
            segList_split _ (by omega) (by omega)
          have hsplit2 : segList (swapCells a (j + 1) j) base (j + 2) =
              segList (swapCells a (j + 1) j) base (j + 1) ++
              segList (swapCells a (j + 1) j) (j + 1) (j + 2) :=
            segList_split _ (by omega) (by omega)
          have hcong : segList (qsortInsertInner (swapCells a (j + 1) j) base (j - 1))
              (j + 1) (j + 2) = segList (swapCells a (j + 1) j) (j + 1) (j + 2) :=
            segList_congr (fun k h1 h2 => c2 k (by omega))
          rw [hsplit1, hcong]
          refine List.Perm.trans (c3.append_right _) ?_
          rw [← hsplit2]
          exact swapCells_segList_perm a (by omega) (by omega) (by omega)
            (by omega) hsz
        · by_cases hq : q ≤ j
          · exact c4 p q g1 g2 (by omega)
          · have hq1 : q = j + 1 := by omega
            have hval : getCellX (qsortInsertInner (swapCells a (j + 1) j) base (j - 1))
                (j + 1) = getCellX a j := by
              unfold getCellX
              rw [c2 (j + 1) (by omega),
                swapCells_getD_fst a (j + 1) j (by omega) (by omega)]
            have hbnd : ∀ k, base ≤ k → k < j + 1 →
                ((qsortInsertInner (swapCells a (j + 1) j) base (j - 1)).getD k
                  cellDefault).x ≤ getCellX a j := by
              apply segPred_of_perm (fun c => c.x ≤ getCellX a j) c3
              intro k h1 h2
              by_cases hkj : k = j
              · rw [hkj]
                have : (swapCells a (j + 1) j).getD j cellDefault =
                    a.getD (j + 1) cellDefault :=
                  swapCells_getD_snd a (j + 1) j (by omega) (by omega)
                rw [this]
                exact le_of_lt h
              · have : (swapCells a (j + 1) j).getD k cellDefault =
                    a.getD k cellDefault :=
                  swapCells_getD_ne a (j + 1) j k (by omega) (by omega)
                rw [this]
                exact hsort k j (by omega) (by omega) (by omega)
            rw [hq1, hval]
            exact hbnd p (by omega) (by omega)
    · rw [if_neg h]
      refine ⟨rfl, fun k _ => rfl, List.Perm.refl _, fun p q g1 g2 g3 => ?_⟩
      by_cases hq : q ≤ j
      · exact hsort p q g1 g2 (by omega)
      · have hq1 : q = j + 1 := by omega
        rw [hq1]
        have h2 : getCellX a j ≤ getCellX a (j + 1) := by omega
        by_cases hp : p = j
        · rw [hp]; exact h2
        · exact le_trans (hsort p j g1 (by omega) (by omega)) h2

/-- Correctness of `QsortCellsFor` (straight insertion sort of `[base, limit)`):
size preserved, nothing outside the range touched, the range permuted and
left sorted. -/
theorem qsortInsertLoop_spec (base limit : Nat) :
    ∀ (n : Nat) (i : Nat) (a : Array CellBuildAntiAlias), limit - i ≤ n →
      base + 1 ≤ i → limit ≤ a.size →
      sortedRange a base i →
      (qsortInsertLoop base limit i a).size = a.size ∧
      (∀ k, k < base ∨ limit ≤ k →
        (qsortInsertLoop base limit i a).getD k cellDefault = a.getD k cellDefault) ∧
      (segList (qsortInsertLoop base limit i a) base limit).Perm
        (segList a base limit) ∧
      sortedRange (qsortInsertLoop base limit i a) base limit := by
  intro n
  induction n with
  | zero =>
    intro i a hn hbi hsz hsort
    rw [qsortInsertLoop]
    have hil : ¬ i < limit := by omega
    rw [dif_neg hil]
    exact ⟨rfl, fun k _ => rfl, List.Perm.refl _,
      sortedRange_sub hsort le_rfl (by omega)⟩
  | succ n ih =>
    intro i a hn hbi hsz hsort
    rw [qsortInsertLoop]
    by_cases hil : i < limit
    · rw [dif_pos hil]
      obtain ⟨d1, d2, d3, d4⟩ := qsortInsertInner_spec base (i - 1 - base) a (i - 1)
        le_rfl (by omega) (by omega)
        (by
          have e1 : i - 1 + 1 = i := by omega
          rw [e1]
          exact hsort)
      have e1 : i - 1 + 1 = i := by omega
      have e2 : i - 1 + 2 = i + 1 := by omega
      rw [e2] at d2 d3 d4
      obtain ⟨c1, c2, c3, c4⟩ := ih (i + 1) (qsortInsertInner a base (i - 1))
        (by omega) (by omega) (by omega)
        (sortedRange_sub d4 le_rfl le_rfl)
      refine ⟨by rw [c1, d1], fun k hk => ?_, ?_, c4⟩
      · rw [c2 k hk, d2 k (by omega)]
      · refine c3.trans ?_
        have hs1 : segList (qsortInsertInner a base (i - 1)) base limit =
            segList (qsortInsertInner a base (i - 1)) base (i + 1) ++
            segList (qsortInsertInner a base (i - 1)) (i + 1) limit :=
          segList_split _ (by omega) (by omega)
        have hs2 : segList a base limit =
            segList a base (i + 1) ++ segList a (i + 1) limit :=
          segList_split _ (by omega) (by omega)
        have hcong : segList (qsortInsertInner a base (i - 1)) (i + 1) limit =
            segList a (i + 1) limit :=
          segList_congr (fun k h1 h2 => d2 k (by omega))
        rw [hs1, hs2, hcong]
        exact d3.append_right _
    · rw [dif_neg hil]
      exact ⟨rfl, fun k _ => rfl, List.Perm.refl _,
        sortedRange_sub hsort le_rfl (by omega)⟩

/-- `k` lies in one of the `[fst, snd)` index ranges of the list. -/
def inRanges (k : Nat) (ps : List (Nat × Nat)) : Prop :=
  ∃ p ∈ ps, p.1 ≤ k ∧ k < p.2

/-- Two `[fst, snd)` index ranges do not overlap. -/
def rangesDisjoint (p q : Nat × Nat) : Prop :=
  p.2 ≤ q.1 ∨ q.2 ≤ p.1

theorem inRanges_cons {k : Nat} {p : Nat × Nat} {ps : List (Nat × Nat)} :
    inRanges k (p :: ps) ↔ (p.1 ≤ k ∧ k < p.2) ∨ inRanges k ps := by
  unfold inRanges
  constructor
  · rintro ⟨q, hq, h⟩
    rcases List.mem_cons.mp hq with h1 | h1
    · subst h1
      exact Or.inl h
    · exact Or.inr ⟨q, h1, h⟩
  · rintro (h | ⟨q, hq, h⟩)
    · exact ⟨p, List.mem_cons_self p ps, h⟩
    · exact ⟨q, List.mem_cons_of_mem p hq, h⟩

theorem inRanges_swap {k : Nat} {p q : Nat × Nat} {ps : List (Nat × Nat)} :
    inRanges k (p :: q :: ps) ↔ inRanges k (q :: p :: ps) := by
  rw [inRanges_cons, inRanges_cons, inRanges_cons, inRanges_cons]
  tauto

/-- Assembly of the driver conclusions after a partition step: if the
recursive processing sorts the two sub-ranges and the stack ranges of the
partitioned array `a2` without touching anything else, the whole range
`[base, limit)` of the final array is sorted and is a permutation of the
original, and the stack ranges keep their conclusions relative to the
original array `a`. -/
theorem qsortLoop_assemble
    (a a2 R : Array CellBuildAntiAlias) (base limit j1 i1 : Nat) (x : Int)
    (stack : List (Nat × Nat))
    (hbj : base ≤ j1) (hji : j1 < i1) (hil : i1 ≤ limit)
    (ha2seg : (segList a2 base limit).Perm (segList a base limit))
    (ha2frame : ∀ k, k < base ∨ limit ≤ k →
      a2.getD k cellDefault = a.getD k cellDefault)
    (hvL : ∀ k, base ≤ k → k < j1 → getCellX a2 k ≤ x)
    (hvM : ∀ k, j1 ≤ k → k < i1 → getCellX a2 k = x)
    (hvR : ∀ k, i1 ≤ k → k < limit → x ≤ getCellX a2 k)
    (hdstack : ∀ p ∈ stack, p.2 ≤ base ∨ limit ≤ p.1)
    (hIH2 : ∀ k, ¬ inRanges k ((base, j1) :: (i1, limit) :: stack) →
      R.getD k cellDefault = a2.getD k cellDefault)
    (hIH3 : ∀ p ∈ (base, j1) :: (i1, limit) :: stack,
      (segList R p.1 p.2).Perm (segList a2 p.1 p.2))
    (hIH4 : ∀ p ∈ (base, j1) :: (i1, limit) :: stack, sortedRange R p.1 p.2) :
    (∀ k, ¬ inRanges k ((base, limit) :: stack) →
      R.getD k cellDefault = a.getD k cellDefault) ∧
    (∀ p ∈ (base, limit) :: stack,
      (segList R p.1 p.2).Perm (segList a p.1 p.2)) ∧
    (∀ p ∈ (base, limit) :: stack, sortedRange R p.1 p.2) := by
  have hgap : ∀ k, j1 ≤ k → k < i1 → R.getD k cellDefault = a2.getD k cellDefault := by
    intro k h1 h2
    apply hIH2
    rw [inRanges_cons, inRanges_cons]
    push_neg
    refine ⟨by omega, by omega, ?_⟩
    rintro ⟨q, hq, hh⟩
    rcases hdstack q hq with hd | hd <;> omega
  have hpermhead : (segList R base limit).Perm (segList a base limit) := by
    have hsR : segList R base limit =
        segList R base j1 ++ (segList R j1 i1 ++ segList R i1 limit) := by
      rw [← segList_split R (l := j1) (by omega) (by omega),
        ← segList_split R (l := base) (by omega) (by omega)]
    have hsA : segList a2 base limit =
        segList a2 base j1 ++ (segList a2 j1 i1 ++ segList a2 i1 limit) := by
      rw [← segList_split a2 (l := j1) (by omega) (by omega),
        ← segList_split a2 (l := base) (by omega) (by omega)]
    have hmid : segList R j1 i1 = segList a2 j1 i1 :=
      segList_congr (fun k h1 h2 => hgap k h1 h2)
    have hlo : (segList R base j1).Perm (segList a2 base j1) :=
      hIH3 (base, j1) (List.mem_cons_self _ _)
    have hhi : (segList R i1 limit).Perm (segList a2 i1 limit) :=
      hIH3 (i1, limit) (List.mem_cons_of_mem _ (List.mem_cons_self _ _))
    rw [hsR]
    refine List.Perm.trans ?_ ha2seg
    rw [hsA]
    exact hlo.append (by rw [hmid]; exact (List.Perm.refl _).append hhi)
  have hstackeq : ∀ p ∈ stack, segList a2 p.1 p.2 = segList a p.1 p.2 := by
    intro p hp
    apply segList_congr
    intro k h1 h2
    rcases hdstack p hp with hd | hd
    · exact ha2frame k (Or.inl (by omega))
    · exact ha2frame k (Or.inr (by omega))
  refine ⟨fun k hk => ?_, fun p hp => ?_, fun p hp => ?_⟩
  · rw [inRanges_cons] at hk
    push_neg at hk
    rw [hIH2 k ?_, ha2frame k (by omega)]
    rw [inRanges_cons, inRanges_cons]
    push_neg
    exact ⟨by omega, by omega, hk.2⟩
  · rcases List.mem_cons.mp hp with h1 | h1
    · subst h1
      exact hpermhead
    · rw [← hstackeq p h1]
      exact hIH3 p (List.mem_cons_of_mem _ (List.mem_cons_of_mem _ h1))
  · rcases List.mem_cons.mp hp with h1 | h1
    · subst h1
      show sortedRange R base limit
      have hRL : ∀ k, base ≤ k → k < j1 → (R.getD k cellDefault).x ≤ x := by
        apply segPred_of_perm (fun c => c.x ≤ x)
          (hIH3 (base, j1) (List.mem_cons_self _ _))
        exact fun k h1 h2 => hvL k h1 h2
      have hRM : ∀ k, j1 ≤ k → k < i1 → (R.getD k cellDefault).x = x := by
        intro k h1 h2
        rw [hgap k h1 h2]
        exact hvM k h1 h2
      have hRR : ∀ k, i1 ≤ k → k < limit → x ≤ (R.getD k cellDefault).x := by
        apply segPred_of_perm (fun c => x ≤ c.x)
          (hIH3 (i1, limit) (List.mem_cons_of_mem _ (List.mem_cons_self _ _)))
        exact fun k h1 h2 => hvR k h1 h2
      have hsortlo : sortedRange R base j1 := hIH4 (base, j1) (List.mem_cons_self _ _)
      have hsorthi : sortedRange R i1 limit :=
        hIH4 (i1, limit) (List.mem_cons_of_mem _ (List.mem_cons_self _ _))
      intro p q g1 g2 g3
      by_cases hpj : p < j1
      · by_cases hqj : q < j1
        · exact hsortlo p q g1 g2 hqj
        · by_cases hqi : q < i1
          · show (R.getD p cellDefault).x ≤ (R.getD q cellDefault).x
            rw [hRM q (by omega) hqi]
            exact hRL p g1 hpj
          · show (R.getD p cellDefault).x ≤ (R.getD q cellDefault).x
            exact le_trans (hRL p g1 hpj) (hRR q (by omega) g3)
      · by_cases hpi : p < i1
        · by_cases hqi : q < i1
          · show (R.getD p cellDefault).x ≤ (R.getD q cellDefault).x
            rw [hRM p (by omega) hpi, hRM q (by omega) hqi]
          · show (R.getD p cellDefault).x ≤ (R.getD q cellDefault).x
            rw [hRM p (by omega) hpi]
            exact hRR q (by omega) g3
        · exact hsorthi p q (by omega) g2 g3
    · exact hIH4 p (List.mem_cons_of_mem _ (List.mem_cons_of_mem _ h1))

set_option maxHeartbeats 4000000 in
/-- Correctness of the explicit-stack quicksort driver loop of `QsortCells`:
provided the current range and all stacked ranges are within bounds and
pairwise disjoint, the loop sorts every one of those ranges, permutes each of
them, and leaves every position outside them untouched. -/
theorem qsortLoop_spec :
    ∀ (n : Nat) (a : Array CellBuildAntiAlias) (base limit : Nat)
      (stack : List (Nat × Nat)),
      2 * ((limit - base) * (limit - base) +
        (stack.map (fun p => (p.2 - p.1) * (p.2 - p.1))).sum) + stack.length ≤ n →
      limit ≤ a.size →
      (∀ p ∈ stack, p.2 ≤ a.size) →
      List.Pairwise rangesDisjoint ((base, limit) :: stack) →
      (qsortLoop a base limit stack).size = a.size ∧
      (∀ k, ¬ inRanges k ((base, limit) :: stack) →
        (qsortLoop a base limit stack).getD k cellDefault = a.getD k cellDefault) ∧
      (∀ p ∈ (base, limit) :: stack,
        (segList (qsortLoop a base limit stack) p.1 p.2).Perm (segList a p.1 p.2)) ∧
      (∀ p ∈ (base, limit) :: stack,
        sortedRange (qsortLoop a base limit stack) p.1 p.2) := by
  intro n
  induction n with
  | zero =>
    intro a base limit stack hn hsz hstk hpw
    have hstack0 : stack = [] := List.length_eq_zero.mp (by omega)
    subst hstack0
    have hD : (limit - base) * (limit - base) = 0 := by
      simp only [List.map_nil, List.sum_nil] at hn
      omega
    have hD0 : limit - base = 0 := by
      rcases Nat.mul_eq_zero.mp hD with h | h <;> exact h
    have hlen : ¬ QSORT_THRESHOLD < limit - base := by
      rw [QSORT_THRESHOLD]
      omega
    have heq : qsortLoop a base limit [] =
        qsortInsertLoop base limit (base + 1) a := by
      rw [qsortLoop.eq_def, dif_neg hlen, dif_pos rfl]
    rw [heq]
    obtain ⟨d1, d2, d3, d4⟩ := qsortInsertLoop_spec base limit (limit - (base + 1))
      (base + 1) a le_rfl le_rfl hsz (sortedRange_vacuous a le_rfl)
    refine ⟨d1, fun k hk => d2 k ?_, fun p hp => ?_, fun p hp => ?_⟩
    · rw [inRanges_cons] at hk
      push_neg at hk
      omega
    · rcases List.mem_cons.mp hp with h1 | h1
      · subst h1
        exact d3
      · simp at h1
    · rcases List.mem_cons.mp hp with h1 | h1
      · subst h1
        exact d4
      · simp at h1
  | succ n ih =>
    intro a base limit stack hn hsz hstk hpw
    rw [List.pairwise_cons] at hpw
    have hdstack : ∀ p ∈ stack, p.2 ≤ base ∨ limit ≤ p.1 := by
      intro p hp
      rcases hpw.1 p hp with h | h
      · exact Or.inr h
      · exact Or.inl h
    by_cases hlen : QSORT_THRESHOLD < limit - base
    · rw [QSORT_THRESHOLD] at hlen
      rcases hq : qsortCellsSweep (swapCells a base (base + (limit - base) / 2))
          base (base + 1) (limit - 1) limit with ⟨R0, i1, j1⟩
      have ha1sz : (swapCells a base (base + (limit - base) / 2)).size = a.size :=
        swapCells_size _ _ _
      obtain ⟨m1, m2, m3, m4, m5, m6, m7, m8, m9, m10, m11⟩ :=
        qsortCellsSweep_spec (swapCells a base (base + (limit - base) / 2))
          base limit (by omega) (by omega) R0 i1 j1 hq
      have ha2sz : (swapCells R0 base j1).size = a.size := by
        rw [swapCells_size, m1, ha1sz]
      have ha2seg : (segList (swapCells R0 base j1) base limit).Perm
          (segList a base limit) := by
        refine List.Perm.trans
          (swapCells_segList_perm R0 le_rfl (by omega) (by omega) (by omega)
            (by omega)) ?_
        refine m3.trans ?_
        exact swapCells_segList_perm a le_rfl (by omega) (by omega) (by omega) hsz
      have ha2frame : ∀ k, k < base ∨ limit ≤ k →
          (swapCells R0 base j1).getD k cellDefault = a.getD k cellDefault := by
        intro k hk
        rw [swapCells_getD_ne R0 base j1 k (by omega) (by omega), m2 k hk,
          swapCells_getD_ne a base (base + (limit - base) / 2) k (by omega)
            (by omega)]
      have hsq : (limit - i1) * (limit - i1) + (j1 - base) * (j1 - base) <
          (limit - base) * (limit - base) := nat_sq_sum_lt (by omega)
      have heq : qsortLoop a base limit stack =
          (if j1 - base > limit - i1 then
            qsortLoop (swapCells R0 base j1) i1 limit ((base, j1) :: stack)
          else
            qsortLoop (swapCells R0 base j1) base j1 ((i1, limit) :: stack)) := by
        rw [qsortLoop.eq_def, dif_pos (by rw [QSORT_THRESHOLD]; omega)]
        simp only [hq]
      rw [heq]
      by_cases hpush : j1 - base > limit - i1
      · rw [if_pos hpush]
        have hpw2 : List.Pairwise rangesDisjoint
            ((i1, limit) :: (base, j1) :: stack) := by
          rw [List.pairwise_cons, List.pairwise_cons]
          refine ⟨?_, ?_, hpw.2⟩
          · intro q hq2
            rcases List.mem_cons.mp hq2 with h1 | h1
            · subst h1
              exact Or.inr (by omega)
            · rcases hdstack q h1 with h | h
              · exact Or.inr (by show q.2 ≤ i1; omega)
              · exact Or.inl (by show limit ≤ q.1; omega)
          · intro q hq2
            rcases hdstack q hq2 with h | h
            · exact Or.inr (by show q.2 ≤ base; omega)
            · exact Or.inl (by show j1 ≤ q.1; omega)
        obtain ⟨r1, r2, r3, r4⟩ := ih (swapCells R0 base j1) i1 limit
          ((base, j1) :: stack)
          (by
            simp only [List.map_cons, List.sum_cons, List.length_cons]
            have e2 : (base, j1).2 - (base, j1).1 = j1 - base := rfl
            rw [e2]
            set A := (limit - i1) * (limit - i1) with hA
            set B := (j1 - base) * (j1 - base) with hB
            set C := (limit - base) * (limit - base) with hC
            set S := (stack.map (fun p => (p.2 - p.1) * (p.2 - p.1))).sum with hS
            omega)
          (by omega)
          (by
            intro p hp
            rcases List.mem_cons.mp hp with h1 | h1
            · subst h1
              show j1 ≤ (swapCells R0 base j1).size
              omega
            · have := hstk p h1
              omega)
          hpw2
        have r2' : ∀ k, ¬ inRanges k ((base, j1) :: (i1, limit) :: stack) →
            (qsortLoop (swapCells R0 base j1) i1 limit ((base, j1) :: stack)).getD
              k cellDefault = (swapCells R0 base j1).getD k cellDefault :=
          fun k hk => r2 k (fun hin => hk (inRanges_swap.mp hin))
        have r3' : ∀ p ∈ (base, j1) :: (i1, limit) :: stack,
            (segList (qsortLoop (swapCells R0 base j1) i1 limit
              ((base, j1) :: stack)) p.1 p.2).Perm
            (segList (swapCells R0 base j1) p.1 p.2) := by
          intro p hp
          rcases List.mem_cons.mp hp with h1 | h1
          · subst h1
            exact r3 _ (List.mem_cons_of_mem _ (List.mem_cons_self _ _))
          · rcases List.mem_cons.mp h1 with h2 | h2
            · subst h2
              exact r3 _ (List.mem_cons_self _ _)
            · exact r3 _ (List.mem_cons_of_mem _ (List.mem_cons_of_mem _ h2))
        have r4' : ∀ p ∈ (base, j1) :: (i1, limit) :: stack,
            sortedRange (qsortLoop (swapCells R0 base j1) i1 limit
              ((base, j1) :: stack)) p.1 p.2 := by
          intro p hp
          rcases List.mem_cons.mp hp with h1 | h1
          · subst h1
            exact r4 _ (List.mem_cons_of_mem _ (List.mem_cons_self _ _))
          · rcases List.mem_cons.mp h1 with h2 | h2
            · subst h2
              exact r4 _ (List.mem_cons_self _ _)
            · exact r4 _ (List.mem_cons_of_mem _ (List.mem_cons_of_mem _ h2))
        obtain ⟨c2, c3, c4⟩ := qsortLoop_assemble a (swapCells R0 base j1)
          (qsortLoop (swapCells R0 base j1) i1 limit ((base, j1) :: stack))
          base limit j1 i1 (getCellX R0 base) stack
          m4 m5 m6 ha2seg ha2frame m9 m10 m11 hdstack r2' r3' r4'
        exact ⟨by rw [r1, ha2sz], c2, c3, c4⟩
      · rw [if_neg hpush]
        have hpw2 : List.Pairwise rangesDisjoint
            ((base, j1) :: (i1, limit) :: stack) := by
          rw [List.pairwise_cons, List.pairwise_cons]
          refine ⟨?_, ?_, hpw.2⟩
          · intro q hq2
            rcases List.mem_cons.mp hq2 with h1 | h1
            · subst h1
              exact Or.inl (by show j1 ≤ i1; omega)
            · rcases hdstack q h1 with h | h
              · exact Or.inr (by show q.2 ≤ base; omega)
              · exact Or.inl (by show j1 ≤ q.1; omega)
          · intro q hq2
            rcases hdstack q hq2 with h | h
            · exact Or.inr (by show q.2 ≤ i1; omega)
            · exact Or.inl (by show limit ≤ q.1; omega)
        obtain ⟨r1, r2, r3, r4⟩ := ih (swapCells R0 base j1) base j1
          ((i1, limit) :: stack)
          (by
            simp only [List.map_cons, List.sum_cons, List.length_cons]
            have e2 : (i1, limit).2 - (i1, limit).1 = limit - i1 := rfl
            rw [e2]
            set A := (limit - i1) * (limit - i1) with hA
            set B := (j1 - base) * (j1 - base) with hB
            set C := (limit - base) * (limit - base) with hC
            set S := (stack.map (fun p => (p.2 - p.1) * (p.2 - p.1))).sum with hS
            omega)
          (by show j1 ≤ (swapCells R0 base j1).size; omega)
          (by
            intro p hp
            rcases List.mem_cons.mp hp with h1 | h1
            · subst h1
              show limit ≤ (swapCells R0 base j1).size
              omega
            · have := hstk p h1
              omega)
          hpw2
        obtain ⟨c2, c3, c4⟩ := qsortLoop_assemble a (swapCells R0 base j1)
          (qsortLoop (swapCells R0 base j1) base j1 ((i1, limit) :: stack))
          base limit j1 i1 (getCellX R0 base) stack
          m4 m5 m6 ha2seg ha2frame m9 m10 m11 hdstack r2 r3 r4
        exact ⟨by rw [r1, ha2sz], c2, c3, c4⟩
    · obtain ⟨d1, d2, d3, d4⟩ := qsortInsertLoop_spec base limit (limit - (base + 1))
        (base + 1) a le_rfl le_rfl hsz (sortedRange_vacuous a le_rfl)
      match stack, hn, hstk, hdstack, hpw with
      | [], hn, hstk, hdstack, hpw =>
        have heq : qsortLoop a base limit [] =
            qsortInsertLoop base limit (base + 1) a := by
          rw [qsortLoop.eq_def, dif_neg hlen, dif_pos rfl]
        rw [heq]
        refine ⟨d1, fun k hk => d2 k ?_, fun p hp => ?_, fun p hp => ?_⟩
        · rw [inRanges_cons] at hk
          push_neg at hk
          omega
        · rcases List.mem_cons.mp hp with h1 | h1
          · subst h1
            exact d3
          · simp at h1
        · rcases List.mem_cons.mp hp with h1 | h1
          · subst h1
            exact d4
          · simp at h1
      | (b2, l2) :: rest, hn, hstk, hdstack, hpw =>
        have heq : qsortLoop a base limit ((b2, l2) :: rest) =
            qsortLoop (qsortInsertLoop base limit (base + 1) a) b2 l2 rest := by
          rw [qsortLoop.eq_def, dif_neg hlen,
            dif_neg (by exact List.cons_ne_nil (b2, l2) rest)]
          rfl
        rw [heq]
        obtain ⟨r1, r2, r3, r4⟩ := ih (qsortInsertLoop base limit (base + 1) a)
          b2 l2 rest
          (by
            simp only [List.map_cons, List.sum_cons, List.length_cons] at hn
            set A := (limit - base) * (limit - base) with hA
            set B := (l2 - b2) * (l2 - b2) with hB
            set S := (rest.map (fun p => (p.2 - p.1) * (p.2 - p.1))).sum with hS
            omega)
          (by
            have := hstk (b2, l2) (List.mem_cons_self _ _)
            show l2 ≤ (qsortInsertLoop base limit (base + 1) a).size
            omega)
          (by
            intro p hp
            have := hstk p (List.mem_cons_of_mem _ hp)
            omega)
          hpw.2
        have hheaduntouched : ∀ k, base ≤ k → k < limit →
            ¬ inRanges k ((b2, l2) :: rest) := by
          intro k h1 h2
          rintro ⟨q, hqmem, hh⟩
          rcases hdstack q hqmem with h | h <;> omega
        have hinsstackeq : ∀ p ∈ (b2, l2) :: rest,
            segList (qsortInsertLoop base limit (base + 1) a) p.1 p.2 =
            segList a p.1 p.2 := by
          intro p hp
          apply segList_congr
          intro k h1 h2
          rcases hdstack p hp with h | h
          · exact d2 k (Or.inl (by omega))
          · exact d2 k (Or.inr (by omega))
        refine ⟨by rw [r1, d1], fun k hk => ?_, fun p hp => ?_, fun p hp => ?_⟩
        · rw [inRanges_cons] at hk
          push_neg at hk
          rw [r2 k hk.2, d2 k (by omega)]
        · rcases List.mem_cons.mp hp with h1 | h1
          · subst h1
            show (segList _ base limit).Perm (segList a base limit)
            have hcong : segList (qsortLoop (qsortInsertLoop base limit (base + 1) a)
                b2 l2 rest) base limit =
                segList (qsortInsertLoop base limit (base + 1) a) base limit :=
              segList_congr (fun k h1 h2 => r2 k (hheaduntouched k h1 h2))
            rw [hcong]
            exact d3
          · rw [← hinsstackeq p h1]
            exact r3 p h1
        · rcases List.mem_cons.mp hp with h1 | h1
          · subst h1
            show sortedRange _ base limit
            refine sortedRange_congr (a := qsortInsertLoop base limit (base + 1) a)
              (fun k h1 h2 => (r2 k (hheaduntouched k h1 h2)).symm) d4
          · exact r4 p h1

theorem inRanges_nil {k : Nat} : ¬ inRanges k [] := by
  rintro ⟨p, hp, _⟩
  simp at hp

/-- Correctness of `QsortCells(start, num)`: the range `[start, start + num)`
is sorted in place (permuted, sorted, nothing else touched). -/
theorem qsortCells_spec (a : Array CellBuildAntiAlias) (start num : Nat)
    (h : start + num ≤ a.size) :
    (qsortCells a start num).size = a.size ∧
    (∀ k, ¬(start ≤ k ∧ k < start + num) →
      (qsortCells a start num).getD k cellDefault = a.getD k cellDefault) ∧
    (segList (qsortCells a start num) start (start + num)).Perm
      (segList a start (start + num)) ∧
    sortedRange (qsortCells a start num) start (start + num) := by
  unfold qsortCells
  obtain ⟨c1, c2, c3, c4⟩ := qsortLoop_spec
    (2 * ((start + num - start) * (start + num - start) +
      (([] : List (Nat × Nat)).map (fun p => (p.2 - p.1) * (p.2 - p.1))).sum) +
      ([] : List (Nat × Nat)).length)
    a start (start + num) [] le_rfl h (by simp)
    (List.pairwise_singleton _ _)
  refine ⟨c1, fun k hk => c2 k ?_, ?_, ?_⟩
  · rw [inRanges_cons]
    rintro (h | h)
    · exact hk ⟨h.1, h.2⟩
    · exact inRanges_nil h
  · exact c3 (start, start + num) (List.mem_cons_self _ _)
  · exact c4 (start, start + num) (List.mem_cons_self _ _)

/-- Correctness of the per-row sorting fold of `SortAllCells`: folding
`QsortCells` over a list of in-bounds, pairwise disjoint row slices sorts
every slice in place and touches nothing else. -/
theorem qsortRows_spec :
    ∀ (rows : List SortedYLevel) (sc : Array CellBuildAntiAlias),
      (∀ e ∈ rows, e.start + e.num ≤ sc.size) →
      List.Pairwise (fun e f : SortedYLevel =>
        e.start + e.num ≤ f.start ∨ f.start + f.num ≤ e.start) rows →
      (qsortRows rows sc).size = sc.size ∧
      (∀ k, (∀ e ∈ rows, ¬(e.start ≤ k ∧ k < e.start + e.num)) →
        (qsortRows rows sc).getD k cellDefault = sc.getD k cellDefault) ∧
      (∀ e ∈ rows,
        (segList (qsortRows rows sc) e.start (e.start + e.num)).Perm
          (segList sc e.start (e.start + e.num)) ∧
        sortedRange (qsortRows rows sc) e.start (e.start + e.num)) := by
  intro rows
  induction rows with
  | nil =>
    intro sc hb hdisj
    refine ⟨rfl, fun k _ => rfl, fun e he => ?_⟩
    simp at he
  | cons e rest ih =>
    intro sc hb hdisj
    rw [List.pairwise_cons] at hdisj
    have hstep : qsortRows (e :: rest) sc =
        qsortRows rest (if e.num ≠ 0 then qsortCells sc e.start e.num else sc) := by
      unfold qsortRows
      rw [List.foldl_cons]
    rw [hstep]
    by_cases hz : e.num ≠ 0
    · rw [if_pos hz]
      obtain ⟨c1, c2, c3, c4⟩ := qsortCells_spec sc e.start e.num
        (hb e (List.mem_cons_self _ _))
      obtain ⟨r1, r2, r3⟩ := ih (qsortCells sc e.start e.num)
        (fun f hf => by rw [c1]; exact hb f (List.mem_cons_of_mem _ hf))
        hdisj.2
      have hehead : ∀ k, e.start ≤ k → k < e.start + e.num →
          (qsortRows rest (qsortCells sc e.start e.num)).getD k cellDefault =
          (qsortCells sc e.start e.num).getD k cellDefault := by
        intro k h1 h2
        apply r2
        intro f hf
        rcases hdisj.1 f hf with hd | hd <;> omega
      refine ⟨by rw [r1, c1], fun k hk => ?_, fun f hf => ?_⟩
      · rw [r2 k (fun f hf => hk f (List.mem_cons_of_mem _ hf)),
          c2 k (hk e (List.mem_cons_self _ _))]
      · rcases List.mem_cons.mp hf with h1 | h1
        · rw [h1]
          constructor
          · have hcong : segList (qsortRows rest (qsortCells sc e.start e.num))
                e.start (e.start + e.num) =
                segList (qsortCells sc e.start e.num) e.start (e.start + e.num) :=
              segList_congr (fun k h1 h2 => hehead k h1 h2)
            rw [hcong]
            exact c3
          · exact sortedRange_congr (a := qsortCells sc e.start e.num)
              (fun k h1 h2 => (hehead k h1 h2).symm) c4
        · have hrest := r3 f h1
          have hfeq : segList (qsortCells sc e.start e.num) f.start
              (f.start + f.num) = segList sc f.start (f.start + f.num) := by
            apply segList_congr
            intro k g1 g2
            apply c2
            rcases hdisj.1 f h1 with hd | hd <;> omega
          exact ⟨by rw [← hfeq]; exact hrest.1, hrest.2⟩
    · rw [if_neg hz]
      push_neg at hz
      obtain ⟨r1, r2, r3⟩ := ih sc (fun f hf => hb f (List.mem_cons_of_mem _ hf))
        hdisj.2
      refine ⟨r1, fun k hk => r2 k (fun f hf => hk f (List.mem_cons_of_mem _ hf)),
        fun f hf => ?_⟩
      rcases List.mem_cons.mp hf with h1 | h1
      · subst h1
        rw [hz]
        constructor
        · have h0 : f.start + 0 = f.start := by omega
          rw [h0]
          have he1 : segList (qsortRows rest sc) f.start f.start = [] := by
            unfold segList
            simp
          have he2 : segList sc f.start f.start = [] := by
            unfold segList
            simp
          rw [he1, he2]
        · exact sortedRange_vacuous _ (by omega)
      · exact r3 f h1

/-- The row index `cell.y - minY` a cell is bucketed under. -/
def rowKey (minY : Int) (c : CellBuildAntiAlias) : Nat := (c.y - minY).toNat

/-- The histogram pass counts, per row, the committed cells of that row
(on top of whatever the table already held). -/
theorem histogramPass_spec (minY : Int) :
    ∀ (cells : List CellBuildAntiAlias) (sy : Array SortedYLevel),
      (∀ c ∈ cells, rowKey minY c < sy.size) →
      (histogramPass minY cells sy).size = sy.size ∧
      ∀ r, r < sy.size →
        (histogramPass minY cells sy).getD r { start := 0, num := 0 } =
          { start := (sy.getD r { start := 0, num := 0 }).start +
              cells.countP (fun c => rowKey minY c = r),
            num := (sy.getD r { start := 0, num := 0 }).num } := by
  intro cells
  induction cells with
  | nil =>
    intro sy hk
    refine ⟨rfl, fun r hr => rfl⟩
  | cons c t ih =>
    intro sy hk
    have hidx : rowKey minY c < sy.size := hk c (List.mem_cons_self _ _)
    have hstep : histogramPass minY (c :: t) sy =
        histogramPass minY t
          (sy.modify (rowKey minY c) (fun e => { e with start := e.start + 1 })) := rfl
    rw [hstep]
    obtain ⟨s1, s2⟩ := ih (sy.modify (rowKey minY c)
        (fun e => { e with start := e.start + 1 }))
      (fun d hd => by rw [Array.size_modify]; exact hk d (List.mem_cons_of_mem _ hd))
    rw [Array.size_modify] at s1 s2
    refine ⟨s1, fun r hr => ?_⟩
    rw [s2 r hr]
    by_cases hcr : rowKey minY c = r
    · rw [← hcr, modify_getD_self sy _ _ _ hidx]
      rw [List.countP_cons]
      simp [hcr]
      omega
    · rw [modify_getD_ne sy _ _ _ _ hcr]
      rw [List.countP_cons]
      simp [hcr]

/-- The prefix-sum pass replaces every `start` by the accumulator plus the
sum of the counts before it, and keeps every `num`. -/
theorem prefixSumPass_spec :
    ∀ (l : List SortedYLevel) (acc : Nat),
      (prefixSumPass l acc).length = l.length ∧
      ∀ r, r < l.length →
        (prefixSumPass l acc).getD r { start := 0, num := 0 } =
          { start := acc + ((l.take r).map (fun e => e.start)).sum,
            num := (l.getD r { start := 0, num := 0 }).num } := by
  intro l
  induction l with
  | nil =>
    intro acc
    exact ⟨rfl, fun r hr => by simp at hr⟩
  | cons e t ih =>
    intro acc
    have hstep : prefixSumPass (e :: t) acc =
        { start := acc, num := e.num } :: prefixSumPass t (acc + e.start) := rfl
    rw [hstep]
    refine ⟨by simp [(ih (acc + e.start)).1], fun r hr => ?_⟩
    match r with
    | 0 => simp [List.getD]
    | s + 1 =>
      have hs : s < t.length := by simp at hr; omega
      have h2 := (ih (acc + e.start)).2 s hs
      show (prefixSumPass t (acc + e.start)).getD s { start := 0, num := 0 } = _
      rw [h2]
      have ht : (e :: t).take (s + 1) = e :: t.take s := rfl
      rw [ht]
      simp [Nat.add_assoc]

/-- The scatter pass delivers, for every row `r`, the row's cells in commit
order into the slice `[F r, F r + cnt r)` of the flat output array, and sets
the row entry to `{start := F r, num := cnt r}` — provided the row slices
given by `F`/`cnt` are disjoint, in bounds, and the table enters with
`start = F r` and `num` counting the already-delivered cells. -/
theorem scatterPass_spec (minY : Int) (F cnt : Nat → Nat) (total : Nat) :
    ∀ (rem : List CellBuildAntiAlias) (sc : Array CellBuildAntiAlias)
      (sy : Array SortedYLevel),
      sc.size = total →
      (∀ c ∈ rem, rowKey minY c < sy.size) →
      (∀ r, r < sy.size → (sy.getD r { start := 0, num := 0 }).start = F r) →
      (∀ r, r < sy.size →
        (sy.getD r { start := 0, num := 0 }).num +
          rem.countP (fun c => rowKey minY c = r) = cnt r) →
      (∀ r r2, r < r2 → r2 < sy.size → F r + cnt r ≤ F r2) →
      (∀ r, r < sy.size → F r + cnt r ≤ total) →
      (scatterPass minY rem sc sy).1.size = total ∧
      (scatterPass minY rem sc sy).2.size = sy.size ∧
      (∀ r, r < sy.size →
        (scatterPass minY rem sc sy).2.getD r { start := 0, num := 0 } =
          { start := F r, num := cnt r }) ∧
      (∀ r, r < sy.size →
        segList (scatterPass minY rem sc sy).1 (F r) (F r + cnt r) =
          segList sc (F r) (F r + (sy.getD r { start := 0, num := 0 }).num) ++
          rem.filter (fun c => rowKey minY c = r)) := by
  intro rem
  induction rem with
  | nil =>
    intro sc sy hsc hk hsy hnum hmono htot
    refine ⟨hsc, rfl, fun r hr => ?_, fun r hr => ?_⟩
    · have h1 := hsy r hr
      have h2 := hnum r hr
      simp only [List.countP_nil, Nat.add_zero] at h2
      show sy.getD r { start := 0, num := 0 } = { start := F r, num := cnt r }
      rcases he : sy.getD r { start := 0, num := 0 } with ⟨s0, n0⟩
      rw [he] at h1 h2
      simp only at h1 h2
      rw [h1, h2]
    · have h2 := hnum r hr
      simp only [List.countP_nil, Nat.add_zero] at h2
      show segList sc (F r) (F r + cnt r) =
        segList sc (F r) (F r + (sy.getD r { start := 0, num := 0 }).num) ++
          List.filter (fun c => rowKey minY c = r) []
      rw [h2, List.filter_nil, List.append_nil]
  | cons c t ih =>
    intro sc sy hsc hk hsy hnum hmono htot
    have hidx : rowKey minY c < sy.size := hk c (List.mem_cons_self _ _)
    have hestart : (sy.getD (rowKey minY c) { start := 0, num := 0 }).start =
        F (rowKey minY c) := hsy (rowKey minY c) hidx
    have hcntc : (sy.getD (rowKey minY c) { start := 0, num := 0 }).num +
        ((c :: t).countP (fun d => rowKey minY d = rowKey minY c)) =
        cnt (rowKey minY c) := hnum (rowKey minY c) hidx
    have hccount : ((c :: t).countP (fun d => rowKey minY d = rowKey minY c)) =
        t.countP (fun d => rowKey minY d = rowKey minY c) + 1 := by
      rw [List.countP_cons]
      simp
    have hn0lt : (sy.getD (rowKey minY c) { start := 0, num := 0 }).num + 1 ≤
        cnt (rowKey minY c) := by omega
    have hplt : F (rowKey minY c) +
        (sy.getD (rowKey minY c) { start := 0, num := 0 }).num < total := by
      have := htot (rowKey minY c) hidx
      omega
    have hstep : scatterPass minY (c :: t) sc sy =
        scatterPass minY t
          (sc.setD ((sy.getD (rowKey minY c) { start := 0, num := 0 }).start +
            (sy.getD (rowKey minY c) { start := 0, num := 0 }).num) c)
          (sy.setD (rowKey minY c)
            { start := (sy.getD (rowKey minY c) { start := 0, num := 0 }).start,
              num := (sy.getD (rowKey minY c) { start := 0, num := 0 }).num + 1 }) :=
      rfl
    rw [hstep]
    obtain ⟨r1, r2, r3, r4⟩ := ih
      (sc.setD ((sy.getD (rowKey minY c) { start := 0, num := 0 }).start +
        (sy.getD (rowKey minY c) { start := 0, num := 0 }).num) c)
      (sy.setD (rowKey minY c)
        { start := (sy.getD (rowKey minY c) { start := 0, num := 0 }).start,
          num := (sy.getD (rowKey minY c) { start := 0, num := 0 }).num + 1 })
      (by rw [Array.size_setD]; exact hsc)
      (fun d hd => by
        rw [Array.size_setD]
        exact hk d (List.mem_cons_of_mem _ hd))
      (by
        intro r hr
        rw [Array.size_setD] at hr
        by_cases hcr : rowKey minY c = r
        · rw [← hcr, setD_getD_self sy _ _ _ hidx]
          exact hestart
        · rw [setD_getD_ne sy _ _ _ _ hcr]
          exact hsy r hr)
      (by
        intro r hr
        rw [Array.size_setD] at hr
        by_cases hcr : rowKey minY c = r
        · rw [← hcr, setD_getD_self sy _ _ _ hidx]
          simp only
          have := hnum (rowKey minY c) hidx
          rw [hccount] at this
          omega
        · rw [setD_getD_ne sy _ _ _ _ hcr]
          have hc0 : (c :: t).countP (fun d => rowKey minY d = r) =
              t.countP (fun d => rowKey minY d = r) := by
            rw [List.countP_cons]
            simp [hcr]
          have := hnum r hr
          rw [hc0] at this
          exact this)
      (by
        intro r r2 hrr hr2
        rw [Array.size_setD] at hr2
        exact hmono r r2 hrr hr2)
      (by
        intro r hr
        rw [Array.size_setD] at hr
        exact htot r hr)
    rw [Array.size_setD] at r2 r3 r4
    refine ⟨r1, r2, r3, fun r hr => ?_⟩
    rw [r4 r hr]
    by_cases hcr : rowKey minY c = r
    · subst hcr
      rw [setD_getD_self sy _ _ _ hidx]
      simp only
      rw [hestart]
      have hsplit : segList
          (sc.setD (F (rowKey minY c) +
            (sy.getD (rowKey minY c) { start := 0, num := 0 }).num) c)
          (F (rowKey minY c))
          (F (rowKey minY c) +
            ((sy.getD (rowKey minY c) { start := 0, num := 0 }).num + 1)) =
          segList (sc.setD (F (rowKey minY c) +
            (sy.getD (rowKey minY c) { start := 0, num := 0 }).num) c)
            (F (rowKey minY c))
            (F (rowKey minY c) +
              (sy.getD (rowKey minY c) { start := 0, num := 0 }).num) ++
          segList (sc.setD (F (rowKey minY c) +
            (sy.getD (rowKey minY c) { start := 0, num := 0 }).num) c)
            (F (rowKey minY c) +
              (sy.getD (rowKey minY c) { start := 0, num := 0 }).num)
            (F (rowKey minY c) +
              ((sy.getD (rowKey minY c) { start := 0, num := 0 }).num + 1)) :=
        segList_split _ (by omega) (by omega)
      rw [hsplit]
      have hfirst : segList (sc.setD (F (rowKey minY c) +
          (sy.getD (rowKey minY c) { start := 0, num := 0 }).num) c)
          (F (rowKey minY c))
          (F (rowKey minY c) +
            (sy.getD (rowKey minY c) { start := 0, num := 0 }).num) =
          segList sc (F (rowKey minY c))
            (F (rowKey minY c) +
              (sy.getD (rowKey minY c) { start := 0, num := 0 }).num) :=
        segList_setD_outside sc c (Or.inr le_rfl)
      have hsecond : segList (sc.setD (F (rowKey minY c) +
          (sy.getD (rowKey minY c) { start := 0, num := 0 }).num) c)
          (F (rowKey minY c) +
            (sy.getD (rowKey minY c) { start := 0, num := 0 }).num)
          (F (rowKey minY c) +
            ((sy.getD (rowKey minY c) { start := 0, num := 0 }).num + 1)) = [c] := by
        unfold segList
        have hw : F (rowKey minY c) +
            ((sy.getD (rowKey minY c) { start := 0, num := 0 }).num + 1) -
            (F (rowKey minY c) +
              (sy.getD (rowKey minY c) { start := 0, num := 0 }).num) = 1 := by
          omega
        rw [hw]
        have h1 : List.range 1 = [0] := rfl
        rw [h1]
        simp only [List.map_cons, List.map_nil, Nat.add_zero]
        rw [setD_getD_self sc _ _ _ (by omega)]
      rw [hfirst, hsecond]
      have hfilt : (c :: t).filter (fun d => rowKey minY d = rowKey minY c) =
          c :: t.filter (fun d => rowKey minY d = rowKey minY c) := by
        rw [List.filter_cons]
        simp
      rw [hfilt, List.append_assoc]
      rfl
    · rw [setD_getD_ne sy _ _ _ _ hcr]
      have hnr : (sy.getD r { start := 0, num := 0 }).num ≤ cnt r := by
        have := hnum r hr
        omega
      have hcong : segList (sc.setD
          ((sy.getD (rowKey minY c) { start := 0, num := 0 }).start +
            (sy.getD (rowKey minY c) { start := 0, num := 0 }).num) c)
          (F r) (F r + (sy.getD r { start := 0, num := 0 }).num) =
          segList sc (F r) (F r + (sy.getD r { start := 0, num := 0 }).num) := by
        apply segList_setD_outside
        rw [hestart]
        rcases Nat.lt_or_ge (rowKey minY c) r with hlt | hge
        · left
          have := hmono (rowKey minY c) r hlt hr
          omega
        · right
          have hgt : r < rowKey minY c := by omega
          have := hmono r (rowKey minY c) hgt hidx
          omega
      rw [hcong]
      have hfilt : (c :: t).filter (fun d => rowKey minY d = r) =
          t.filter (fun d => rowKey minY d = r) := by
        rw [List.filter_cons]
        simp [hcr]
      rw [hfilt]

theorem flatMap_congr {α β : Type} :
    ∀ (l : List α) (f g : α → List β),
      (∀ x ∈ l, f x = g x) → l.flatMap f = l.flatMap g := by
  intro l
  induction l with
  | nil => intro f g h; rfl
  | cons x t ih =>
    intro f g h
    rw [List.flatMap_cons, List.flatMap_cons, h x (List.mem_cons_self _ _),
      ih f g (fun y hy => h y (List.mem_cons_of_mem _ hy))]

theorem flatMap_perm {α β : Type} :
    ∀ (l : List α) (f g : α → List β),
      (∀ x ∈ l, (f x).Perm (g x)) → (l.flatMap f).Perm (l.flatMap g) := by
  intro l
  induction l with
  | nil => intro f g h; exact List.Perm.refl _
  | cons x t ih =>
    intro f g h
    rw [List.flatMap_cons, List.flatMap_cons]
    exact (h x (List.mem_cons_self _ _)).append
      (ih f g (fun y hy => h y (List.mem_cons_of_mem _ hy)))

theorem flatMap_if_insert {β : Type} (c : β) :
    ∀ (ks : List Nat) (m : Nat) (f : Nat → List β) (q : Nat → Bool),
      m ∈ ks → ks.Nodup → (∀ r, q r = true ↔ r = m) →
      (ks.flatMap (fun r => if q r then c :: f r else f r)).Perm
        (c :: ks.flatMap f) := by
  intro ks
  induction ks with
  | nil =>
    intro m f q hm hnd hq
    simp at hm
  | cons h tks ih =>
    intro m f q hm hnd hq
    rw [List.nodup_cons] at hnd
    rw [List.flatMap_cons, List.flatMap_cons]
    by_cases hqh : q h = true
    · have hhm : h = m := (hq h).mp hqh
      have hnotin : ∀ r ∈ tks, q r = false := by
        intro r hr
        by_cases hqr : q r = true
        · have : r = m := (hq r).mp hqr
          rw [this] at hr
          rw [hhm] at hnd
          exact absurd hr hnd.1
        · simp at hqr
          exact hqr
      have htail : tks.flatMap (fun r => if q r then c :: f r else f r) =
          tks.flatMap f := by
        apply flatMap_congr
        intro r hr
        rw [hnotin r hr]
        simp
      rw [hqh]
      simp only [if_true]
      rw [htail]
      exact List.Perm.refl _
    · simp at hqh
      rw [hqh]
      simp only [Bool.false_eq_true, if_false]
      have hmt : m ∈ tks := by
        rcases List.mem_cons.mp hm with h1 | h1
        · exfalso
          have hqm : q m = true := (hq m).mpr rfl
          rw [h1] at hqm
          rw [hqm] at hqh
          simp at hqh
        · exact h1
      have hrec := ih m f q hmt hnd.2 hq
      refine List.Perm.trans (hrec.append_left (f h)) ?_
      exact List.perm_middle

theorem range_flatMap_filter_perm (minY : Int) :
    ∀ (l : List CellBuildAntiAlias) (n : Nat),
      (∀ c ∈ l, rowKey minY c < n) →
      ((List.range n).flatMap
        (fun r => l.filter (fun c => rowKey minY c = r))).Perm l := by
  intro l
  induction l with
  | nil =>
    intro n hk
    have hz : ∀ r ∈ List.range n,
        ([] : List CellBuildAntiAlias).filter (fun c => rowKey minY c = r) = [] :=
      fun r _ => rfl
    rw [flatMap_congr _ _ _ hz]
    simp
  | cons c t ih =>
    intro n hk
    have hstep : ∀ r ∈ List.range n,
        (c :: t).filter (fun d => rowKey minY d = r) =
        (if (fun r => decide (rowKey minY c = r)) r then
          c :: t.filter (fun d => rowKey minY d = r)
        else t.filter (fun d => rowKey minY d = r)) := by
      intro r _
      rw [List.filter_cons]
    rw [flatMap_congr _ _ _ hstep]
    have hins := flatMap_if_insert c (List.range n) (rowKey minY c)
      (fun r => t.filter (fun d => rowKey minY d = r))
      (fun r => decide (rowKey minY c = r))
      (List.mem_range.mpr (hk c (List.mem_cons_self _ _)))
      (List.nodup_range n)
      (fun r => by simp [eq_comm])
    refine List.Perm.trans hins ?_
    exact List.Perm.cons c (ih n (fun d hd => hk d (List.mem_cons_of_mem _ hd)))

theorem offs_succ (cnt : Nat → Nat) (r : Nat) :
    ((List.range (r + 1)).map cnt).sum = ((List.range r).map cnt).sum + cnt r := by
  rw [List.range_succ, List.map_append, List.sum_append]
  simp

theorem offs_le (cnt : Nat → Nat) (r r2 : Nat) (h : r ≤ r2) :
    ((List.range r).map cnt).sum ≤ ((List.range r2).map cnt).sum := by
  have he : r2 = r + (r2 - r) := by omega
  rw [he, List.range_add, List.map_append, List.sum_append]
  exact Nat.le_add_right _ _

theorem offs_total (minY : Int) (l : List CellBuildAntiAlias) (n : Nat)
    (hk : ∀ c ∈ l, rowKey minY c < n) :
    ((List.range n).map (fun k => l.countP (fun c => rowKey minY c = k))).sum =
      l.length := by
  have hperm := range_flatMap_filter_perm minY l n hk
  have hlen := hperm.length_eq
  rw [List.length_flatMap] at hlen
  rw [← hlen]
  congr 1
  apply List.map_congr_left
  intro k _
  show l.countP (fun c => rowKey minY c = k) =
    (l.filter (fun c => rowKey minY c = k)).length
  rw [List.countP_eq_length_filter]

theorem toArray_getD {α : Type} (l : List α) (r : Nat) (d : α) :
    (l.toArray).getD r d = l.getD r d := by
  by_cases hr : r < l.length
  · rw [getD_eq_getElem _ _ _ (by simpa using hr), List.getD_eq_getElem l d hr]
    simp
  · unfold Array.getD
    rw [dif_neg (by simpa using hr)]
    rw [List.getD_eq_default _ _ (by omega)]

theorem getD_mkArray {α : Type} (n r : Nat) (v d : α) (h : r < n) :
    (Array.mkArray n v).getD r d = v := by
  rw [getD_eq_getElem _ _ _ (by simpa using h)]
  simp

/-- The combined histogram and prefix-sum passes produce, for every row `r`,
the table entry `{start := sum of the counts of the rows before r, num := 0}`. -/
theorem preTable_spec (minY : Int) (cells : List CellBuildAntiAlias) (ySize : Nat)
    (hk : ∀ c ∈ cells, rowKey minY c < ySize) :
    (prefixSumPass (histogramPass minY cells
        (Array.mkArray ySize { start := 0, num := 0 })).toList 0).toArray.size =
      ySize ∧
    ∀ r, r < ySize →
      (prefixSumPass (histogramPass minY cells
          (Array.mkArray ySize { start := 0, num := 0 })).toList 0).toArray.getD r
          { start := 0, num := 0 } =
        { start := ((List.range r).map
            (fun k => cells.countP (fun c => rowKey minY c = k))).sum,
          num := 0 } := by
  obtain ⟨h1, h2⟩ := histogramPass_spec minY cells
    (Array.mkArray ySize { start := 0, num := 0 })
    (fun c hc => by simpa using hk c hc)
  rw [Array.size_mkArray] at h1 h2
  have hentry : ∀ r, r < ySize →
      (histogramPass minY cells
        (Array.mkArray ySize { start := 0, num := 0 })).getD r
        { start := 0, num := 0 } =
      { start := cells.countP (fun c => rowKey minY c = r), num := 0 } := by
    intro r hr
    rw [h2 r hr, getD_mkArray _ _ _ _ hr]
    simp
  have hlistlen : (histogramPass minY cells
      (Array.mkArray ySize { start := 0, num := 0 })).toList.length = ySize := by
    rw [Array.length_toList, h1]
  have hlist : ∀ r, r < ySize →
      (histogramPass minY cells
        (Array.mkArray ySize { start := 0, num := 0 })).toList.getD r
        { start := 0, num := 0 } =
      { start := cells.countP (fun c => rowKey minY c = r), num := 0 } := by
    intro r hr
    have hb1 : r < (histogramPass minY cells
        (Array.mkArray ySize { start := 0, num := 0 })).toList.length := by omega
    have hb2 : r < (histogramPass minY cells
        (Array.mkArray ySize { start := 0, num := 0 })).size := by omega
    rw [List.getD_eq_getElem _ _ hb1]
    have harr : (histogramPass minY cells
        (Array.mkArray ySize { start := 0, num := 0 })).toList[r] =
        (histogramPass minY cells
          (Array.mkArray ySize { start := 0, num := 0 }))[r] := rfl
    rw [harr, ← getD_eq_getElem _ _ { start := 0, num := 0 } hb2]
    exact hentry r hr
  obtain ⟨p1, p2⟩ := prefixSumPass_spec (histogramPass minY cells
    (Array.mkArray ySize { start := 0, num := 0 })).toList 0
  rw [hlistlen] at p1 p2
  constructor
  · simp [p1]
  · intro r hr
    rw [toArray_getD, List.getD_eq_getElem _ _ (by rw [p1]; omega)]
    rw [← List.getD_eq_getElem _ { start := 0, num := 0 } (by rw [p1]; omega)]
    rw [p2 r hr]
    have htake : (((histogramPass minY cells
        (Array.mkArray ySize { start := 0, num := 0 })).toList.take r).map
          (fun e => e.start)).sum =
        ((List.range r).map
          (fun k => cells.countP (fun c => rowKey minY c = k))).sum := by
      congr 1
      apply List.ext_getElem
      · simp [hlistlen]
        omega
      · intro k g1 g2
        simp only [List.getElem_map, List.getElem_take, List.getElem_range]
        have hkr : k < ySize := by
          simp [hlistlen] at g1
          omega
        have := hlist k hkr
        rw [List.getD_eq_getElem _ _ (by omega)] at this
        rw [this]
    rw [htake]
    rw [hlist r hr]
    simp

/-- End-to-end correctness of the bucketing-and-sorting pipeline of
`SortAllCells` (histogram, prefix sums, scatter, per-row quicksort): the row
table ends with `start` the sum of the earlier rows' counts and `num` the
row's count, every row slice of the final flat array is within bounds, is a
permutation of that row's cells in commit order, and is sorted by `x`. -/
theorem sortedView_pipeline (minY : Int) (cells : List CellBuildAntiAlias)
    (ySize total : Nat)
    (hkeys : ∀ c ∈ cells, rowKey minY c < ySize)
    (htotal : cells.length = total)
    (P : Array CellBuildAntiAlias × Array SortedYLevel)
    (hP : P = scatterPass minY cells (Array.mkArray total cellDefault)
      (prefixSumPass (histogramPass minY cells
        (Array.mkArray ySize { start := 0, num := 0 })).toList 0).toArray) :
    (qsortRows P.2.toList P.1).size = total ∧
    P.2.size = ySize ∧
    ∀ k, k < ySize →
      (P.2.getD k { start := 0, num := 0 }).start =
        ((List.range k).map
          (fun r => cells.countP (fun c => rowKey minY c = r))).sum ∧
      (P.2.getD k { start := 0, num := 0 }).num =
        cells.countP (fun c => rowKey minY c = k) ∧
      (P.2.getD k { start := 0, num := 0 }).start +
        (P.2.getD k { start := 0, num := 0 }).num ≤ total ∧
      (segList (qsortRows P.2.toList P.1)
          (P.2.getD k { start := 0, num := 0 }).start
          ((P.2.getD k { start := 0, num := 0 }).start +
            (P.2.getD k { start := 0, num := 0 }).num)).Perm
        (cells.filter (fun c => rowKey minY c = k)) ∧
      sortedRange (qsortRows P.2.toList P.1)
        (P.2.getD k { start := 0, num := 0 }).start
        ((P.2.getD k { start := 0, num := 0 }).start +
          (P.2.getD k { start := 0, num := 0 }).num) := by
  subst hP
  obtain ⟨hpre1, hpre2⟩ := preTable_spec minY cells ySize hkeys
  have hoffsS : ∀ r : Nat,
      ((List.range (r + 1)).map
        (fun k => cells.countP (fun c => rowKey minY c = k))).sum =
      ((List.range r).map
        (fun k => cells.countP (fun c => rowKey minY c = k))).sum +
        cells.countP (fun c => rowKey minY c = r) :=
    fun r => offs_succ _ r
  have hmonoF : ∀ r r2 : Nat, r < r2 →
      ((List.range r).map
        (fun k => cells.countP (fun c => rowKey minY c = k))).sum +
        cells.countP (fun c => rowKey minY c = r) ≤
      ((List.range r2).map
        (fun k => cells.countP (fun c => rowKey minY c = k))).sum := by
    intro r r2 hrr
    rw [← hoffsS r]
    exact offs_le _ (r + 1) r2 (by omega)
  have htotF : ∀ k : Nat, k < ySize →
      ((List.range k).map
        (fun r => cells.countP (fun c => rowKey minY c = r))).sum +
        cells.countP (fun c => rowKey minY c = k) ≤ total := by
    intro k hk
    have h1 := hoffsS k
    have h2 := offs_le (fun k => cells.countP (fun c => rowKey minY c = k))
      (k + 1) ySize (by omega)
    have h3 := offs_total minY cells ySize hkeys
    omega
  obtain ⟨q1, q2, q3, q4⟩ := scatterPass_spec minY
    (fun r => ((List.range r).map
      (fun k => cells.countP (fun c => rowKey minY c = k))).sum)
    (fun k => cells.countP (fun c => rowKey minY c = k))
    total cells (Array.mkArray total cellDefault)
    (prefixSumPass (histogramPass minY cells
      (Array.mkArray ySize { start := 0, num := 0 })).toList 0).toArray
    (Array.size_mkArray _ _)
    (fun c hc => by rw [hpre1]; exact hkeys c hc)
    (fun r hr => by
      rw [hpre1] at hr
      rw [hpre2 r hr])
    (fun r hr => by
      rw [hpre1] at hr
      rw [hpre2 r hr]
      show 0 + cells.countP (fun c => rowKey minY c = r) = _
      rw [Nat.zero_add])
    (fun r r2 hrr hr2 => hmonoF r r2 hrr)
    (fun r hr => by
      rw [hpre1] at hr
      exact htotF r hr)
  rw [hpre1] at q2 q3 q4
  have q4' : ∀ k, k < ySize →
      segList (scatterPass minY cells (Array.mkArray total cellDefault)
          (prefixSumPass (histogramPass minY cells
            (Array.mkArray ySize { start := 0, num := 0 })).toList 0).toArray).1
        (((List.range k).map
          (fun r => cells.countP (fun c => rowKey minY c = r))).sum)
        (((List.range k).map
          (fun r => cells.countP (fun c => rowKey minY c = r))).sum +
          cells.countP (fun c => rowKey minY c = k)) =
      cells.filter (fun c => rowKey minY c = k) := by
    intro k hk
    have hq := q4 k hk
    rw [hpre2 k hk] at hq
    simp only [Nat.add_zero] at hq
    have hempty : segList (Array.mkArray total cellDefault)
        (((List.range k).map
          (fun r => cells.countP (fun c => rowKey minY c = r))).sum)
        (((List.range k).map
          (fun r => cells.countP (fun c => rowKey minY c = r))).sum) = [] := by
      simp [segList]
    rw [hempty, List.nil_append] at hq
    exact hq
  have hlistlen : (scatterPass minY cells (Array.mkArray total cellDefault)
      (prefixSumPass (histogramPass minY cells
        (Array.mkArray ySize { start := 0, num := 0 })).toList 0).toArray).2.toList.length =
      ySize := by
    rw [Array.length_toList, q2]
  have hrow : ∀ (i : Nat) (h : i < ySize),
      (scatterPass minY cells (Array.mkArray total cellDefault)
        (prefixSumPass (histogramPass minY cells
          (Array.mkArray ySize { start := 0, num := 0 })).toList 0).toArray).2.toList.getD
        i { start := 0, num := 0 } =
      { start := ((List.range i).map
          (fun r => cells.countP (fun c => rowKey minY c = r))).sum,
        num := cells.countP (fun c => rowKey minY c = i) } := by
    intro i h
    have hi : i < (scatterPass minY cells (Array.mkArray total cellDefault)
        (prefixSumPass (histogramPass minY cells
          (Array.mkArray ySize { start := 0, num := 0 })).toList 0).toArray).2.size := by
      rw [q2]
      exact h
    have hb1 : i < (scatterPass minY cells (Array.mkArray total cellDefault)
        (prefixSumPass (histogramPass minY cells
          (Array.mkArray ySize { start := 0, num := 0 })).toList
          0).toArray).2.toList.length := by
      rw [hlistlen]
      exact h
    rw [List.getD_eq_getElem _ _ hb1]
    have h1 : (scatterPass minY cells (Array.mkArray total cellDefault)
        (prefixSumPass (histogramPass minY cells
          (Array.mkArray ySize { start := 0, num := 0 })).toList 0).toArray).2.toList[i] =
        (scatterPass minY cells (Array.mkArray total cellDefault)
          (prefixSumPass (histogramPass minY cells
            (Array.mkArray ySize { start := 0, num := 0 })).toList 0).toArray).2.getD
          i { start := 0, num := 0 } := by
      rw [getD_eq_getElem _ _ _ hi]
      exact Array.getElem_toList _
    rw [h1]
    exact q3 i h
  obtain ⟨w1, w2, w3⟩ := qsortRows_spec
    (scatterPass minY cells (Array.mkArray total cellDefault)
      (prefixSumPass (histogramPass minY cells
        (Array.mkArray ySize { start := 0, num := 0 })).toList 0).toArray).2.toList
    (scatterPass minY cells (Array.mkArray total cellDefault)
      (prefixSumPass (histogramPass minY cells
        (Array.mkArray ySize { start := 0, num := 0 })).toList 0).toArray).1
    (by
      intro e he
      obtain ⟨i, hi, hei⟩ := List.mem_iff_getElem.mp he
      have hiY : i < ySize := by rw [hlistlen] at hi; exact hi
      have := hrow i hiY
      rw [List.getD_eq_getElem _ _ hi] at this
      rw [← hei, this, q1]
      exact htotF i hiY)
    (by
      rw [List.pairwise_iff_getElem]
      intro i j hi hj hij
      have hiY : i < ySize := by rw [hlistlen] at hi; exact hi
      have hjY : j < ySize := by rw [hlistlen] at hj; exact hj
      have h1 := hrow i hiY
      have h2 := hrow j hjY
      rw [List.getD_eq_getElem _ _ hi] at h1
      rw [List.getD_eq_getElem _ _ hj] at h2
      rw [h1, h2]
      exact Or.inl (hmonoF i j hij))
  refine ⟨by rw [w1, q1], q2, fun k hk => ?_⟩
  have hgd := q3 k hk
  have hkl : k < (scatterPass minY cells (Array.mkArray total cellDefault)
      (prefixSumPass (histogramPass minY cells
        (Array.mkArray ySize { start := 0, num := 0 })).toList 0).toArray).2.toList.length := by
    rw [hlistlen]
    exact hk
  have hval := hrow k hk
  rw [List.getD_eq_getElem _ _ hkl] at hval
  have hmem := List.getElem_mem hkl
  rw [hval] at hmem
  rw [hgd]
  refine ⟨rfl, rfl, htotF k hk, ?_, ?_⟩
  · have hw := (w3 _ hmem).1
    have hw2 : (segList (qsortRows
        (scatterPass minY cells (Array.mkArray total cellDefault)
          (prefixSumPass (histogramPass minY cells
            (Array.mkArray ySize { start := 0, num := 0 })).toList 0).toArray).2.toList
        (scatterPass minY cells (Array.mkArray total cellDefault)
          (prefixSumPass (histogramPass minY cells
            (Array.mkArray ySize { start := 0, num := 0 })).toList 0).toArray).1)
        (((List.range k).map
          (fun r => cells.countP (fun c => rowKey minY c = r))).sum)
        (((List.range k).map
          (fun r => cells.countP (fun c => rowKey minY c = r))).sum +
          cells.countP (fun c => rowKey minY c = k))).Perm
        (segList (scatterPass minY cells (Array.mkArray total cellDefault)
          (prefixSumPass (histogramPass minY cells
            (Array.mkArray ySize { start := 0, num := 0 })).toList 0).toArray).1
        (((List.range k).map
          (fun r => cells.countP (fun c => rowKey minY c = r))).sum)
        (((List.range k).map
          (fun r => cells.countP (fun c => rowKey minY c = r))).sum +
          cells.countP (fun c => rowKey minY c = k))) := hw
    show (segList _ (((List.range k).map
      (fun r => cells.countP (fun c => rowKey minY c = r))).sum)
      (((List.range k).map
        (fun r => cells.countP (fun c => rowKey minY c = r))).sum +
        cells.countP (fun c => rowKey minY c = k))).Perm _
    rw [← q4' k hk]
    exact hw2
  · have hw := (w3 _ hmem).2
    show sortedRange _ (((List.range k).map
      (fun r => cells.countP (fun c => rowKey minY c = r))).sum)
      (((List.range k).map
        (fun r => cells.countP (fun c => rowKey minY c = r))).sum +
        cells.countP (fun c => rowKey minY c = k))
    exact hw

/-- `SortAllCells` on an unsorted state with a void pending cell and at least
one committed cell: the record equation exposing the full bucketing-and-sorting
pipeline (histogram, prefix sums, scatter, per-row quicksort). -/
theorem sortAllCells_eq_clean (s : RasterizerCellsAntiAlias)
    (hsorted : s.sorted = false)
    (harea : s.currCell.area = 0) (hcover : s.currCell.cover = 0)
    (hne : s.numCells ≠ 0) :
    sortAllCells s =
      { s with
        currCell := CellBuildAntiAlias.initialCell
        sorted := true
        sortedCells := qsortRows
          (scatterPass s.minY s.cellsRev.reverse
            (Array.mkArray s.numCells cellDefault)
            (prefixSumPass (histogramPass s.minY s.cellsRev.reverse
              (Array.mkArray (s.maxY - s.minY + 1).toNat
                { start := 0, num := 0 })).toList 0).toArray).2.toList
          (scatterPass s.minY s.cellsRev.reverse
            (Array.mkArray s.numCells cellDefault)
            (prefixSumPass (histogramPass s.minY s.cellsRev.reverse
              (Array.mkArray (s.maxY - s.minY + 1).toNat
                { start := 0, num := 0 })).toList 0).toArray).1
        sortedY :=
          (scatterPass s.minY s.cellsRev.reverse
            (Array.mkArray s.numCells cellDefault)
            (prefixSumPass (histogramPass s.minY s.cellsRev.reverse
              (Array.mkArray (s.maxY - s.minY + 1).toNat
                { start := 0, num := 0 })).toList 0).toArray).2 } := by
  have hadd := addCurrentCell_zero harea hcover
  rw [sortAllCells, hadd]
  rw [if_neg (by rw [hsorted]; exact Bool.false_ne_true)]
  rw [if_neg hne]

/-- C3: after `SortAllCells` returns with at least one committed cell, for
every row `y` in `[GetMinY(), GetMaxY()]` the slice of `ScanlineNumCells(y)`
cells starting at `ScanlineCells(y)` is non-decreasing in `x`, and the union of
these per-row slices over all rows is exactly the multiset of all
`GetTotalCells()` committed cells, with no duplicates and no omissions
(stated as a permutation with the committed-cell list). -/
theorem C3_sorted_view (s : RasterizerCellsAntiAlias)
    (hlen : s.cellsRev.length = s.numCells)
    (hrange : ∀ c ∈ s.cellsRev, s.minY ≤ c.y ∧ c.y ≤ s.maxY)
    (hsorted : s.sorted = false)
    (harea : s.currCell.area = 0) (hcover : s.currCell.cover = 0)
    (hne : s.numCells ≠ 0) :
    (sortAllCells s).sorted = true ∧
    getTotalCells (sortAllCells s) = s.cellsRev.length ∧
    (∀ k, k < (s.maxY - s.minY + 1).toNat →
      (scanlineCells (sortAllCells s) (s.minY + (k : Int))).length =
        scanlineNumCells (sortAllCells s) (s.minY + (k : Int)) ∧
      List.Pairwise (fun u v : CellBuildAntiAlias => u.x ≤ v.x)
        (scanlineCells (sortAllCells s) (s.minY + (k : Int)))) ∧
    ((List.range (s.maxY - s.minY + 1).toNat).flatMap
      (fun k => scanlineCells (sortAllCells s) (s.minY + (k : Int)))).Perm
      s.cellsRev := by
  have heq := sortAllCells_eq_clean s hsorted harea hcover hne
  set T := scatterPass s.minY s.cellsRev.reverse
      (Array.mkArray s.numCells cellDefault)
      (prefixSumPass (histogramPass s.minY s.cellsRev.reverse
        (Array.mkArray (s.maxY - s.minY + 1).toNat
          { start := 0, num := 0 })).toList 0).toArray with hT
  have hkeys : ∀ c ∈ s.cellsRev.reverse,
      rowKey s.minY c < (s.maxY - s.minY + 1).toNat := by
    intro c hc
    obtain ⟨g1, g2⟩ := hrange c (List.mem_reverse.mp hc)
    unfold rowKey
    omega
  have htotal : s.cellsRev.reverse.length = s.numCells := by
    rw [List.length_reverse, hlen]
  obtain ⟨w1, w2, wk⟩ := sortedView_pipeline s.minY s.cellsRev.reverse
    (s.maxY - s.minY + 1).toNat s.numCells hkeys htotal T hT
  have hfy : (sortAllCells s).sortedY = T.2 := by rw [heq]
  have hfc : (sortAllCells s).sortedCells = qsortRows T.2.toList T.1 := by rw [heq]
  have hfm : (sortAllCells s).minY = s.minY := by rw [heq]
  have hscan : ∀ k, k < (s.maxY - s.minY + 1).toNat →
      scanlineCells (sortAllCells s) (s.minY + (k : Int)) =
        segList (qsortRows T.2.toList T.1)
          (T.2.getD k { start := 0, num := 0 }).start
          ((T.2.getD k { start := 0, num := 0 }).start +
            (T.2.getD k { start := 0, num := 0 }).num) := by
    intro k hk
    obtain ⟨q1, q2, q3, q4, q5⟩ := wk k hk
    have hidx : ((s.minY + (k : Int)) - s.minY).toNat = k := by omega
    rw [scanlineCells, scanlineNumCells, hfy, hfc, hfm, hidx]
    have hbound : (T.2.getD k { start := 0, num := 0 }).start +
        (T.2.getD k { start := 0, num := 0 }).num ≤
        (qsortRows T.2.toList T.1).size := by
      rw [w1]
      exact q3
    have hdt := drop_take_eq_segList (qsortRows T.2.toList T.1)
      (T.2.getD k { start := 0, num := 0 }).start
      ((T.2.getD k { start := 0, num := 0 }).start +
        (T.2.getD k { start := 0, num := 0 }).num) hbound
    have hsub : (T.2.getD k { start := 0, num := 0 }).start +
        (T.2.getD k { start := 0, num := 0 }).num -
        (T.2.getD k { start := 0, num := 0 }).start =
        (T.2.getD k { start := 0, num := 0 }).num := by omega
    rw [hsub] at hdt
    exact hdt
  refine ⟨by rw [heq], ?_, ?_, ?_⟩
  · show (sortAllCells s).numCells = s.cellsRev.length
    rw [heq, hlen]
  · intro k hk
    constructor
    · rw [hscan k hk, segList_length]
      have hidx : ((s.minY + (k : Int)) - s.minY).toNat = k := by omega
      rw [scanlineNumCells, hfy, hfm, hidx]
      omega
    · rw [hscan k hk]
      exact sortedRange_pairwise (wk k hk).2.2.2.2
  · have h1 : (List.range (s.maxY - s.minY + 1).toNat).flatMap
        (fun k => scanlineCells (sortAllCells s) (s.minY + (k : Int))) =
        (List.range (s.maxY - s.minY + 1).toNat).flatMap
          (fun k => segList (qsortRows T.2.toList T.1)
            (T.2.getD k { start := 0, num := 0 }).start
            ((T.2.getD k { start := 0, num := 0 }).start +
              (T.2.getD k { start := 0, num := 0 }).num)) :=
      flatMap_congr _ _ _ (fun k hk => hscan k (List.mem_range.mp hk))
    have h2 : ((List.range (s.maxY - s.minY + 1).toNat).flatMap
        (fun k => segList (qsortRows T.2.toList T.1)
          (T.2.getD k { start := 0, num := 0 }).start
          ((T.2.getD k { start := 0, num := 0 }).start +
            (T.2.getD k { start := 0, num := 0 }).num))).Perm
        ((List.range (s.maxY - s.minY + 1).toNat).flatMap
          (fun r => s.cellsRev.reverse.filter
            (fun c => rowKey s.minY c = r))) :=
      flatMap_perm _ _ _ (fun k hk => (wk k (List.mem_range.mp hk)).2.2.2.1)
    have h3 := range_flatMap_filter_perm s.minY s.cellsRev.reverse
      (s.maxY - s.minY + 1).toNat hkeys
    rw [h1]
    exact (h2.trans h3).trans (List.reverse_perm s.cellsRev)

def c3WitnessState : RasterizerCellsAntiAlias :=
  lineOperate (initState 1024) 2560 0 2560 768

/-- Witness for C3: the vertical segment `(2560, 0) -> (2560, 768)` on a fresh
rasterizer commits three cells on rows 0, 1, 2 and leaves a void pending cell,
so every hypothesis of the theorem holds by computation. -/
theorem C3_sorted_view_witness :
    (sortAllCells c3WitnessState).sorted = true ∧
    getTotalCells (sortAllCells c3WitnessState) = c3WitnessState.cellsRev.length ∧
    (∀ k, k < (c3WitnessState.maxY - c3WitnessState.minY + 1).toNat →
      (scanlineCells (sortAllCells c3WitnessState)
        (c3WitnessState.minY + (k : Int))).length =
        scanlineNumCells (sortAllCells c3WitnessState)
          (c3WitnessState.minY + (k : Int)) ∧
      List.Pairwise (fun u v : CellBuildAntiAlias => u.x ≤ v.x)
        (scanlineCells (sortAllCells c3WitnessState)
          (c3WitnessState.minY + (k : Int)))) ∧
    ((List.range (c3WitnessState.maxY - c3WitnessState.minY + 1).toNat).flatMap
      (fun k => scanlineCells (sortAllCells c3WitnessState)
        (c3WitnessState.minY + (k : Int)))).Perm c3WitnessState.cellsRev :=
  C3_sorted_view c3WitnessState (by decide) (by decide) (by decide) (by decide)
    (by decide) (by decide)

end OHOS
